import Mathlib

/-! ddd-core: unit of work, transaction propagation and event capture.

A shallow embedding of `ddd/transaction.go`, `ddd/aggregate.go`, `ddd/repository.go`,
`ddd/trace.go`, `ddd/event.go`, `ddd/container.go`, `ddd/component.go`, `diff/*.go`,
`funcs/funcs.go` and `ebus/*.go`.

Go `error` values are `Option GoError` (`none` is `nil`).  A call that may panic
returns an `Outcome`.  The storage backend (gorm and the database behind it), the
handle factory and the event publisher are external collaborators: every call made
on them is appended to the `log` of the `World`, and what they answer is read from
the records `Gorm`, `DBFactory` and `DomainEventPublisher`.  The singleton registry and
the event bus are modelled sequentially: one call at a time, every mutex unlocked
between two calls; a goroutine that the bus starts is recorded, not run.
-/

namespace DddCore

/-! ## Errors and outcomes -/

/-- The type `apperr.ErrType`. -/
inductive ErrType where
  | ErrTypeOther
  | ErrTypeBiz
  | ErrTypeSys
  deriving DecidableEq, Repr

/-- Go error values that occur in the modelled code: the two sentinels of
`ddd/transaction.go`, gorm's `ErrInvalidTransaction`, the three sentinels of
`ebus/error.go`, errors supplied by collaborators, told apart by a number, and the
`AppError` values of package `apperr` that have no parent: their kind, code, message
and context (with string values). -/
inductive GoError where
  | ErrNotInTransaction
  | ErrInTransaction
  | ErrInvalidTransaction
  | ErrTopicNotFound
  | ErrRegisterTopicNotSet
  | ErrSubscriberAlreadyRegistered
  | other (code : Nat)
  | appError (errType : ErrType) (errCode : Int) (errMessage : String)
      (errCtx : List (String × String))
  deriving DecidableEq, Repr

/-- How a call of type `func(...) error` ends: it returns an error value (possibly
`nil`) or it panics with a message. -/
inductive Outcome where
  | ret (err : Option GoError)
  | panicked (msg : String)
  deriving DecidableEq, Repr

/-! ## The backend handle (`*gorm.DB`) as far as the code consumes it -/

/-- The value of `Statement.ConnPool`: a plain connection pool, which is not a
`gorm.TxCommitter`, or a running SQL transaction, which is one. -/
inductive ConnPool where
  | pool (source : Nat)
  | tx (id : Nat)
  deriving DecidableEq, Repr

/-- The fields of `*gorm.DB` read by `ddd/transaction.go`. -/
structure DB where
  ConnPool : ConnPool
  Error : Option GoError
  DisableNestedTransaction : Bool
  deriving DecidableEq, Repr

/-- A value of interface `DomainEvent`: what `String()`, `GetEventId()` and
`GetOccurredOn()` return. -/
structure DomainEvent where
  name : String
  EventId : String
  OccurredOn : Int
  deriving DecidableEq, Repr

/-- One call made on a collaborator: on the backend handle (`Begin` with the handle
it was called on and the transaction it started, if any; `Commit`, `Rollback`,
`SavePoint`, `RollbackTo` with the transaction they act on) or on the event publisher
(`Publish` with the event and the error it returned). -/
inductive Op where
  | Begin (src : DB) (started : Option Nat)
  | Commit (tx : Nat)
  | Rollback (tx : Nat)
  | SavePoint (tx : Nat) (name : String)
  | RollbackTo (tx : Nat) (name : String)
  | Publish (event : DomainEvent) (err : Option GoError)
  deriving DecidableEq, Repr

/-- The collaborators as seen from the code: the calls made so far, oldest first, and
the number the next SQL transaction gets. -/
structure World where
  log : List Op
  nextTx : Nat
  deriving DecidableEq, Repr

/-- Append one backend call to the log. -/
def World.push (w : World) (op : Op) : World :=
  { w with log := w.log ++ [op] }

/-- What the backend answers: the error of `Begin` on a handle, of `Commit` on a
transaction and of `SavePoint` on a transaction, each possibly depending on
everything that happened before. -/
structure Gorm where
  beginError : World → DB → Option GoError
  commitError : World → Nat → Option GoError
  savePointError : World → Nat → String → Option GoError

/-- `db.Begin()`: a new handle.  When the backend starts a transaction the handle is
bound to it (its `ConnPool` is a `TxCommitter`), otherwise it keeps the pool of `db`
and carries the error. -/
def DB.Begin (g : Gorm) (db : DB) (w : World) : DB × World :=
  match g.beginError w db with
  | none =>
    ({ db with ConnPool := ConnPool.tx w.nextTx, Error := none },
     { log := w.log ++ [Op.Begin db (some w.nextTx)], nextTx := w.nextTx + 1 })
  | some e => ({ db with Error := some e }, w.push (Op.Begin db none))

/-- `db.Commit().Error`: commits when the pool is a `TxCommitter`; gorm reports an
invalid transaction otherwise, without touching the database. -/
def DB.Commit (g : Gorm) (db : DB) (w : World) : Option GoError × World :=
  match db.ConnPool with
  | ConnPool.tx n => (g.commitError w n, w.push (Op.Commit n))
  | ConnPool.pool _ => (some GoError.ErrInvalidTransaction, w)

/-- `db.Rollback()`: rolls back when the pool is a `TxCommitter`. -/
def DB.Rollback (db : DB) (w : World) : World :=
  match db.ConnPool with
  | ConnPool.tx n => w.push (Op.Rollback n)
  | ConnPool.pool _ => w

/-- `db.SavePoint(name).Error`.  The code calls it only on a handle inside a
transaction; on a plain pool it is taken to fail without reaching the backend. -/
def DB.SavePoint (g : Gorm) (db : DB) (name : String) (w : World) : Option GoError × World :=
  match db.ConnPool with
  | ConnPool.tx n => (g.savePointError w n name, w.push (Op.SavePoint n name))
  | ConnPool.pool _ => (some GoError.ErrInvalidTransaction, w)

/-- `db.RollbackTo(name)`, called only on a handle inside a transaction. -/
def DB.RollbackTo (db : DB) (name : String) (w : World) : World :=
  match db.ConnPool with
  | ConnPool.tx n => w.push (Op.RollbackTo n name)
  | ConnPool.pool _ => w

/-- `db.Session(&gorm.Session{})`: a new handle on the same pool. -/
def DB.Session (db : DB) : DB := db

/-! ## `TransactionContext` -/

mutual
/-- A `context.Context` value: one that is not a `*TransactionContext`, or one that
is. -/
inductive Context where
  | plain (id : Nat)
  | txCtx (c : TransactionContext)
/-- The struct `TransactionContext`: the wrapped context, the handle (`nil` or not)
and the parent link (`nil` or not). -/
inductive TransactionContext where
  | mk (ctx : Context) (tx : Option DB) (parent : Option TransactionContext)
end

/-- Field `ctx`. -/
def TransactionContext.ctx : TransactionContext → Context
  | .mk c _ _ => c

/-- Field `tx`. -/
def TransactionContext.tx : TransactionContext → Option DB
  | .mk _ t _ => t

/-- Field `parent`. -/
def TransactionContext.parent : TransactionContext → Option TransactionContext
  | .mk _ _ p => p

/-- `IsRoot`: `c.parent == nil`. -/
def TransactionContext.IsRoot (c : TransactionContext) : Bool :=
  c.parent.isNone

/-- `Ctx`. -/
def TransactionContext.Ctx (c : TransactionContext) : Context := c.ctx

/-- `TxDB`. -/
def TransactionContext.TxDB (c : TransactionContext) : Option DB := c.tx

/-- `TxError`: the error carried by the handle, `nil` without a handle. -/
def TransactionContext.TxError (c : TransactionContext) : Option GoError :=
  match c.tx with
  | some db => db.Error
  | none => none

/-- `InTransaction`: there is a handle and its pool is a `TxCommitter`. -/
def TransactionContext.InTransaction (c : TransactionContext) : Bool :=
  match c.tx with
  | none => false
  | some db =>
    match db.ConnPool with
    | ConnPool.tx _ => true
    | ConnPool.pool _ => false

/-- `Session`: a child context on a session of the same handle, with the receiver as
parent.  `none` stands for the nil dereference of `c.tx.Session` when there is no
handle. -/
def TransactionContext.Session (c : TransactionContext) : Option TransactionContext :=
  match c.tx with
  | none => none
  | some db => some (TransactionContext.mk c.ctx (some db.Session) (some c))

/-- `Rollback`: a physical rollback when inside a transaction, nothing otherwise. -/
def TransactionContext.Rollback (c : TransactionContext) (w : World) : World :=
  match c.tx with
  | some db => if c.InTransaction then db.Rollback w else w
  | none => w

/-- `Commit`: `ErrNotInTransaction` outside a transaction; the physical commit for a
root; `nil` without any backend call for a non-root. -/
def TransactionContext.Commit (g : Gorm) (c : TransactionContext) (w : World) :
    Option GoError × World :=
  match c.tx with
  | none => (some GoError.ErrNotInTransaction, w)
  | some db =>
    if !c.InTransaction then (some GoError.ErrNotInTransaction, w)
    else if c.IsRoot then db.Commit g w
    else (none, w)

/-! ## `TransactionManager` -/

/-- `TransactionPropagation` is an `int8`; the four constants are `0..3`. -/
abbrev TransactionPropagation := Int

/-- `PropagationRequired`. -/
def PropagationRequired : TransactionPropagation := 0

/-- `PropagationRequiresNew`. -/
def PropagationRequiresNew : TransactionPropagation := 1

/-- `PropagationNested`. -/
def PropagationNested : TransactionPropagation := 2

/-- `PropagationNever`. -/
def PropagationNever : TransactionPropagation := 3

/-- `isPropagationSupport`. -/
def isPropagationSupport (propagation : TransactionPropagation) : Bool :=
  if propagation = PropagationRequired then true
  else if propagation = PropagationRequiresNew then true
  else if propagation = PropagationNested then true
  else if propagation = PropagationNever then true
  else false

/-- `defaultPropagation`. -/
def defaultPropagation : TransactionPropagation := PropagationRequired

/-- The interface `DBFactory`: what a lookup answers for a context. -/
structure DBFactory where
  LookupDB : World → Context → Except GoError DB
  LookupWriteDB : World → Context → Except GoError DB

/-- The struct `TransactionManager`. -/
structure TransactionManager where
  factory : DBFactory

/-- The protected body `bizFn`: a function value with an address (what `%p` prints)
that, run on a context, ends in an outcome and may have used the backend. -/
structure BizFn where
  addr : Nat
  run : Context → World → Outcome × World

/-- The savepoint name `fmt.Sprintf("sp%p", bizFn)`. -/
def savePointName (bizFn : BizFn) : String :=
  "sp0x" ++ String.mk (Nat.toDigits 16 bizFn.addr)

/-- `lookupNewDB`. -/
def TransactionManager.lookupNewDB (m : TransactionManager) (ctx : Context) (w : World) :
    Except GoError DB :=
  m.factory.LookupDB w ctx

/-- `lookupDB`: the handle of a transaction context that has one, a factory lookup
otherwise. -/
def TransactionManager.lookupDB (m : TransactionManager) (ctx : Context) (w : World) :
    Except GoError DB :=
  match ctx with
  | Context.txCtx c =>
    match c.tx with
    | some db => Except.ok db
    | none => m.lookupNewDB ctx w
  | Context.plain _ => m.lookupNewDB ctx w

/-- The deferred function of the three propagation paths that roll back the whole
transaction: it runs when the function unwinds, and rolls back if a panic is
propagating or the error is not `nil`. -/
def deferRollback (txCtx : TransactionContext) (r : Outcome × World) : Outcome × World :=
  match r.1 with
  | Outcome.ret none => r
  | _ => (r.1, txCtx.Rollback r.2)

/-- The common tail of `withRequiredPropagation` (no transaction yet) and of
`withRequiresNewPropagation` once `txCtx` is built: run the body unless `Begin`
left an error, commit if the error is still `nil`, then the deferred rollback. -/
def runInNewTransaction (g : Gorm) (txCtx : TransactionContext) (bizFn : BizFn) (w : World) :
    Outcome × World :=
  let afterBody : Outcome × World :=
    match txCtx.TxError with
    | some e => (Outcome.ret (some e), w)
    | none => bizFn.run (Context.txCtx txCtx) w
  let afterCommit : Outcome × World :=
    match afterBody.1 with
    | Outcome.ret none =>
      let c := txCtx.Commit g afterBody.2
      (Outcome.ret c.1, c.2)
    | _ => afterBody
  deferRollback txCtx afterCommit

/-- The test `txCtx, ok := ctx.(*TransactionContext); ok && txCtx.InTransaction()`. -/
def Context.InTransaction : Context → Bool
  | Context.txCtx c => c.InTransaction
  | Context.plain _ => false

/-- The context `withRequiredPropagation` runs the body on when it begins a
transaction with handle `tx`: a new root context around `ctx` when `ctx` is not a
transaction context, and otherwise the incoming transaction context itself, whose
handle is overwritten (`txCtx.tx = db.Begin()`). -/
def requiredTxCtx (ctx : Context) (tx : DB) : TransactionContext :=
  match ctx with
  | Context.txCtx txCtx => TransactionContext.mk txCtx.ctx (some tx) txCtx.parent
  | Context.plain _ => TransactionContext.mk ctx (some tx) none

/-- The `else` branch of `withRequiredPropagation`: look the handle up, begin, run. -/
def beginRequired (g : Gorm) (m : TransactionManager) (ctx : Context) (bizFn : BizFn)
    (w : World) : Outcome × World :=
  match m.lookupDB ctx w with
  | Except.error e => (Outcome.ret (some e), w)
  | Except.ok db =>
    let b := db.Begin g w
    runInNewTransaction g (requiredTxCtx ctx b.1) bizFn b.2

/-- `withRequiredPropagation`. -/
def TransactionManager.withRequiredPropagation (g : Gorm) (m : TransactionManager)
    (ctx : Context) (bizFn : BizFn) (w : World) : Outcome × World :=
  match ctx with
  | Context.txCtx txCtx =>
    if txCtx.InTransaction then
      match txCtx.Session with
      | some child => deferRollback txCtx (bizFn.run (Context.txCtx child) w)
      | none => deferRollback txCtx (Outcome.panicked "nil pointer dereference", w)
    else beginRequired g m ctx bizFn w
  | Context.plain _ => beginRequired g m ctx bizFn w

/-- `withRequiresNewPropagation`. -/
def TransactionManager.withRequiresNewPropagation (g : Gorm) (m : TransactionManager)
    (ctx : Context) (bizFn : BizFn) (w : World) : Outcome × World :=
  let pureCtx : Context :=
    match ctx with
    | Context.txCtx txCtx => txCtx.Ctx
    | Context.plain _ => ctx
  match m.lookupNewDB pureCtx w with
  | Except.error e => (Outcome.ret (some e), w)
  | Except.ok db =>
    let b := db.Begin g w
    runInNewTransaction g (TransactionContext.mk ctx (some b.1) none) bizFn b.2

/-- The nested path of `withNestedPropagation` for a context inside a transaction
with handle `db`. -/
def nestedInTransaction (g : Gorm) (txCtx : TransactionContext) (db : DB) (bizFn : BizFn)
    (w : World) : Outcome × World :=
  let runBody (w1 : World) : Outcome × World :=
    match txCtx.Session with
    | some child => bizFn.run (Context.txCtx child) w1
    | none => (Outcome.panicked "nil pointer dereference", w1)
  if !db.DisableNestedTransaction then
    let sp := db.SavePoint g (savePointName bizFn) w
    let r : Outcome × World :=
      match sp.1 with
      | none => runBody sp.2
      | some e => (Outcome.ret (some e), sp.2)
    -- the deferred function: roll back to the savepoint on panic or error
    match r.1 with
    | Outcome.ret none => r
    | _ => (r.1, db.RollbackTo (savePointName bizFn) r.2)
  else
    runBody w

/-- `withNestedPropagation`. -/
def TransactionManager.withNestedPropagation (g : Gorm) (m : TransactionManager)
    (ctx : Context) (bizFn : BizFn) (w : World) : Outcome × World :=
  match ctx with
  | Context.txCtx txCtx =>
    match txCtx.TxDB with
    | some db =>
      if txCtx.InTransaction then nestedInTransaction g txCtx db bizFn w
      else m.withRequiredPropagation g ctx bizFn w
    | none => m.withRequiredPropagation g ctx bizFn w
  | Context.plain _ => m.withRequiredPropagation g ctx bizFn w

/-- `withNeverPropagation`. -/
def TransactionManager.withNeverPropagation (_m : TransactionManager)
    (ctx : Context) (bizFn : BizFn) (w : World) : Outcome × World :=
  match ctx with
  | Context.txCtx txCtx =>
    if txCtx.InTransaction then (Outcome.ret (some GoError.ErrInTransaction), w)
    else bizFn.run ctx w
  | Context.plain _ => bizFn.run ctx w

/-- `Transaction`: the first of the variadic `propagations` is used when it is one of
the four supported values, `defaultPropagation()` otherwise. -/
def TransactionManager.Transaction (g : Gorm) (m : TransactionManager) (ctx : Context)
    (bizFn : BizFn) (propagations : List TransactionPropagation) (w : World) :
    Outcome × World :=
  let propagation : TransactionPropagation :=
    match propagations with
    | p :: _ => if isPropagationSupport p then p else defaultPropagation
    | [] => defaultPropagation
  if propagation = PropagationNever then m.withNeverPropagation ctx bizFn w
  else if propagation = PropagationNested then m.withNestedPropagation g ctx bizFn w
  else if propagation = PropagationRequired then m.withRequiredPropagation g ctx bizFn w
  else if propagation = PropagationRequiresNew then m.withRequiresNewPropagation g ctx bizFn w
  else (Outcome.panicked "not support propagation", w)

/-! ## Go values, as far as `funcs.DeepCopy` and `ddd.Trace` look at them -/

/-- The key type of a map, as far as `reflect.Value.SetMapIndex` tells them apart in
`copyRecursive`: a pointer type, the empty interface, or any other type. -/
inductive MapKeyKind where
  | pointer
  | anyIface
  | other
  deriving DecidableEq, Repr

mutual
/-- A Go value by kind: the basic kinds (`int` stands for every numeric kind),
`time.Time`, pointers and interfaces (`none` is `nil`), structs with their field
list, slices and maps (`none` is `nil`), and arrays.  Values are trees: cyclic
values and the identity of pointers are outside the model. -/
inductive GoValue where
  | int (n : Int)
  | str (s : String)
  | bool (b : Bool)
  | time (t : Int)
  | ptr (target : Option GoValue)
  | iface (dyn : Option GoValue)
  | struct (typ : String) (fields : List StructField)
  | slice (elems : Option (List GoValue))
  | array (elems : List GoValue)
  | map (keys : MapKeyKind) (entries : Option (List (GoValue × GoValue)))
/-- A struct field: its `reflect.StructField` name, whether it is exported
(`PkgPath == ""`), the value of the `trace` key of its tag, and its value. -/
inductive StructField where
  | mk (Name : String) (exported : Bool) (Tag : String) (value : GoValue)
end

/-- Field name. -/
def StructField.Name : StructField → String
  | .mk n _ _ _ => n

/-- Whether the field is exported. -/
def StructField.exported : StructField → Bool
  | .mk _ e _ _ => e

/-- The `trace` tag. -/
def StructField.Tag : StructField → String
  | .mk _ _ t _ => t

/-- Field value. -/
def StructField.value : StructField → GoValue
  | .mk _ _ _ v => v

mutual
/-- The zero value of the type of a value (`reflect.New(t).Elem()`). -/
def zeroOf : GoValue → GoValue
  | .int _ => .int 0
  | .str _ => .str ""
  | .bool _ => .bool false
  | .time _ => .time 0
  | .ptr _ => .ptr none
  | .iface _ => .iface none
  | .struct typ fs => .struct typ (zeroFields fs)
  | .slice _ => .slice none
  | .array es => .array (zeroElems es)
  | .map k _ => .map k none
/-- Zero values of the fields of a struct. -/
def zeroFields : List StructField → List StructField
  | [] => []
  | .mk n e t v :: rest => .mk n e t (zeroOf v) :: zeroFields rest
/-- Zero values of the elements of an array. -/
def zeroElems : List GoValue → List GoValue
  | [] => []
  | v :: rest => zeroOf v :: zeroElems rest
end

mutual
/-- `copyRecursive(original, cpy)` for a `cpy` that starts as the zero value: the
value `cpy` holds afterwards, or `none` when the call panics. -/
def copyRecursive : GoValue → Option GoValue
  | .ptr none => some (.ptr none)
  | .ptr (some v) => (copyRecursive v).map (fun c => .ptr (some c))
  | .iface none => some (.iface none)
  | .iface (some v) => (copyRecursive v).map (fun c => .iface (some c))
  | .time t => some (.time t)
  | .struct typ fs => (copyFields fs).map (fun c => .struct typ c)
  | .slice none => some (.slice none)
  | .slice (some es) => (copyElems es).map (fun c => .slice (some c))
  | .map k none => some (.map k none)
  | .map k (some es) => (copyEntries k es).map (fun c => .map k (some c))
  | .int n => some (.int n)
  | .str s => some (.str s)
  | .bool b => some (.bool b)
  | .array es => some (.array es)
/-- The struct case: exported fields are copied, the others are skipped and stay
zero. -/
def copyFields : List StructField → Option (List StructField)
  | [] => some []
  | .mk n e t v :: rest =>
    if e then
      match copyRecursive v, copyFields rest with
      | some c, some cs => some (.mk n e t c :: cs)
      | _, _ => none
    else (copyFields rest).map (fun cs => .mk n e t (zeroOf v) :: cs)
/-- The slice case, element by element. -/
def copyElems : List GoValue → Option (List GoValue)
  | [] => some []
  | v :: rest =>
    match copyRecursive v, copyElems rest with
    | some c, some cs => some (c :: cs)
    | _, _ => none
/-- The map case, entry by entry: the value is copied, the key is copied with
`DeepCopy`, which returns a pointer, and `SetMapIndex` panics unless a pointer is
assignable to the key type. -/
def copyEntries (k : MapKeyKind) : List (GoValue × GoValue) → Option (List (GoValue × GoValue))
  | [] => some []
  | (key, v) :: rest =>
    match copyRecursive v, copyKey key, copyEntries k rest with
    | some c, some ck, some cs =>
      match k with
      | .other => none
      | .pointer => some ((ck, c) :: cs)
      | .anyIface => some ((.iface (some ck), c) :: cs)
    | _, _, _ => none
/-- `reflect.ValueOf(DeepCopy(key.Interface()))`: a pointer to a copy of the key, or
of what the key points to; `none` when `DeepCopy` returns `nil` or panics on a nil
pointer. -/
def copyKey : GoValue → Option GoValue
  | .iface none => none
  | .iface (some (.ptr none)) => none
  | .iface (some (.ptr (some t))) => (copyRecursive t).map (fun c => .ptr (some c))
  | .iface (some d) => (copyRecursive d).map (fun c => .ptr (some c))
  | .ptr none => none
  | .ptr (some t) => (copyRecursive t).map (fun c => .ptr (some c))
  | .int n => some (.ptr (some (.int n)))
  | .str s => some (.ptr (some (.str s)))
  | .bool b => some (.ptr (some (.bool b)))
  | .time t => some (.ptr (some (.time t)))
  | .array es => some (.ptr (some (.array es)))
  | .struct typ fs => (copyFields fs).map (fun c => .ptr (some (.struct typ c)))
  | .slice none => some (.ptr (some (.slice none)))
  | .slice (some es) => (copyElems es).map (fun c => .ptr (some (.slice (some c))))
  | .map k none => some (.ptr (some (.map k none)))
  | .map k (some es) => (copyEntries k es).map (fun c => .ptr (some (.map k (some c))))
end

mutual
/-- A value with every unexported struct field reachable without passing a map set to
its zero value: what a deep copy that skips unexported fields keeps. -/
def exportedView : GoValue → GoValue
  | .ptr none => .ptr none
  | .ptr (some v) => .ptr (some (exportedView v))
  | .iface none => .iface none
  | .iface (some v) => .iface (some (exportedView v))
  | .struct typ fs => .struct typ (exportedViewFields fs)
  | .slice none => .slice none
  | .slice (some es) => .slice (some (exportedViewElems es))
  | .int n => .int n
  | .str s => .str s
  | .bool b => .bool b
  | .time t => .time t
  | .array es => .array es
  | .map k es => .map k es
/-- `exportedView` over the fields of a struct. -/
def exportedViewFields : List StructField → List StructField
  | [] => []
  | .mk n e t v :: rest =>
    (if e then .mk n e t (exportedView v) else .mk n e t (zeroOf v)) :: exportedViewFields rest
/-- `exportedView` over the elements of a slice. -/
def exportedViewElems : List GoValue → List GoValue
  | [] => []
  | v :: rest => exportedView v :: exportedViewElems rest
end

mutual
/-- Every map reachable through pointers, interfaces, exported struct fields and
slice elements is `nil` or empty. -/
def mapsEmpty : GoValue → Bool
  | .ptr none => true
  | .ptr (some v) => mapsEmpty v
  | .iface none => true
  | .iface (some v) => mapsEmpty v
  | .struct _ fs => mapsEmptyFields fs
  | .slice none => true
  | .slice (some es) => mapsEmptyElems es
  | .map _ none => true
  | .map _ (some es) => es.isEmpty
  | .int _ => true
  | .str _ => true
  | .bool _ => true
  | .time _ => true
  | .array _ => true
/-- `mapsEmpty` over the exported fields of a struct. -/
def mapsEmptyFields : List StructField → Bool
  | [] => true
  | .mk _ e _ v :: rest => (if e then mapsEmpty v else true) && mapsEmptyFields rest
/-- `mapsEmpty` over the elements of a slice. -/
def mapsEmptyElems : List GoValue → Bool
  | [] => true
  | v :: rest => mapsEmpty v && mapsEmptyElems rest
end

mutual
/-- No unexported struct field is reachable through pointers, interfaces, struct
fields and slice elements: the values a deep copy that skips unexported fields
reproduces in full.  Arrays and maps are not descended into, as in `exportedView`. -/
def exportedOnly : GoValue → Bool
  | .ptr none => true
  | .ptr (some v) => exportedOnly v
  | .iface none => true
  | .iface (some v) => exportedOnly v
  | .struct _ fs => exportedOnlyFields fs
  | .slice none => true
  | .slice (some es) => exportedOnlyElems es
  | .int _ => true
  | .str _ => true
  | .bool _ => true
  | .time _ => true
  | .array _ => true
  | .map _ _ => true
/-- Every field of the list is exported and `exportedOnly`. -/
def exportedOnlyFields : List StructField → Bool
  | [] => true
  | .mk _ e _ v :: rest => e && exportedOnly v && exportedOnlyFields rest
/-- `exportedOnly` over the elements of a slice. -/
def exportedOnlyElems : List GoValue → Bool
  | [] => true
  | v :: rest => exportedOnly v && exportedOnlyElems rest
end

/-- An address with an exported `City` and an unexported `zip`. -/
def sampleAddr (city : String) (zip : Int) : GoValue :=
  .struct "Addr" [StructField.mk "City" true "" (.str city),
                  StructField.mk "zip" false "" (.int zip)]

/-! ## Package `diff` -/

/-- A `ListDiff`: the added, removed and modified elements.  `emptyListDiff` is the
one with three empty lists. -/
structure ListDiff where
  added : List GoValue
  removed : List GoValue
  modified : List GoValue

/-- `EmptyListDiff`. -/
def EmptyListDiff : ListDiff := { added := [], removed := [], modified := [] }

/-- `listDiff.IsChanged`. -/
def ListDiff.IsChanged (l : ListDiff) : Bool :=
  decide (l.added.length > 0) || decide (l.removed.length > 0) || decide (l.modified.length > 0)

/-- A non-nil `AggregateDiff`: `emptyAggregateDiff`, or an `aggregateDiff` with its
flag and its two maps, kept as association lists. -/
inductive AggregateDiff where
  | emptyAggregateDiff
  | aggregateDiff (selfChanged : Bool) (diffMap : List (String × Bool))
      (listDiffMap : List (String × ListDiff))

/-- `EmptyAggregateDiff`. -/
def EmptyAggregateDiff : AggregateDiff := AggregateDiff.emptyAggregateDiff

/-- `IsSelfChanged`. -/
def AggregateDiff.IsSelfChanged : AggregateDiff → Bool
  | .emptyAggregateDiff => false
  | .aggregateDiff sc _ _ => sc

/-- `GetDiff(name).IsChanged()`: the stored diff, `NewDiff(false)` without one. -/
def AggregateDiff.GetDiff (d : AggregateDiff) (name : String) : Bool :=
  match d with
  | .emptyAggregateDiff => false
  | .aggregateDiff _ dm _ =>
    match dm.lookup name with
    | some rlt => rlt
    | none => false

/-- `GetListDiff(name)`: the stored list diff, `EmptyListDiff()` without one. -/
def AggregateDiff.GetListDiff (d : AggregateDiff) (name : String) : ListDiff :=
  match d with
  | .emptyAggregateDiff => EmptyListDiff
  | .aggregateDiff _ _ lm =>
    match lm.lookup name with
    | some rlt => rlt
    | none => EmptyListDiff

/-- `IsEmpty`. -/
def AggregateDiff.IsEmpty : AggregateDiff → Bool
  | .emptyAggregateDiff => true
  | .aggregateDiff sc dm lm =>
    if sc then false
    else if dm.any (fun kv => kv.2) then false
    else if lm.any (fun kv => kv.2.IsChanged) then false
    else true

/-! ## Aggregates (`ddd/entity.go`, `ddd/aggregate.go`) -/

/-- The struct `MixModel`; times are instants. -/
structure MixModel where
  Id : Int
  CreateTime : Int
  UpdateTime : Int
  deriving DecidableEq, Repr

/-- The state of a struct that embeds `MixModel`, apart from the bookkeeping of an
embedded `AggregateManager`: its type, the embedded `MixModel`, and its other
declared fields. -/
structure AggregateData where
  typ : String
  MixModel : MixModel
  fields : List StructField

/-- `MixModel.AggregateId`. -/
def AggregateData.AggregateId (a : AggregateData) : Int := a.MixModel.Id

/-- `MixModel.Identifier`. -/
def AggregateData.Identifier (a : AggregateData) : Int := a.MixModel.Id

/-- `funcs.DeepCopy` at an aggregate: the struct case of `copyRecursive` over its
fields.  The three fields of `MixModel` are exported and copied as they are; the
fields of `AggregateManager` are unexported, so the copy has no events and no
snapshot and only its data is kept.  `none` when the copy panics. -/
def DeepCopy (src : AggregateData) : Option AggregateData :=
  match copyFields src.fields with
  | some fs => some { typ := src.typ, MixModel := src.MixModel, fields := fs }
  | none => none

/-- The struct `AggregateManager`: the pending events and the snapshot (`none` is
`nil`). -/
structure AggregateManager where
  events : List DomainEvent
  snapshot : Option AggregateData

/-- `IsZero`. -/
def AggregateManager.IsZero (aggregate : AggregateData) : Bool :=
  decide (aggregate.AggregateId ≤ 0)

/-- `Events`. -/
def AggregateManager.Events (a : AggregateManager) : List DomainEvent := a.events

/-- `ClearEvents`. -/
def AggregateManager.ClearEvents (a : AggregateManager) : AggregateManager :=
  if a.events.length = 0 then a else { a with events := [] }

/-- `Attach`: nothing for an identity `≤ 0`; otherwise, when no snapshot is held or
the held one has the identity of `aggregate`, the snapshot becomes a deep copy of
`aggregate`.  `none` when `DeepCopy` panics. -/
def AggregateManager.Attach (a : AggregateManager) (aggregate : AggregateData) :
    Option AggregateManager :=
  if AggregateManager.IsZero aggregate then some a
  else
    let sameOrNone : Bool :=
      match a.snapshot with
      | none => true
      | some snap => decide (aggregate.AggregateId = snap.AggregateId)
    if sameOrNone then
      match DeepCopy aggregate with
      | some copied => some { a with snapshot := some copied }
      | none => none
    else some a

/-- `Detach`. -/
def AggregateManager.Detach (a : AggregateManager) (aggregateId : Int) : AggregateManager :=
  match a.snapshot with
  | some snap => if snap.AggregateId = aggregateId then { a with snapshot := none } else a
  | none => a

/-- `Snapshot`. -/
def AggregateManager.Snapshot (a : AggregateManager) : Option AggregateData := a.snapshot

/-- `Diff`: the method of `AggregateManager` returns the `nil` interface value. -/
def AggregateManager.Diff (_a : AggregateManager) : Option AggregateDiff := none

/-- A non-nil value of interface `Aggregate`: whether it is a pointer, its data, and
the embedded `AggregateManager` when its type has one, which makes it an
`AggregateRoot`. -/
structure Aggregate where
  isPointer : Bool
  data : AggregateData
  manager : Option AggregateManager

/-! ## `RepositoryManager` (`ddd/repository.go`) -/

/-- The interface `DomainEventPublisher`: the error `Publish` returns. -/
structure DomainEventPublisher where
  Publish : World → Context → DomainEvent → Option GoError

/-- The interface `IdGenerator`. -/
structure IdGenerator where
  Gen : World → Context → Except GoError Int

/-- The struct `RepositoryManager`. -/
structure RepositoryManager where
  pub : DomainEventPublisher
  idGen : IdGenerator

/-- The callback `doSave`: given the diff (`none` is the `nil` interface) it returns an
error or `nil`; it may write the stored state of the aggregate (identity, times,
fields) and use the backend.  The bookkeeping of `AggregateManager` is out of its
reach. -/
abbrev DoSave := Option AggregateDiff → AggregateData → World → Option GoError × AggregateData × World

/-- `NextIdentify`. -/
def RepositoryManager.NextIdentify (r : RepositoryManager) (ctx : Context) (w : World) :
    Except GoError Int :=
  r.idGen.Gen w ctx

/-- `AssertPointer`: the panic message, if any. -/
def RepositoryManager.AssertPointer (agg : Aggregate) : Option String :=
  if agg.isPointer then none else some "Aggregate param should be a pointer"

/-- The loop of `AroundSave` over `root.Events()`: publish in order, stop at the first
error. -/
def publishEvents (pub : DomainEventPublisher) (ctx : Context) :
    List DomainEvent → World → Option GoError × World
  | [], w => (none, w)
  | event :: rest, w =>
    match pub.Publish w ctx event with
    | some err => (some err, w.push (Op.Publish event (some err)))
    | none => publishEvents pub ctx rest (w.push (Op.Publish event none))

/-- `AroundSave`: the outcome, the aggregate as the call leaves it, and the world. -/
def RepositoryManager.AroundSave (r : RepositoryManager) (ctx : Context) (agg : Aggregate)
    (doSave : DoSave) (w : World) : Outcome × Aggregate × World :=
  match RepositoryManager.AssertPointer agg with
  | some msg => (Outcome.panicked msg, agg, w)
  | none =>
    match agg.manager with
    | some root =>
      let p := publishEvents r.pub ctx root.Events w
      match p.1 with
      | some err => (Outcome.ret (some err), agg, p.2)
      | none =>
        let cleared := root.ClearEvents
        let ad := cleared.Diff
        let s := doSave ad agg.data p.2
        match s.1 with
        | none =>
          match cleared.Attach s.2.1 with
          | some attached =>
            (Outcome.ret none, { agg with data := s.2.1, manager := some attached }, s.2.2)
          | none =>
            (Outcome.panicked "reflect: value is not assignable to the map key type",
             { agg with data := s.2.1, manager := some cleared }, s.2.2)
        | some err =>
          (Outcome.ret (some err), { agg with data := s.2.1, manager := some cleared }, s.2.2)
    | none =>
      let s := doSave (some EmptyAggregateDiff) agg.data w
      (Outcome.ret s.1, { agg with data := s.2.1 }, s.2.2)

/-! ## Sample values -/

/-- A backend on which every call succeeds. -/
def sampleGorm : Gorm :=
  { beginError := fun _ _ => none,
    commitError := fun _ _ => none,
    savePointError := fun _ _ _ => none }

/-- A handle on a plain connection pool. -/
def sampleDB : DB :=
  { ConnPool := ConnPool.pool 0, Error := none, DisableNestedTransaction := false }

/-- A manager whose factory always answers `sampleDB`. -/
def sampleManager : TransactionManager :=
  { factory := { LookupDB := fun _ _ => Except.ok sampleDB,
                 LookupWriteDB := fun _ _ => Except.ok sampleDB } }

/-- A world in which nothing has happened yet. -/
def sampleWorld : World := { log := [], nextTx := 0 }

/-- A world in which transaction `0` has been begun on `sampleDB`. -/
def sampleWorldInTx : World := { log := [Op.Begin sampleDB (some 0)], nextTx := 1 }

/-- The handle bound to transaction `0`. -/
def sampleTxDB : DB :=
  { ConnPool := ConnPool.tx 0, Error := none, DisableNestedTransaction := false }

/-- A root transaction context inside transaction `0`. -/
def sampleTxCtx : TransactionContext :=
  TransactionContext.mk (Context.plain 0) (some sampleTxDB) none

/-- A body that returns `nil` and does not use the backend. -/
def okBody : BizFn := { addr := 4096, run := fun _ w => (Outcome.ret none, w) }

/-- A body that returns an error and does not use the backend. -/
def failBody : BizFn :=
  { addr := 4096, run := fun _ w => (Outcome.ret (some (GoError.other 1)), w) }

/-- A publisher on which every `Publish` succeeds. -/
def samplePublisher : DomainEventPublisher := { Publish := fun _ _ _ => none }

/-- A publisher on which `Publish` fails for the event named `second`. -/
def failingPublisher : DomainEventPublisher :=
  { Publish := fun _ _ e => if e.name = "second" then some (GoError.other 5) else none }

/-- A repository manager over `samplePublisher`. -/
def sampleRepo : RepositoryManager :=
  { pub := samplePublisher, idGen := { Gen := fun _ _ => Except.ok 1 } }

/-- A repository manager over `failingPublisher`. -/
def failingRepo : RepositoryManager :=
  { pub := failingPublisher, idGen := { Gen := fun _ _ => Except.ok 1 } }

/-- Two events. -/
def firstEvent : DomainEvent := { name := "first", EventId := "e1", OccurredOn := 1 }

/-- The second of the two events. -/
def secondEvent : DomainEvent := { name := "second", EventId := "e2", OccurredOn := 2 }

/-- The declared fields of the sample aggregate: an exported number and an unexported
string. -/
def sampleFields : List StructField :=
  [StructField.mk "Amount" true "" (GoValue.int 10), StructField.mk "note" false "" (GoValue.str "n")]

/-- A persisted root (identity `1`), passed by pointer, with two pending events and no
snapshot. -/
def sampleRoot : Aggregate :=
  { isPointer := true,
    data := { typ := "Order", MixModel := { Id := 1, CreateTime := 0, UpdateTime := 0 },
              fields := sampleFields },
    manager := some { events := [firstEvent, secondEvent], snapshot := none } }

/-- A persisted root (identity `1`), passed by pointer, with no pending event and no
snapshot. -/
def quietRoot : Aggregate :=
  { isPointer := true,
    data := { typ := "Order", MixModel := { Id := 1, CreateTime := 0, UpdateTime := 0 },
              fields := sampleFields },
    manager := some { events := [], snapshot := none } }

/-- A root that has no identity yet (identity `0`), passed by pointer, with no pending
event and no snapshot. -/
def unsavedRoot : Aggregate :=
  { isPointer := true,
    data := { typ := "Order", MixModel := { Id := 0, CreateTime := 0, UpdateTime := 0 },
              fields := sampleFields },
    manager := some { events := [], snapshot := none } }

/-- A `doSave` that succeeds and writes nothing. -/
def saveOk : DoSave := fun _ d w => (none, d, w)

/-- A `doSave` that fails and writes nothing. -/
def saveFail : DoSave := fun _ d w => (some (GoError.other 2), d, w)

/-- A `doSave` that reports error `3` exactly when the diff it is given is the `nil`
interface. -/
def saveProbe : DoSave := fun ad d w =>
  (match ad with
   | none => some (GoError.other 3)
   | some _ => none, d, w)

/-- A body that panics and does not use the backend. -/
def panicBody : BizFn := { addr := 4096, run := fun _ w => (Outcome.panicked "boom", w) }

/-- The context `withRequiresNewPropagation` passes to the factory: the wrapped
context of a transaction context, the context itself otherwise. -/
def pureCtx (ctx : Context) : Context :=
  match ctx with
  | Context.txCtx txCtx => txCtx.Ctx
  | Context.plain _ => ctx

/-- A non-root transaction context inside transaction `0`: the session of
`sampleTxCtx`. -/
def sampleChildCtx : TransactionContext :=
  TransactionContext.mk (Context.plain 0) (some sampleTxDB) (some sampleTxCtx)

/-! ## `reflect.DeepEqual`, zero values and map lookups on Go values -/

mutual
/-- Equality of two map keys (`==` in Go), taken structurally: two pointers count as
the same pointer when they point to equal values, the identity of pointers being
outside the model. -/
def GoValue.eqb : GoValue → GoValue → Bool
  | .int a, y =>
    match y with
    | .int b => decide (a = b)
    | _ => false
  | .str a, y =>
    match y with
    | .str b => decide (a = b)
    | _ => false
  | .bool a, y =>
    match y with
    | .bool b => decide (a = b)
    | _ => false
  | .time a, y =>
    match y with
    | .time b => decide (a = b)
    | _ => false
  | .ptr none, y =>
    match y with
    | .ptr none => true
    | _ => false
  | .ptr (some a), y =>
    match y with
    | .ptr (some b) => GoValue.eqb a b
    | _ => false
  | .iface none, y =>
    match y with
    | .iface none => true
    | _ => false
  | .iface (some a), y =>
    match y with
    | .iface (some b) => GoValue.eqb a b
    | _ => false
  | .struct t fs, y =>
    match y with
    | .struct t2 fs2 => decide (t = t2) && eqbFields fs fs2
    | _ => false
  | .slice none, y =>
    match y with
    | .slice none => true
    | _ => false
  | .slice (some a), y =>
    match y with
    | .slice (some b) => eqbElems a b
    | _ => false
  | .array a, y =>
    match y with
    | .array b => eqbElems a b
    | _ => false
  | .map k none, y =>
    match y with
    | .map k2 none => decide (k = k2)
    | _ => false
  | .map k (some a), y =>
    match y with
    | .map k2 (some b) => decide (k = k2) && eqbEntries a b
    | _ => false
termination_by structural x => x
/-- `GoValue.eqb` over the fields of two structs. -/
def eqbFields : List StructField → List StructField → Bool
  | [], ys =>
    match ys with
    | [] => true
    | _ :: _ => false
  | .mk n e t v :: r, ys =>
    match ys with
    | .mk n2 e2 t2 v2 :: r2 =>
      decide (n = n2) && decide (e = e2) && decide (t = t2) && GoValue.eqb v v2 && eqbFields r r2
    | [] => false
termination_by structural x => x
/-- `GoValue.eqb` over two element lists. -/
def eqbElems : List GoValue → List GoValue → Bool
  | [], ys =>
    match ys with
    | [] => true
    | _ :: _ => false
  | v :: r, ys =>
    match ys with
    | v2 :: r2 => GoValue.eqb v v2 && eqbElems r r2
    | [] => false
termination_by structural x => x
/-- `GoValue.eqb` over two entry lists. -/
def eqbEntries : List (GoValue × GoValue) → List (GoValue × GoValue) → Bool
  | [], ys =>
    match ys with
    | [] => true
    | _ :: _ => false
  | (k, v) :: r, ys =>
    match ys with
    | (k2, v2) :: r2 => GoValue.eqb k k2 && GoValue.eqb v v2 && eqbEntries r r2
    | [] => false
termination_by structural x => x
end

/-- `m.MapIndex(key)` on the entries of a map: the value stored under `key`, `none`
(the invalid `reflect.Value`) when the key is absent. -/
def mapIndex : List (GoValue × GoValue) → GoValue → Option GoValue
  | [], _ => none
  | (k, v) :: rest, key => if GoValue.eqb k key then some v else mapIndex rest key

mutual
/-- `reflect.DeepEqual` on two values of the same static type. -/
def DeepEqual : GoValue → GoValue → Bool
  | .int a, y =>
    match y with
    | .int b => decide (a = b)
    | _ => false
  | .str a, y =>
    match y with
    | .str b => decide (a = b)
    | _ => false
  | .bool a, y =>
    match y with
    | .bool b => decide (a = b)
    | _ => false
  | .time a, y =>
    match y with
    | .time b => decide (a = b)
    | _ => false
  | .ptr none, y =>
    match y with
    | .ptr none => true
    | _ => false
  | .ptr (some a), y =>
    match y with
    | .ptr (some b) => DeepEqual a b
    | _ => false
  | .iface none, y =>
    match y with
    | .iface none => true
    | _ => false
  | .iface (some a), y =>
    match y with
    | .iface (some b) => DeepEqual a b
    | _ => false
  | .struct t fs, y =>
    match y with
    | .struct t2 fs2 => decide (t = t2) && deepEqualFields fs fs2
    | _ => false
  | .slice none, y =>
    match y with
    | .slice none => true
    | _ => false
  | .slice (some a), y =>
    match y with
    | .slice (some b) => deepEqualElems a b
    | _ => false
  | .array a, y =>
    match y with
    | .array b => deepEqualElems a b
    | _ => false
  | .map k none, y =>
    match y with
    | .map k2 none => decide (k = k2)
    | _ => false
  | .map k (some a), y =>
    match y with
    | .map k2 (some b) => decide (k = k2) && decide (a.length = b.length) && deepEqualEntries a b
    | _ => false
termination_by structural x => x
/-- The struct case: the same fields, field by field. -/
def deepEqualFields : List StructField → List StructField → Bool
  | [], ys =>
    match ys with
    | [] => true
    | _ :: _ => false
  | .mk n e t v :: r, ys =>
    match ys with
    | .mk n2 e2 t2 v2 :: r2 =>
      decide (n = n2) && decide (e = e2) && decide (t = t2) && DeepEqual v v2 && deepEqualFields r r2
    | [] => false
termination_by structural x => x
/-- The slice and array case: the same length, element by element. -/
def deepEqualElems : List GoValue → List GoValue → Bool
  | [], ys =>
    match ys with
    | [] => true
    | _ :: _ => false
  | v :: r, ys =>
    match ys with
    | v2 :: r2 => DeepEqual v v2 && deepEqualElems r r2
    | [] => false
termination_by structural x => x
/-- The map case: every key of the first map is in the second with a deep-equal
value. -/
def deepEqualEntries : List (GoValue × GoValue) → List (GoValue × GoValue) → Bool
  | [], _ => true
  | (k, v) :: r, other =>
    (match mapIndex other k with
     | some v2 => DeepEqual v v2
     | none => false) && deepEqualEntries r other
termination_by structural x => x
end

mutual
/-- `reflect.Value.IsZero` on a valid value. -/
def isZero : GoValue → Bool
  | .int n => decide (n = 0)
  | .str s => decide (s = "")
  | .bool b => !b
  | .time t => decide (t = 0)
  | .ptr none => true
  | .ptr (some _) => false
  | .iface none => true
  | .iface (some _) => false
  | .struct _ fs => isZeroFields fs
  | .slice none => true
  | .slice (some _) => false
  | .array es => isZeroElems es
  | .map _ none => true
  | .map _ (some _) => false
/-- All fields of a struct are zero. -/
def isZeroFields : List StructField → Bool
  | [] => true
  | .mk _ _ _ v :: rest => isZero v && isZeroFields rest
/-- All elements of an array are zero. -/
def isZeroElems : List GoValue → Bool
  | [] => true
  | v :: rest => isZero v && isZeroElems rest
end

/-- `v.Interface()`: the value as an `interface{}`; an interface-typed slot yields its
dynamic value. -/
def GoValue.Interface : GoValue → GoValue
  | .iface (some v) => v
  | v => v

/-- The elements `x.Index(0) .. x.Index(x.Len()-1)` of a slice or array. -/
def GoValue.elems : GoValue → List GoValue
  | .slice (some es) => es
  | .array es => es
  | _ => []

/-- The entries a `MapRange` iterates over. -/
def GoValue.entries : GoValue → List (GoValue × GoValue)
  | .map _ (some es) => es
  | _ => []

/-- `Kind()` is `reflect.Array` or `reflect.Slice`. -/
def GoValue.isSequence : GoValue → Bool
  | .slice _ => true
  | .array _ => true
  | _ => false

/-- `Kind()` is `reflect.Map`. -/
def GoValue.isMap : GoValue → Bool
  | .map _ _ => true
  | _ => false

/-! ## `ddd/trace.go` -/

/-- What `if e, ok := idxV.(Entity); ok { ... e.Identifier() ... }` does on a value: the
dynamic type of the value does not implement `Entity` (this includes the `nil`
interface), or it does and `Identifier()` returns an identifier, or it does and
`Identifier()` panics, as the method of `MixModel` does on a `nil` pointer. -/
inductive EntityAnswer where
  | notEntity
  | identifier (id : Int)
  | panics
  deriving DecidableEq, Repr

/-- What the Go runtime and the types of the program answer to `Trace`: the type
assertion `idxV.(Entity)` with the call `e.Identifier()`, and `unicode.IsLetter`,
`unicode.IsDigit` on runes outside ASCII. -/
structure Runtime where
  Entity : GoValue → EntityAnswer
  IsLetter : Char → Bool
  IsDigit : Char → Bool

/-- The identifier a value exposes: the one `Identifier()` returns, `none` when the
value is not an `Entity` or the call panics. -/
def Runtime.Identifier (rt : Runtime) (v : GoValue) : Option Int :=
  match rt.Entity v with
  | EntityAnswer.identifier id => some id
  | _ => none

/-- The value is an `Entity` on which `Identifier()` panics. -/
def Runtime.IdentifierPanics (rt : Runtime) (v : GoValue) : Bool :=
  match rt.Entity v with
  | EntityAnswer.panics => true
  | _ => false

/-- `unicode.IsLetter`. -/
def IsLetter (rt : Runtime) (c : Char) : Bool :=
  if c.val < 128 then c.isAlpha else rt.IsLetter c

/-- `unicode.IsDigit`. -/
def IsDigit (rt : Runtime) (c : Char) : Bool :=
  if c.val < 128 then c.isDigit else rt.IsDigit c

/-- The punctuation `isValidTag` allows in a tag. -/
def tagPunctuation : List Char := "!#$%&()*+-./:;<=>?@[]^_\x7b|\x7d~ ".toList

/-- `isValidTag`. -/
def isValidTag (rt : Runtime) (s : String) : Bool :=
  if s = "" then false
  else s.toList.all (fun c => tagPunctuation.contains c || IsLetter rt c || IsDigit rt c)

/-- `parseTag`: the part before the first comma, and the part after it. -/
def parseTag (tag : String) : String × String :=
  if tag.toList.contains ',' then
    (String.mk (tag.toList.takeWhile (fun c => c != ',')),
     String.mk ((tag.toList.dropWhile (fun c => c != ',')).drop 1))
  else (tag, "")

/-- `m[k] = v` on a Go map kept as an association list: the entry is replaced where
it stands, or added at the end. -/
def assocPut {κ α : Type} [DecidableEq κ] (k : κ) (v : α) : List (κ × α) → List (κ × α)
  | [] => [(k, v)]
  | (k2, v2) :: rest => if k2 = k then (k, v) :: rest else (k2, v2) :: assocPut k v rest

/-- `m[k] = append(m[k], v)` on a Go map kept as an association list. -/
def assocAppend {α : Type} (k : String) (v : α) :
    List (String × List α) → List (String × List α)
  | [] => [(k, [v])]
  | (k2, vs) :: rest =>
    if k2 = k then (k2, vs ++ [v]) :: rest else (k2, vs) :: assocAppend k v rest

/-- `AppendAdded`. -/
def ListDiff.AppendAdded (l : ListDiff) (v : GoValue) : ListDiff :=
  { l with added := l.added ++ [v] }

/-- `AppendRemoved`. -/
def ListDiff.AppendRemoved (l : ListDiff) (v : GoValue) : ListDiff :=
  { l with removed := l.removed ++ [v] }

/-- `AppendModified`. -/
def ListDiff.AppendModified (l : ListDiff) (v : GoValue) : ListDiff :=
  { l with modified := l.modified ++ [v] }

/-- The struct `aggregateDiffBuilder`, that is the `aggregateDiff` it wraps. -/
structure AggregateDiffBuilder where
  selfChanged : Bool
  diffMap : List (String × Bool)
  listDiffMap : List (String × ListDiff)

/-- `NewAggregateDiffBuilder`. -/
def NewAggregateDiffBuilder : AggregateDiffBuilder :=
  { selfChanged := false, diffMap := [], listDiffMap := [] }

/-- `Build`. -/
def AggregateDiffBuilder.Build (b : AggregateDiffBuilder) : AggregateDiff :=
  AggregateDiff.aggregateDiff b.selfChanged b.diffMap b.listDiffMap

/-- `IsSelfChanged` of the builder. -/
def AggregateDiffBuilder.IsSelfChanged (b : AggregateDiffBuilder) : Bool := b.selfChanged

/-- `GetDiff(tag).IsChanged()` of the builder. -/
def AggregateDiffBuilder.GetDiff (b : AggregateDiffBuilder) (tag : String) : Bool :=
  b.Build.GetDiff tag

/-- `SetSelfChanged`. -/
def AggregateDiffBuilder.SetSelfChanged (b : AggregateDiffBuilder) (selfChange : Bool) :
    AggregateDiffBuilder :=
  { b with selfChanged := selfChange }

/-- `PutDiff(tag, NewDiff(d))`. -/
def AggregateDiffBuilder.PutDiff (b : AggregateDiffBuilder) (tag : String) (d : Bool) :
    AggregateDiffBuilder :=
  { b with diffMap := assocPut tag d b.diffMap }

/-- `PutListDiff`. -/
def AggregateDiffBuilder.PutListDiff (b : AggregateDiffBuilder) (tag : String)
    (ld : ListDiff) : AggregateDiffBuilder :=
  { b with listDiffMap := assocPut tag ld b.listDiffMap }

/-- The loop of `makeListDiff` that fills `xMap`: every element that is an `Entity`
is stored under the identifier `Identifier()` returns; a later element replaces an
earlier one with the same identifier.  `none` when a call of `Identifier()`
panics. -/
def entityMapFrom (rt : Runtime) :
    List (Int × GoValue) → List GoValue → Option (List (Int × GoValue))
  | m, [] => some m
  | m, idxV :: rest =>
    match rt.Entity idxV with
    | EntityAnswer.notEntity => entityMapFrom rt m rest
    | EntityAnswer.identifier id => entityMapFrom rt (assocPut id idxV m) rest
    | EntityAnswer.panics => none

/-- The map `xMap` (or `yMap`) of `makeListDiff` for the elements of a list; `none`
when a call of `Identifier()` panics. -/
def entityMap (rt : Runtime) (elems : List GoValue) : Option (List (Int × GoValue)) :=
  entityMapFrom rt [] elems

/-- What the loop of `entityMapFrom` builds when no call of `Identifier()` panics,
as a total function: the elements that expose an identifier, each under its
identifier. -/
def entityEntriesFrom (rt : Runtime) :
    List (Int × GoValue) → List GoValue → List (Int × GoValue)
  | m, [] => m
  | m, idxV :: rest =>
    match rt.Identifier idxV with
    | some id => entityEntriesFrom rt (assocPut id idxV m) rest
    | none => entityEntriesFrom rt m rest

/-- `entityEntriesFrom` from the empty map. -/
def entityEntries (rt : Runtime) (elems : List GoValue) : List (Int × GoValue) :=
  entityEntriesFrom rt [] elems

/-- The first loop of the map case of `makeListDiff`, over the entries of `x`: a key
whose lookup in `y` is zero is added, one whose values differ is modified.  `none`
when `IsZero` is called on the invalid value of an absent key, or `Interface` on a
value that came from an unexported field. -/
def mapLoopX (exported : Bool) (yEntries : List (GoValue × GoValue)) :
    ListDiff → List (GoValue × GoValue) → Option ListDiff
  | b, [] => some b
  | b, (kX, vX) :: rest =>
    match mapIndex yEntries kX with
    | none => none
    | some vY =>
      if !exported then none
      else if isZero vY then mapLoopX exported yEntries (b.AppendAdded vX.Interface) rest
      else if !DeepEqual vX vY then
        mapLoopX exported yEntries (b.AppendModified vX.Interface) rest
      else mapLoopX exported yEntries b rest

/-- The second loop of the map case of `makeListDiff`, over the entries of `y`: a key
whose lookup in `x` is zero is removed. -/
def mapLoopY (exported : Bool) (xEntries : List (GoValue × GoValue)) :
    ListDiff → List (GoValue × GoValue) → Option ListDiff
  | b, [] => some b
  | b, (kY, vY) :: rest =>
    match mapIndex xEntries kY with
    | none => none
    | some vX =>
      if isZero vX then
        if !exported then none
        else mapLoopY exported xEntries (b.AppendRemoved vY.Interface) rest
      else mapLoopY exported xEntries b rest

/-- `makeListDiff(x, y)` for the values of a field pair; `exported` tells whether the
field is exported.  Go ranges over `xMap` and `yMap` in an unspecified order; here
they are ranged over in the order of first insertion.  `none` when the call
panics. -/
def makeListDiff (rt : Runtime) (exported : Bool) (x y : GoValue) : Option ListDiff :=
  if x.isSequence then
    if !exported && !(x.elems.isEmpty && y.elems.isEmpty) then none
    else
      let xSlice := x.elems.map GoValue.Interface
      let ySlice := y.elems.map GoValue.Interface
      match entityMap rt xSlice, entityMap rt ySlice with
      | some xMap, some yMap =>
        if xMap.length = 0 || yMap.length = 0 then
          some { added := xSlice, removed := ySlice, modified := [] }
        else
          some
            { added := xMap.filterMap (fun kv =>
                match yMap.lookup kv.1 with
                | none => some kv.2
                | some _ => none),
              removed := yMap.filterMap (fun kv =>
                match xMap.lookup kv.1 with
                | none => some kv.2
                | some _ => none),
              modified := xMap.filterMap (fun kv =>
                match yMap.lookup kv.1 with
                | none => none
                | some vY => if !DeepEqual kv.2 vY then some kv.2 else none) }
      | _, _ => none
  else if x.isMap then
    match mapLoopX exported y.entries EmptyListDiff x.entries with
    | none => none
    | some b => mapLoopY exported x.entries b y.entries
  else some EmptyListDiff

/-- The state of `Trace` while it scans the fields: the builder and the two maps
`sliceField` and `mapField`.  An index is kept as the pair of fields it stands for:
field `i` of the aggregate and field `i` of the snapshot. -/
structure TraceState where
  builder : AggregateDiffBuilder
  sliceField : List (String × List (StructField × StructField))
  mapField : List (String × List (StructField × StructField))

/-- One round of the field loop of `Trace`, for field `i` of the aggregate (`f1`) and
of the snapshot (`f2`).  `none` when `Interface` is called on an unexported field. -/
def traceField (rt : Runtime) (st : TraceState) (f1 f2 : StructField) : Option TraceState :=
  if f1.Name = "AggregateManager" ∨ f1.Name = "MixModel" then some st
  else if !isValidTag rt f1.Tag then
    if !st.builder.IsSelfChanged then
      if f1.exported then
        some { st with builder := st.builder.SetSelfChanged (!DeepEqual f1.value f2.value) }
      else none
    else some st
  else
    let tagName := (parseTag f1.Tag).1
    if st.builder.GetDiff tagName then some st
    else if f1.value.isSequence then
      some { st with sliceField := assocAppend tagName (f1, f2) st.sliceField }
    else if f1.value.isMap then
      some { st with mapField := assocAppend tagName (f1, f2) st.mapField }
    else if f1.exported then
      if !DeepEqual f1.value f2.value then
        some { st with builder := st.builder.PutDiff tagName true }
      else some st
    else none

/-- The field loop of `Trace`. -/
def traceFields (rt : Runtime) : TraceState → List (StructField × StructField) →
    Option TraceState
  | st, [] => some st
  | st, (f1, f2) :: rest =>
    match traceField rt st f1 f2 with
    | some st2 => traceFields rt st2 rest
    | none => none

/-- The loop of `fillListDiff` over the fields of a group that has more than one:
whether one of them differs, reading them in order up to the first that does. -/
def anyFieldDiffers : List (StructField × StructField) → Option Bool
  | [] => some false
  | (f1, f2) :: rest =>
    if f1.exported then
      if !DeepEqual f1.value f2.value then some true else anyFieldDiffers rest
    else none

/-- One round of the loop of `fillListDiff`, for one tag and its fields. -/
def fillGroup (rt : Runtime) (b : AggregateDiffBuilder) (tagName : String)
    (indexSlice : List (StructField × StructField)) : Option AggregateDiffBuilder :=
  match indexSlice with
  | [] => some b
  | [(f1, f2)] =>
    if b.GetDiff tagName then some b
    else
      match makeListDiff rt f1.exported f1.value f2.value with
      | some ld => some (b.PutListDiff tagName ld)
      | none => none
  | fields =>
    if b.GetDiff tagName then some b
    else
      match anyFieldDiffers fields with
      | some true => some (b.PutDiff tagName true)
      | some false => some b
      | none => none

/-- `fillListDiff`.  Go ranges over `tagToIdxs` in an unspecified order; every round
reads and writes the builder under its own tag only, and here the tags are taken in
the order of first insertion. -/
def fillListDiff (rt : Runtime) : AggregateDiffBuilder →
    List (String × List (StructField × StructField)) → Option AggregateDiffBuilder
  | b, [] => some b
  | b, (tagName, indexSlice) :: rest =>
    match fillGroup rt b tagName indexSlice with
    | some b2 => fillListDiff rt b2 rest
    | none => none

/-- The state in which the field loop of `Trace` starts: a new builder and two empty
maps. -/
def newTraceState : TraceState :=
  { builder := NewAggregateDiffBuilder, sliceField := [], mapField := [] }

/-- `Trace(aggregate, snapshot)`; `none` when the call panics.  Two values of the same
type have the same fields, so field `i` of the snapshot is paired with field `i` of
the aggregate. -/
def Trace (rt : Runtime) (aggregate : AggregateData) (snapshot : Option AggregateData) :
    Option AggregateDiff :=
  match snapshot with
  | none => some (NewAggregateDiffBuilder.SetSelfChanged true).Build
  | some snap =>
    if aggregate.typ ≠ snap.typ then some (NewAggregateDiffBuilder.SetSelfChanged true).Build
    else
      match traceFields rt newTraceState (aggregate.fields.zip snap.fields) with
      | none => none
      | some st =>
        match fillListDiff rt st.builder st.sliceField with
        | none => none
        | some b1 =>
          match fillListDiff rt b1 st.mapField with
          | none => none
          | some b2 => some b2.Build

/-- The entities of the sample program, whose pointer types all point to structs
that embed `MixModel`: a pointer to such a struct is an `Entity` with the `Id` of
its `MixModel`; a `nil` pointer is an `Entity` too, and `(*MixModel).Identifier`
panics on it with a nil dereference; every other value is not an `Entity`. -/
def mixModelEntity : GoValue → EntityAnswer
  | .ptr none => EntityAnswer.panics
  | .ptr (some (.struct _ (StructField.mk n _ _ (.struct _ (StructField.mk _ _ _ (.int id) :: _))
      :: _))) => if n = "MixModel" then EntityAnswer.identifier id else EntityAnswer.notEntity
  | _ => EntityAnswer.notEntity

/-- The runtime of the sample program. -/
def sampleRuntime : Runtime :=
  { Entity := mixModelEntity, IsLetter := fun _ => false, IsDigit := fun _ => false }

/-- An element `&Item{MixModel{Id: id}, V: v}`. -/
def item (id : Int) (v : String) : GoValue :=
  GoValue.ptr (some (GoValue.struct "Item"
    [StructField.mk "MixModel" true ""
       (GoValue.struct "MixModel"
         [StructField.mk "Id" true "" (GoValue.int id),
          StructField.mk "CreateTime" true "" (GoValue.time 0),
          StructField.mk "UpdateTime" true "" (GoValue.time 0)]),
     StructField.mk "V" true "" (GoValue.str v)]))

/-! ## Package `apperr` and `NonNil`, `Find`, `FindNonNil` (`ddd/repository.go`) -/

/-- `apperr.BizError(code, message)`. -/
def BizError (code : Int) (message : String) : GoError :=
  GoError.appError ErrType.ErrTypeBiz code message []

/-- `With(k, v)` on an `AppError`; other errors are not `AppError`s and are left
alone. -/
def GoError.With (e : GoError) (k v : String) : GoError :=
  match e with
  | GoError.appError t c m ctx => GoError.appError t c m (assocPut k v ctx)
  | _ => e

/-- `apperr.ErrNotFound(msg, k, v)`. -/
def ErrNotFound (msg k v : String) : GoError :=
  (BizError 404 msg).With k v

/-- The index after the last `.` of a string, as `strings.LastIndex(name, ".") + 1`
gives it when there is one. -/
def afterLastDot : List Char → List Char
  | [] => []
  | c :: rest => if rest.contains '.' then afterLastDot rest else if c = '.' then rest else c :: rest

/-- `funcs.ReflectValueName(val)`: for `nil` the call `reflect.TypeOf(val).Kind()`
dereferences a nil `reflect.Type` and panics (`none`); for a struct value, or a
pointer to one, whose `Type().String()` is `typ`, `v.String()` is `<typ Value>`, and
the name is what stands between the last `.` (or the `<`) and the final ` Value>`. -/
def ReflectValueName (val : Option AggregateData) : Option String :=
  match val with
  | none => none
  | some a =>
    let name : List Char := ("<" ++ a.typ ++ " Value>").toList
    if name.contains '.' then
      some (String.mk ((afterLastDot name).take ((afterLastDot name).length - 7)))
    else some (String.mk ((name.drop 1).take (name.length - 7 - 1)))

/-- `NonNil(agg, err)`; `agg` is `none` for the `nil` interface. -/
def RepositoryManager.NonNil (agg : Option Aggregate) (err : Option GoError) : Outcome :=
  match err with
  | some e => Outcome.ret (some e)
  | none =>
    let missing : Bool :=
      match agg with
      | none => true
      | some a => decide (a.data.AggregateId ≤ 0)
    if missing then
      match ReflectValueName (agg.map (fun a => a.data)) with
      | some name => Outcome.ret (some (ErrNotFound (name ++ " not found") "" ""))
      | none => Outcome.panicked "invalid memory address or nil pointer dereference"
    else Outcome.ret none

/-- The callback `doFind` of `DBRepositoryManager.Find`: `loaded` is the value of
`exporter()` after the query filled it and `err` the error of the query.  An error,
or an identity `≤ 0` (no row), gives `(nil, err)`. -/
def findResult (loaded : Aggregate) (err : Option GoError) : Option Aggregate × Option GoError :=
  if err.isSome || decide (loaded.data.AggregateId ≤ 0) then (none, err) else (some loaded, none)

/-- `AroundFind` applied to what `doFind` returns: a root found without error is
attached.  `none` when `Attach` panics. -/
def RepositoryManager.AroundFind (found : Option Aggregate × Option GoError) :
    Option (Option Aggregate × Option GoError) :=
  match found with
  | (some agg, none) =>
    match agg.manager with
    | some root =>
      match root.Attach agg.data with
      | some attached => some (some { agg with manager := some attached }, none)
      | none => none
    | none => some (some agg, none)
  | other => some other

/-- `DBRepositoryManager.FindNonNil`, its error result: `NonNil` on what `Find`
returns. -/
def FindNonNil (loaded : Aggregate) (err : Option GoError) : Outcome :=
  match RepositoryManager.AroundFind (findResult loaded err) with
  | some (rlt, e) => RepositoryManager.NonNil rlt e
  | none => Outcome.panicked "reflect: value is not assignable to the map key type"

/-- The value of `exporter()` when the query found no row: the identity is still
`0`. -/
def emptyLoaded : Aggregate :=
  { isPointer := true,
    data := { typ := "model.Order", MixModel := { Id := 0, CreateTime := 0, UpdateTime := 0 },
              fields := [] },
    manager := some { events := [], snapshot := none } }

/-! ## Sample aggregates for `Trace` -/

/-- An aggregate of type `model.Order` with identity `1` and the given declared
fields. -/
def order (fields : List StructField) : AggregateData :=
  { typ := "model.Order", MixModel := { Id := 1, CreateTime := 0, UpdateTime := 0 },
    fields := fields }

/-- A field `Names []string` with tag `trace:"names"`. -/
def namesField (l : List String) : StructField :=
  StructField.mk "Names" true "names" (GoValue.slice (some (l.map GoValue.str)))

/-- A field `Attrs map[string]int` with tag `trace:"attrs"`. -/
def attrsField (l : List (String × Int)) : StructField :=
  StructField.mk "Attrs" true "attrs"
    (GoValue.map MapKeyKind.other (some (l.map (fun kv => (GoValue.str kv.1, GoValue.int kv.2)))))

/-- A field `Items []*Item` with tag `trace:"items"`. -/
def itemsField (l : List GoValue) : StructField :=
  StructField.mk "Items" true "items" (GoValue.slice (some l))

/-- An exported field `Name string` without tag. -/
def nameField (s : String) : StructField := StructField.mk "Name" true "" (GoValue.str s)

/-- An unexported field `note string` without tag. -/
def noteField (s : String) : StructField := StructField.mk "note" false "" (GoValue.str s)

/-! ## Properties of fields used to state what `Trace` returns -/

/-- The field loop of `Trace` skips the field by its name. -/
def isBookkeeping (f : StructField) : Bool :=
  decide (f.Name = "AggregateManager" ∨ f.Name = "MixModel")

/-- The field takes part in the self-changed flag: it is not skipped and carries no
valid `trace` tag. -/
def isUntagged (rt : Runtime) (f : StructField) : Bool :=
  !isBookkeeping f && !isValidTag rt f.Tag

/-- The field belongs to a group: it is not skipped and carries a valid `trace`
tag. -/
def isTagged (rt : Runtime) (f : StructField) : Bool :=
  !isBookkeeping f && isValidTag rt f.Tag

/-- The group of a tagged field. -/
def groupOf (f : StructField) : String := (parseTag f.Tag).1

/-- The identities the elements of a sequence expose, element by element. -/
def identities (rt : Runtime) (x : GoValue) : List (Option Int) :=
  x.elems.map (fun e => rt.Identifier e.Interface)

/-- A tagged field that is the same in the aggregate (`f1`) and in the snapshot
(`f2`): it is exported, the two values are deep-equal, a sequence is empty or has
an element that exposes an identity, with corresponding elements exposing the same
identity and no element on which `Identifier()` panics, and a map has no entry whose
value is the zero value. -/
def QuietField (rt : Runtime) (f1 f2 : StructField) : Prop :=
  f1.exported = true ∧
  DeepEqual f1.value f2.value = true ∧ DeepEqual f2.value f1.value = true ∧
  (f1.value.isSequence = true →
    identities rt f1.value = identities rt f2.value ∧
    (f1.value.elems = [] ∨ ∃ e ∈ f1.value.elems, (rt.Identifier e.Interface).isSome = true) ∧
    (∀ e ∈ f1.value.elems, rt.IdentifierPanics e.Interface = false) ∧
    (∀ e ∈ f2.value.elems, rt.IdentifierPanics e.Interface = false)) ∧
  (f1.value.isMap = true →
    (∀ e ∈ f1.value.entries, isZero e.2 = false) ∧
    (∀ e ∈ f2.value.entries, isZero e.2 = false))

/-- Two identifier maps with the same keys in the same order and deep-equal values
under each key. -/
def KeyRel (xm ym : List (Int × GoValue)) : Prop :=
  List.Forall₂ (fun p q => p.1 = q.1 ∧ DeepEqual p.2 q.2 = true) xm ym

/-- Every field kept under a tag of `sliceField` or `mapField` satisfies `P` and is
of the kind the map is for. -/
def Groups (P : StructField → StructField → Prop) (kind : GoValue → Bool)
    (m : List (String × List (StructField × StructField))) : Prop :=
  ∀ e ∈ m, ∀ p ∈ e.2, P p.1 p.2 ∧ kind p.1.value = true

/-- A builder that reports no change so far: no group diff, and only empty list
diffs. -/
def QuietBuilder (b : AggregateDiffBuilder) : Prop :=
  b.diffMap = [] ∧ ∀ e ∈ b.listDiffMap, e.2 = EmptyListDiff

/-- A field pair on which `Trace` does not panic: the field is exported, a sequence
has on neither side an element on which `Identifier()` panics (a `nil` pointer of an
entity type), and for a map every key of one side is a key of the other. -/
def SafeField (rt : Runtime) (f1 f2 : StructField) : Prop :=
  f1.exported = true ∧
  (f1.value.isSequence = true →
    (∀ e ∈ f1.value.elems, rt.IdentifierPanics e.Interface = false) ∧
    (∀ e ∈ f2.value.elems, rt.IdentifierPanics e.Interface = false)) ∧
  (f1.value.isMap = true →
    (∀ e ∈ f1.value.entries, (mapIndex f2.value.entries e.1).isSome = true) ∧
    (∀ e ∈ f2.value.entries, (mapIndex f1.value.entries e.1).isSome = true))

/-- Whether some untagged field differs between the aggregate and the snapshot. -/
def untaggedDiffer (rt : Runtime) (fields : List (StructField × StructField)) : Bool :=
  fields.any (fun p => isUntagged rt p.1 && !DeepEqual p.1.value p.2.value)

/-- Whether a list of values is empty can be checked. -/
instance instDecidableElemsNil (l : List GoValue) : Decidable (l = []) :=
  decidable_of_iff (l.isEmpty = true) List.isEmpty_iff

/-- `QuietField` can be checked on concrete fields. -/
instance instDecidableQuietField (rt : Runtime) (f1 f2 : StructField) :
    Decidable (QuietField rt f1 f2) := by
  unfold QuietField
  exact inferInstance

/-- `SafeField` can be checked on concrete fields. -/
instance instDecidableSafeField (rt : Runtime) (f1 f2 : StructField) :
    Decidable (SafeField rt f1 f2) := by
  unfold SafeField
  exact inferInstance

/-- A sample aggregate: an untagged name, a tagged list of items and a tagged map. -/
def sampleOrder (name : String) : AggregateData :=
  order [nameField name, itemsField [item 1 "a", item 2 "b"], attrsField [("k", 1)]]

/-- The elements of a sequence as the `interface{}` values `makeListDiff` works
with. -/
def GoValue.items (x : GoValue) : List GoValue := x.elems.map GoValue.Interface

/-! ## Sequences of `Attach` and `Detach` calls on one root -/

/-- One call on the snapshot of a root: `Attach(aggregate)` or
`Detach(aggregateId)`. -/
inductive SnapshotCall where
  | attach (aggregate : AggregateData)
  | detach (aggregateId : Int)

/-- The manager after one call, whether the call returns or panics: `Attach` can
panic only inside `DeepCopy`, before it assigns the snapshot, and the manager is
then as it was. -/
def AggregateManager.afterCall (a : AggregateManager) : SnapshotCall → AggregateManager
  | SnapshotCall.attach aggregate =>
    match a.Attach aggregate with
    | some a2 => a2
    | none => a
  | SnapshotCall.detach aggregateId => a.Detach aggregateId

/-- The manager after a sequence of calls, oldest first. -/
def AggregateManager.afterCalls : AggregateManager → List SnapshotCall → AggregateManager
  | a, [] => a
  | a, c :: rest => (a.afterCall c).afterCalls rest

/-- A manager that holds nothing: the zero value of `AggregateManager`. -/
def newManager : AggregateManager := { events := [], snapshot := none }

/-- An aggregate of type `model.Order` with the given identity and a name. -/
def orderWithId (id : Int) : AggregateData :=
  { typ := "model.Order", MixModel := { Id := id, CreateTime := 0, UpdateTime := 0 },
    fields := [nameField "n"] }

/-- A manager that holds a snapshot of the order with the given identity. -/
def managerHolding (id : Int) : AggregateManager :=
  { events := [], snapshot := some (orderWithId id) }

/-- A sample sequence of calls: attach `1`, attach `2`, detach `1`, attach `2`. -/
def sampleCalls : List SnapshotCall :=
  [SnapshotCall.attach (orderWithId 1), SnapshotCall.attach (orderWithId 2),
   SnapshotCall.detach 1, SnapshotCall.attach (orderWithId 2)]

/-! ## Sample fields that share a group, and tags with options -/

/-- An exported field with the given name, `trace` tag and value. -/
def taggedField (name tag : String) (v : GoValue) : StructField :=
  StructField.mk name true tag v

/-- A field `Title string` with the given `trace` tag. -/
def titleField (tag s : String) : StructField := taggedField "Title" tag (GoValue.str s)

/-- A field `Items []*Item` with the given `trace` tag. -/
def itemsIn (tag : String) (l : List GoValue) : StructField :=
  taggedField "Items" tag (GoValue.slice (some l))

/-- A field `More []*Item` with the given `trace` tag. -/
def moreIn (tag : String) (l : List GoValue) : StructField :=
  taggedField "More" tag (GoValue.slice (some l))

/-- A field `Attrs map[string]int` with the given `trace` tag. -/
def attrsIn (tag : String) (l : List (String × Int)) : StructField :=
  taggedField "Attrs" tag
    (GoValue.map MapKeyKind.other (some (l.map (fun kv => (GoValue.str kv.1, GoValue.int kv.2)))))

/-! ## Domain event subscribers (`ddd/event.go`) -/

/-- An event as the bus carries it (`interface{}`): a `DomainEvent`, or a value of
another type, told apart by a number. -/
inductive BusEvent where
  | domainEvent (e : DomainEvent)
  | other (v : Nat)
  deriving DecidableEq, Repr

/-- One call of a `DomainEventSubscriber` function value, known by its address: the
context and the event it is handed. -/
structure SubscriberCall where
  fn : Nat
  ctx : Context
  event : DomainEvent

/-- The struct `dddEventHandler`; the subscriber function is known by its
address. -/
structure dddEventHandler where
  id : String
  fn : Nat
  async : Bool

/-- `Identifier` of a `dddEventHandler`. -/
def dddEventHandler.Identifier (e : dddEventHandler) : String := e.id

/-- `OnEvent` of a `dddEventHandler`: the call it makes on the subscriber function;
`none` when the type assertion `event.(DomainEvent)` panics. -/
def dddEventHandler.OnEvent (e : dddEventHandler) (ctx : Context) (event : BusEvent) :
    Option SubscriberCall :=
  let ctx2 : Context :=
    if e.async then
      match ctx with
      | Context.txCtx txCtx => txCtx.Ctx
      | Context.plain _ => ctx
    else ctx
  match event with
  | BusEvent.domainEvent d => some { fn := e.fn, ctx := ctx2, event := d }
  | BusEvent.other _ => none

/-- An asynchronous subscriber. -/
def asyncHandler : dddEventHandler := { id := "audit", fn := 8192, async := true }

/-- A body that hands `firstEvent` with its own context to `asyncHandler` and returns
error `9` exactly when the context the subscriber function is handed is inside a
transaction. -/
def asyncProbeBody : BizFn :=
  { addr := 4096,
    run := fun ctx w =>
      (match asyncHandler.OnEvent ctx (BusEvent.domainEvent firstEvent) with
       | some call =>
         if call.ctx.InTransaction then Outcome.ret (some (GoError.other 9))
         else Outcome.ret none
       | none => Outcome.panicked "interface conversion", w) }

/-! ## The singleton registry (`ddd/container.go`, `ddd/component.go`) -/

/-- A component instance (`interface{}`): `nil`, or a value known by its address. -/
inductive Instance where
  | nil
  | at (addr : Nat)
  deriving DecidableEq, Repr

/-- The argument `c` of the registry functions, by the case `componentName` takes:
the `nil` interface, a `string`, a `Component` (with what `Name()` returns), a `nil`
pointer, or another value, possibly behind a pointer, with the name of its type.
Values of string kind that are not of type `string` are outside the model. -/
inductive ComponentKey where
  | nil
  | str (nameStr : String)
  | component (name : String)
  | nilPointer
  | value (typ : String)
  deriving DecidableEq, Repr

/-- The end of `componentName`, on `name := v.String()`: the name itself unless it
starts with `<`, and otherwise `name[1 : len(name)-7]`. -/
def stripValue (name : String) : String :=
  match name.toList with
  | '<' :: rest => String.mk (rest.take (name.length - 7 - 1))
  | _ => name

/-- `componentName`; `none` when it panics, which it does on the `nil` interface,
where `funcs.ReflectValue` calls `reflect.TypeOf(c).Kind()`.  `String()` of the
invalid value behind a `nil` pointer is `<invalid Value>`, and of a value of type
`T` that is not a string it is `<T Value>`. -/
def componentName (c : ComponentKey) : Option String :=
  match c with
  | ComponentKey.str nameStr => some nameStr
  | ComponentKey.component name => some name
  | ComponentKey.nil => none
  | ComponentKey.nilPointer => some (stripValue "<invalid Value>")
  | ComponentKey.value typ => some (stripValue ("<" ++ typ ++ " Value>"))

/-- A constructor `constructFn`: a function value known by its address, and what a
call of it returns (`none` when it panics).  Constructors do not call the registry
themselves. -/
structure ConstructFn where
  addr : Nat
  result : Option Instance

/-- The package variables `componentMap` and `lockMap` (`none` is the `nil` map; of
`lockMap` only the names matter, every mutex being unlocked between two calls), and
the constructors invoked so far, oldest first. -/
structure Container where
  componentMap : Option (List (String × Instance))
  lockMap : Option (List String)
  constructed : List Nat

/-- The container of a program that has just started. -/
def newContainer : Container := { componentMap := none, lockMap := none, constructed := [] }

/-- The lookup `componentMap[name]`. -/
def Container.lookup (s : Container) (name : String) : Option Instance :=
  match s.componentMap with
  | none => none
  | some m => m.lookup name

/-- `getLock`: the container once the mutex of `name` exists. -/
def getLock (s : Container) (name : String) : Container :=
  match s.lockMap with
  | none => { s with lockMap := some [name] }
  | some lm => if lm.contains name then s else { s with lockMap := some (lm ++ [name]) }

/-- `LoadOrStoreComponent`: what it returns (`none` when it panics) and the container
afterwards. -/
def LoadOrStoreComponent (c : ComponentKey) (constructFn : ConstructFn) (s : Container) :
    Option Instance × Container :=
  match componentName c with
  | none => (none, s)
  | some name =>
    match s.lookup name with
    | some component => (some component, s)
    | none =>
      let s1 := getLock s name
      match s1.lookup name with
      | some component => (some component, s1)
      | none =>
        let m : List (String × Instance) := s1.componentMap.getD []
        let s2 : Container :=
          { s1 with componentMap := some m, constructed := s1.constructed ++ [constructFn.addr] }
        match constructFn.result with
        | none => (none, s2)
        | some component =>
          (some component, { s2 with componentMap := some (assocPut name component m) })

/-- `LoadComponent`: the instance and the found flag; `none` when it panics. -/
def LoadComponent (c : ComponentKey) (s : Container) : Option (Instance × Bool) :=
  match componentName c with
  | none => none
  | some name =>
    match s.lookup name with
    | some rlt => some (rlt, true)
    | none => some (Instance.nil, false)

/-- `MustLoadComponent`: the instance; `none` when it panics. -/
def MustLoadComponent (c : ComponentKey) (s : Container) : Option Instance :=
  match componentName c with
  | none => none
  | some name => s.lookup name

/-- One call on the registry. -/
inductive ContainerCall where
  | loadOrStore (c : ComponentKey) (constructFn : ConstructFn)
  | load (c : ComponentKey)
  | mustLoad (c : ComponentKey)

/-- The container after one call: only `LoadOrStoreComponent` writes. -/
def Container.afterCall (s : Container) : ContainerCall → Container
  | ContainerCall.loadOrStore c constructFn => (LoadOrStoreComponent c constructFn s).2
  | ContainerCall.load _ => s
  | ContainerCall.mustLoad _ => s

/-- The container after a sequence of calls, oldest first. -/
def Container.afterCalls : Container → List ContainerCall → Container
  | s, [] => s
  | s, call :: rest => (s.afterCall call).afterCalls rest

/-- Two constructors, of the instances at `100` and at `200`. -/
def firstConstructor : ConstructFn := { addr := 1, result := some (Instance.at 100) }

/-- The second of the two constructors. -/
def secondConstructor : ConstructFn := { addr := 2, result := some (Instance.at 200) }

/-! ## Package `ebus` -/

/-- A value of interface `EventHandler`: what `Identifier()` returns, the `Filter`
method when the handler is an `EventFilter` too, and how a call of `OnEvent` ends:
it returns (`none`) or panics with a message. -/
structure EventHandler where
  Identifier : String
  filter : Option (BusEvent → Bool)
  OnEvent : Context → BusEvent → Option String

/-- A `syncSubscriber` or an `asyncSubscriber`. -/
structure Subscriber where
  identifier : String
  handler : EventHandler
  async : Bool

/-- `subscriberIdentifier`. -/
def subscriberIdentifier (handler : EventHandler) : String :=
  "subscriber-" ++ handler.Identifier

/-- `newSyncSubscriber`. -/
def newSyncSubscriber (handler : EventHandler) : Subscriber :=
  { identifier := subscriberIdentifier handler, handler := handler, async := false }

/-- `newAsyncSubscriber`. -/
def newAsyncSubscriber (handler : EventHandler) : Subscriber :=
  { identifier := subscriberIdentifier handler, handler := handler, async := true }

/-- `Identifier` of a subscriber. -/
def Subscriber.Identifier (s : Subscriber) : String := s.identifier

/-- `Filter` of a subscriber: the filter of the handler, `false` without one. -/
def Subscriber.Filter (s : Subscriber) (event : BusEvent) : Bool :=
  match s.handler.filter with
  | some f => f event
  | none => false

/-- What a dispatch did with a handler: it called `OnEvent` inline, or it started a
goroutine that will call `OnEvent`. -/
inductive Delivery where
  | onEvent (handler : EventHandler) (ctx : Context) (event : BusEvent)
  | go (handler : EventHandler) (ctx : Context) (event : BusEvent)

/-- `Dispatch` of a subscriber: the panic message, if the inline call panics, and the
deliveries so far. -/
def Subscriber.Dispatch (s : Subscriber) (ctx : Context) (event : BusEvent)
    (log : List Delivery) : Option String × List Delivery :=
  if s.async then (none, log ++ [Delivery.go s.handler ctx event])
  else (s.handler.OnEvent ctx event, log ++ [Delivery.onEvent s.handler ctx event])

/-- The struct `SubscriberRegistry`: the elements of the linked list `subscribers`,
front to back, each known by a number that stands for its `*list.Element`, the map
`idMap` from identifier to element, and the number the next element gets. -/
structure SubscriberRegistry where
  subscribers : List (Nat × Subscriber)
  idMap : List (String × Nat)
  nextElement : Nat

/-- `NewSubscriberRegistry`. -/
def NewSubscriberRegistry : SubscriberRegistry :=
  { subscribers := [], idMap := [], nextElement := 0 }

/-- `GetSubscribers`: the subscribers, front to back, whose filter does not reject
the event. -/
def SubscriberRegistry.GetSubscribers (s : SubscriberRegistry) (event : BusEvent) :
    List Subscriber :=
  (s.subscribers.map Prod.snd).filter (fun sub => !sub.Filter event)

/-- `Register` of the registry. -/
def SubscriberRegistry.Register (s : SubscriberRegistry) (handler : EventHandler)
    (async : Bool) : Option GoError × SubscriberRegistry :=
  let key := subscriberIdentifier handler
  match s.idMap.lookup key with
  | some _ => (some GoError.ErrSubscriberAlreadyRegistered, s)
  | none =>
    let subscriber := if async then newAsyncSubscriber handler else newSyncSubscriber handler
    (none,
     { subscribers := s.subscribers ++ [(s.nextElement, subscriber)],
       idMap := assocPut key s.nextElement s.idMap,
       nextElement := s.nextElement + 1 })

/-- `Unregister` of the registry. -/
def SubscriberRegistry.Unregister (s : SubscriberRegistry) (handler : EventHandler) :
    SubscriberRegistry :=
  let key := subscriberIdentifier handler
  match s.idMap.lookup key with
  | some ele =>
    { s with subscribers := s.subscribers.filter (fun p => p.1 != ele),
             idMap := s.idMap.filter (fun kv => kv.1 != key) }
  | none => s

/-- A value of interface `Dispatcher`. -/
structure Dispatcher where
  Dispatch : Context → BusEvent → List Subscriber → List Delivery →
    Option String × List Delivery

/-- The loop of `immediateDispatcher.Dispatch`: it ends at the first subscriber whose
`Dispatch` panics. -/
def dispatchLoop (ctx : Context) (event : BusEvent) :
    List Subscriber → List Delivery → Option String × List Delivery
  | [], log => (none, log)
  | sub :: rest, log =>
    match sub.Dispatch ctx event log with
    | (some msg, log2) => (some msg, log2)
    | (none, log2) => dispatchLoop ctx event rest log2

/-- `NewImmediateDispatcher`. -/
def NewImmediateDispatcher : Dispatcher := { Dispatch := dispatchLoop }

/-- The struct `bus`: the dispatcher and the map `topics`, whose registries are kept
by value. -/
structure bus where
  dispatcher : Dispatcher
  topics : List (String × SubscriberRegistry)

/-- `NewEBus`, with the dispatcher the options set, if any. -/
def NewEBus (dispatcher : Option Dispatcher) : bus :=
  { dispatcher := dispatcher.getD NewImmediateDispatcher, topics := [] }

/-- `loadRegistry`. -/
def bus.loadRegistry (b : bus) (topic : String) : Option SubscriberRegistry :=
  b.topics.lookup topic

/-- `loadOrStoreRegistry`: the registry and the bus afterwards. -/
def bus.loadOrStoreRegistry (b : bus) (topic : String) : SubscriberRegistry × bus :=
  match b.topics.lookup topic with
  | some v => (v, b)
  | none =>
    (NewSubscriberRegistry, { b with topics := assocPut topic NewSubscriberRegistry b.topics })

/-- `Post`: how the call ends, and the deliveries so far. -/
def bus.Post (b : bus) (ctx : Context) (topic : String) (event : BusEvent)
    (log : List Delivery) : Outcome × List Delivery :=
  match b.loadRegistry topic with
  | some subscribers =>
    match b.dispatcher.Dispatch ctx event (subscribers.GetSubscribers event) log with
    | (some msg, log2) => (Outcome.panicked msg, log2)
    | (none, log2) => (Outcome.ret none, log2)
  | none => (Outcome.ret (some GoError.ErrTopicNotFound), log)

/-- One round of the loop of `Register` (`async` is `false`) and of `RegisterAsync`
(`async` is `true`): the error, if any, and the bus afterwards; the registry of the
topic is written back where the code changes it in place. -/
def bus.registerOne (async : Bool) (handler : EventHandler) (b : bus) (topic : String) :
    Option GoError × bus :=
  match (b.loadOrStoreRegistry topic).1.Register handler async with
  | (some err, _) => (some err, (b.loadOrStoreRegistry topic).2)
  | (none, r) =>
    (none,
     { (b.loadOrStoreRegistry topic).2 with
       topics := assocPut topic r (b.loadOrStoreRegistry topic).2.topics })

/-- The loop of `Register` and of `RegisterAsync` over the topics: it returns at the
first error. -/
def bus.registerLoop (async : Bool) (handler : EventHandler) :
    bus → List String → Option GoError × bus
  | b, [] => (none, b)
  | b, topic :: rest =>
    match bus.registerOne async handler b topic with
    | (some err, b1) => (some err, b1)
    | (none, b1) => bus.registerLoop async handler b1 rest

/-- `Register` of the bus. -/
def bus.Register (b : bus) (handler : EventHandler) (topics : List String) :
    Option GoError × bus :=
  if topics.length = 0 then (some GoError.ErrRegisterTopicNotSet, b)
  else bus.registerLoop false handler b topics

/-- `RegisterAsync` of the bus. -/
def bus.RegisterAsync (b : bus) (handler : EventHandler) (topics : List String) :
    Option GoError × bus :=
  if topics.length = 0 then (some GoError.ErrRegisterTopicNotSet, b)
  else bus.registerLoop true handler b topics

/-- One round of the loop of `Unregister`. -/
def bus.unregisterOne (b : bus) (handler : EventHandler) (topic : String) : bus :=
  match b.loadRegistry topic with
  | some subscribers =>
    { b with topics := assocPut topic (subscribers.Unregister handler) b.topics }
  | none => b

/-- `Unregister` of the bus. -/
def bus.Unregister (handler : EventHandler) : bus → List String → bus
  | b, [] => b
  | b, topic :: rest => bus.Unregister handler (b.unregisterOne handler topic) rest

/-- One call on a bus. -/
inductive BusCall where
  | register (handler : EventHandler) (topics : List String)
  | registerAsync (handler : EventHandler) (topics : List String)
  | unregister (handler : EventHandler) (topics : List String)
  | post (ctx : Context) (topic : String) (event : BusEvent)

/-- The bus after one call; `Post` reads the bus and does not write it. -/
def bus.afterCall (b : bus) : BusCall → bus
  | BusCall.register handler topics => (b.Register handler topics).2
  | BusCall.registerAsync handler topics => (b.RegisterAsync handler topics).2
  | BusCall.unregister handler topics => bus.Unregister handler b topics
  | BusCall.post _ _ _ => b

/-- The bus after a sequence of calls, oldest first. -/
def bus.afterCalls : bus → List BusCall → bus
  | b, [] => b
  | b, call :: rest => (b.afterCall call).afterCalls rest

/-- The subscribers currently registered on a topic, in the order of the list. -/
def bus.subscribersOf (b : bus) (topic : String) : List Subscriber :=
  match b.loadRegistry topic with
  | some r => r.subscribers.map Prod.snd
  | none => []

/-- What `Dispatch` of a subscriber adds to the deliveries. -/
def Subscriber.delivery (s : Subscriber) (ctx : Context) (event : BusEvent) : Delivery :=
  if s.async then Delivery.go s.handler ctx event else Delivery.onEvent s.handler ctx event

/-- A registry whose list and map agree: every element of the list is in the map
under the identifier of its subscriber, every entry of the map points to such an
element, the element numbers are distinct and below the next one, and the
identifier of a subscriber is the one made from its handler. -/
def RegistryOk (r : SubscriberRegistry) : Prop :=
  (∀ p ∈ r.subscribers, r.idMap.lookup p.2.identifier = some p.1) ∧
  (∀ k e, r.idMap.lookup k = some e → ∃ p ∈ r.subscribers, p.1 = e ∧ p.2.identifier = k) ∧
  (∀ p ∈ r.subscribers, p.1 < r.nextElement) ∧
  (r.subscribers.map Prod.fst).Nodup ∧
  (∀ p ∈ r.subscribers, p.2.identifier = subscriberIdentifier p.2.handler)

/-- A bus all of whose registries are in that state. -/
def bus.Ok (b : bus) : Prop := ∀ t r, b.topics.lookup t = some r → RegistryOk r

/-- A handler with identifier `audit`, without filter. -/
def auditHandler : EventHandler :=
  { Identifier := "audit", filter := none, OnEvent := fun _ _ => none }

/-- Another handler with identifier `audit`. -/
def auditAgain : EventHandler :=
  { Identifier := "audit", filter := some (fun _ => true), OnEvent := fun _ _ => none }

/-- A handler with identifier `mail`, whose filter rejects the events that are not
domain events. -/
def mailHandler : EventHandler :=
  { Identifier := "mail",
    filter := some (fun e => match e with
      | BusEvent.domainEvent _ => false
      | BusEvent.other _ => true),
    OnEvent := fun _ _ => none }

/-- A handler with identifier `stats`, without filter. -/
def statsHandler : EventHandler :=
  { Identifier := "stats", filter := none, OnEvent := fun _ _ => none }

/-- Sample calls on a bus: `audit` and `mail` are registered on `orders`, `stats` is
registered asynchronously on `orders` and `users`. -/
def sampleBusCalls : List BusCall :=
  [BusCall.register auditHandler ["orders"], BusCall.register mailHandler ["orders"],
   BusCall.registerAsync statsHandler ["orders", "users"]]

/-- Whether a delivery is an inline call of `OnEvent`. -/
def Delivery.isInline : Delivery → Bool
  | Delivery.onEvent _ _ _ => true
  | Delivery.go _ _ _ => false

/-! ## Transaction propagation: lemmas -/

/-- `Transaction` with `PropagationRequired` is `withRequiredPropagation`. -/
theorem Transaction_required (g : Gorm) (m : TransactionManager) (ctx : Context)
    (bizFn : BizFn) (w : World) :
    m.Transaction g ctx bizFn [PropagationRequired] w =
      m.withRequiredPropagation g ctx bizFn w := by
  simp [TransactionManager.Transaction, isPropagationSupport, PropagationRequired,
    PropagationNever, PropagationNested, PropagationRequiresNew]

/-- `Transaction` with `PropagationRequiresNew` is `withRequiresNewPropagation`. -/
theorem Transaction_requiresNew (g : Gorm) (m : TransactionManager) (ctx : Context)
    (bizFn : BizFn) (w : World) :
    m.Transaction g ctx bizFn [PropagationRequiresNew] w =
      m.withRequiresNewPropagation g ctx bizFn w := by
  simp [TransactionManager.Transaction, isPropagationSupport, PropagationRequired,
    PropagationNever, PropagationNested, PropagationRequiresNew]

/-- `Transaction` with `PropagationNested` is `withNestedPropagation`. -/
theorem Transaction_nested (g : Gorm) (m : TransactionManager) (ctx : Context)
    (bizFn : BizFn) (w : World) :
    m.Transaction g ctx bizFn [PropagationNested] w =
      m.withNestedPropagation g ctx bizFn w := by
  simp [TransactionManager.Transaction, isPropagationSupport, PropagationRequired,
    PropagationNever, PropagationNested, PropagationRequiresNew]

/-- `Transaction` with `PropagationNever` is `withNeverPropagation`. -/
theorem Transaction_never (g : Gorm) (m : TransactionManager) (ctx : Context)
    (bizFn : BizFn) (w : World) :
    m.Transaction g ctx bizFn [PropagationNever] w =
      m.withNeverPropagation ctx bizFn w := by
  simp [TransactionManager.Transaction, isPropagationSupport, PropagationRequired,
    PropagationNever, PropagationNested, PropagationRequiresNew]

/-- Running a body in a transaction just begun on a root context whose handle is
bound to transaction `n` and carries no error. -/
theorem runInNewTransaction_root (g : Gorm) (ctx : Context) (db : DB) (n : Nat)
    (bizFn : BizFn) (w : World) (hpool : db.ConnPool = ConnPool.tx n)
    (herr : db.Error = none) :
    runInNewTransaction g (TransactionContext.mk ctx (some db) none) bizFn w =
      match (bizFn.run (Context.txCtx (TransactionContext.mk ctx (some db) none)) w).1 with
      | Outcome.ret none =>
        (Outcome.ret (g.commitError
            (bizFn.run (Context.txCtx (TransactionContext.mk ctx (some db) none)) w).2 n),
         match g.commitError
            (bizFn.run (Context.txCtx (TransactionContext.mk ctx (some db) none)) w).2 n with
         | none =>
           (bizFn.run (Context.txCtx (TransactionContext.mk ctx (some db) none)) w).2.push
             (Op.Commit n)
         | some _ =>
           ((bizFn.run (Context.txCtx (TransactionContext.mk ctx (some db) none)) w).2.push
             (Op.Commit n)).push (Op.Rollback n))
      | r =>
        (r, (bizFn.run (Context.txCtx (TransactionContext.mk ctx (some db) none)) w).2.push
          (Op.Rollback n)) := by
  generalize hb : bizFn.run (Context.txCtx (TransactionContext.mk ctx (some db) none)) w = b
  obtain ⟨r, w2⟩ := b
  simp only [runInNewTransaction, TransactionContext.TxError, TransactionContext.tx, herr, hb]
  cases r with
  | ret err =>
    cases err with
    | none =>
      simp only [TransactionContext.Commit, TransactionContext.tx,
        TransactionContext.InTransaction, TransactionContext.IsRoot,
        TransactionContext.parent, hpool, DB.Commit, deferRollback,
        TransactionContext.Rollback, DB.Rollback]
      cases hc : g.commitError w2 n <;> simp
    | some e =>
      simp [deferRollback, TransactionContext.Rollback, TransactionContext.tx,
        TransactionContext.InTransaction, hpool, DB.Rollback]
  | panicked p =>
    simp [deferRollback, TransactionContext.Rollback, TransactionContext.tx,
      TransactionContext.InTransaction, hpool, DB.Rollback]

/-- A context with a handle bound to a transaction is inside a transaction. -/
theorem InTransaction_of_tx (c : TransactionContext) (db : DB) (T : Nat)
    (htx : c.tx = some db) (hpool : db.ConnPool = ConnPool.tx T) :
    c.InTransaction = true := by
  simp [TransactionContext.InTransaction, htx, hpool]

/-- The rollback of a context inside transaction `T` is one physical `Rollback` on
`T`. -/
theorem Rollback_of_tx (c : TransactionContext) (db : DB) (T : Nat) (w : World)
    (htx : c.tx = some db) (hpool : db.ConnPool = ConnPool.tx T) :
    c.Rollback w = w.push (Op.Rollback T) := by
  simp [TransactionContext.Rollback, TransactionContext.InTransaction, htx, hpool,
    DB.Rollback]

/-- `Required` on a context inside a transaction: the body runs on a session of the
incoming context and the deferred rollback follows. -/
theorem withRequired_reuse (g : Gorm) (m : TransactionManager) (c : TransactionContext)
    (db : DB) (T : Nat) (bizFn : BizFn) (w : World)
    (htx : c.tx = some db) (hpool : db.ConnPool = ConnPool.tx T) :
    m.withRequiredPropagation g (Context.txCtx c) bizFn w =
      deferRollback c
        (bizFn.run (Context.txCtx (TransactionContext.mk c.ctx (some db) (some c))) w) := by
  simp [TransactionManager.withRequiredPropagation, InTransaction_of_tx c db T htx hpool,
    TransactionContext.Session, htx, DB.Session]

/-! ## Transaction propagation: the claims -/

/-- C5. `Transaction` with `Required` on a context that is not inside a transaction
(a plain context, or a root transaction context without a running transaction), when
the handle lookup and `Begin` succeed: the call issues one `Begin`, the body runs on a
root transaction context bound to the new transaction, in a world whose log is the
old log plus that `Begin`.  If the body returns `nil`, one `Commit` follows the body
and its result is returned, with a `Rollback` after it only when the commit failed;
if the body returns an error `e`, one `Rollback` and no `Commit` follows and `e` is
returned. -/
theorem C5_required_outside_transaction (g : Gorm) (m : TransactionManager) (ctx : Context)
    (bizFn : BizFn) (w : World) (db : DB)
    (hctx : ctx.InTransaction = false)
    (hroot : ∀ c, ctx = Context.txCtx c → c.IsRoot = true)
    (hlookup : m.lookupDB ctx w = Except.ok db)
    (hbegin : g.beginError w db = none) :
    let tx : DB := { db with ConnPool := ConnPool.tx w.nextTx, Error := none }
    let txCtx : TransactionContext := requiredTxCtx ctx tx
    let w1 : World := { log := w.log ++ [Op.Begin db (some w.nextTx)], nextTx := w.nextTx + 1 }
    let b := bizFn.run (Context.txCtx txCtx) w1
    txCtx.IsRoot = true ∧ txCtx.tx = some tx ∧ txCtx.InTransaction = true ∧
    (b.1 = Outcome.ret none →
      m.Transaction g ctx bizFn [PropagationRequired] w =
        (Outcome.ret (g.commitError b.2 w.nextTx),
         match g.commitError b.2 w.nextTx with
         | none => b.2.push (Op.Commit w.nextTx)
         | some _ => (b.2.push (Op.Commit w.nextTx)).push (Op.Rollback w.nextTx))) ∧
    (∀ e, b.1 = Outcome.ret (some e) →
      m.Transaction g ctx bizFn [PropagationRequired] w =
        (Outcome.ret (some e), b.2.push (Op.Rollback w.nextTx))) := by
  intro tx txCtx w1 b
  have hshape : txCtx = TransactionContext.mk txCtx.ctx (some tx) none := by
    cases ctx with
    | plain i => rfl
    | txCtx c =>
      have hr := hroot c rfl
      obtain ⟨cc, ct, cp⟩ := c
      cases cp with
      | none => rfl
      | some q => simp [TransactionContext.IsRoot, TransactionContext.parent] at hr
  have hrun : m.Transaction g ctx bizFn [PropagationRequired] w =
      runInNewTransaction g txCtx bizFn w1 := by
    rw [Transaction_required]
    cases ctx with
    | plain i =>
      simp only [TransactionManager.withRequiredPropagation, beginRequired, hlookup, DB.Begin,
        hbegin]
    | txCtx c =>
      have hc : c.InTransaction = false := hctx
      simp only [TransactionManager.withRequiredPropagation, hc, beginRequired, hlookup,
        DB.Begin, hbegin]
      rfl
  have hnew := runInNewTransaction_root g txCtx.ctx tx w.nextTx bizFn w1 rfl rfl
  rw [← hshape] at hnew
  refine ⟨?_, ?_, ?_, ?_, ?_⟩
  · rw [hshape]; rfl
  · rw [hshape]; rfl
  · rw [hshape]; rfl
  · intro hb
    rw [hrun, hnew]
    simp only [b] at hb
    rw [hb]
  · intro e hb
    rw [hrun, hnew]
    simp only [b] at hb
    rw [hb]

/-- C5 at a sample input: `Required` on a plain context with a body that returns
`nil` leaves one `Begin` and one `Commit` in the log. -/
theorem C5_required_outside_transaction_witness :
    (Context.plain 7).InTransaction = false ∧
    sampleManager.lookupDB (Context.plain 7) sampleWorld = Except.ok sampleDB ∧
    sampleGorm.beginError sampleWorld sampleDB = none ∧
    sampleManager.Transaction sampleGorm (Context.plain 7) okBody [PropagationRequired]
        sampleWorld =
      (Outcome.ret none, { log := [Op.Begin sampleDB (some 0), Op.Commit 0], nextTx := 1 }) :=
  ⟨rfl, rfl, rfl,
   (C5_required_outside_transaction sampleGorm sampleManager (Context.plain 7) okBody
      sampleWorld sampleDB rfl (fun _ h => nomatch h) rfl rfl).2.2.2.1 rfl⟩

/-- C6. `Required` on a context that is already inside a transaction `T`: the body
runs in the unchanged world (no `Begin` is issued) on the session of the incoming
context, a non-root context whose parent is the incoming context and whose handle is
bound to the same transaction.  If the body returns `nil` the call returns `nil` and
adds no backend call; if the body returns an error that error is returned and the
only backend call the call adds is a `Rollback`: in neither case a `Commit`. -/
theorem C6_required_reuses_transaction (g : Gorm) (m : TransactionManager)
    (c : TransactionContext) (db : DB) (T : Nat) (bizFn : BizFn) (w : World)
    (htx : c.tx = some db) (hpool : db.ConnPool = ConnPool.tx T) :
    let child : TransactionContext := TransactionContext.mk c.ctx (some db) (some c)
    let b := bizFn.run (Context.txCtx child) w
    c.Session = some child ∧ child.IsRoot = false ∧ child.parent = some c ∧
    child.tx = c.tx ∧ child.InTransaction = true ∧
    (b.1 = Outcome.ret none →
      m.Transaction g (Context.txCtx c) bizFn [PropagationRequired] w =
        (Outcome.ret none, b.2)) ∧
    (∀ e, b.1 = Outcome.ret (some e) →
      m.Transaction g (Context.txCtx c) bizFn [PropagationRequired] w =
        (Outcome.ret (some e), b.2.push (Op.Rollback T))) := by
  intro child b
  have hrun := withRequired_reuse g m c db T bizFn w htx hpool
  refine ⟨?_, rfl, rfl, ?_, ?_, ?_, ?_⟩
  · simp [TransactionContext.Session, htx, DB.Session, child]
  · exact htx.symm
  · exact InTransaction_of_tx child db T rfl hpool
  · intro hb
    rw [Transaction_required, hrun]
    simp only [b] at hb
    simp only [deferRollback, hb]
    rw [← hb]
  · intro e hb
    rw [Transaction_required, hrun]
    simp only [b] at hb
    simp only [deferRollback, hb, Rollback_of_tx c db T _ htx hpool]

/-- C6 at a sample input: an inner `Required` on the root context of transaction `0`
with a body that returns `nil` adds no backend call. -/
theorem C6_required_reuses_transaction_witness :
    sampleTxCtx.tx = some sampleTxDB ∧ sampleTxDB.ConnPool = ConnPool.tx 0 ∧
    sampleManager.Transaction sampleGorm (Context.txCtx sampleTxCtx) okBody
        [PropagationRequired] sampleWorldInTx =
      (Outcome.ret none, sampleWorldInTx) :=
  ⟨rfl, rfl,
   (C6_required_reuses_transaction sampleGorm sampleManager sampleTxCtx sampleTxDB 0 okBody
      sampleWorldInTx rfl rfl).2.2.2.2.2.1 rfl⟩

/-- C7, as the code has it.  When `Required` reuses the transaction `T` of the incoming
context, the reusing call never issues a `Commit`; it issues no `Rollback` when its
body returns `nil`, and exactly one physical `Rollback` on `T` after the body when
the body returns an error or panics.  The outcome of the body is passed on. -/
theorem C7_reusing_call_rolls_back_on_error (g : Gorm) (m : TransactionManager)
    (c : TransactionContext) (db : DB) (T : Nat) (bizFn : BizFn) (w : World)
    (htx : c.tx = some db) (hpool : db.ConnPool = ConnPool.tx T) :
    (m.Transaction g (Context.txCtx c) bizFn [PropagationRequired] w).1 =
      (bizFn.run (Context.txCtx (TransactionContext.mk c.ctx (some db) (some c))) w).1 ∧
    (m.Transaction g (Context.txCtx c) bizFn [PropagationRequired] w).2 =
      if (bizFn.run (Context.txCtx (TransactionContext.mk c.ctx (some db) (some c))) w).1 =
          Outcome.ret none
      then (bizFn.run (Context.txCtx (TransactionContext.mk c.ctx (some db) (some c))) w).2
      else (bizFn.run (Context.txCtx (TransactionContext.mk c.ctx (some db) (some c))) w).2.push
        (Op.Rollback T) := by
  rw [Transaction_required, withRequired_reuse g m c db T bizFn w htx hpool]
  generalize bizFn.run (Context.txCtx (TransactionContext.mk c.ctx (some db) (some c))) w = b
  obtain ⟨r, w2⟩ := b
  cases r with
  | ret err =>
    cases err with
    | none => simp [deferRollback]
    | some e => simp [deferRollback, Rollback_of_tx c db T _ htx hpool]
  | panicked p => simp [deferRollback, Rollback_of_tx c db T _ htx hpool]

/-- C7 at a sample input: with a body that returns `nil` the reusing call leaves the
world as it was. -/
theorem C7_reusing_call_rolls_back_on_error_witness :
    sampleTxCtx.tx = some sampleTxDB ∧ sampleTxDB.ConnPool = ConnPool.tx 0 ∧
    (sampleManager.Transaction sampleGorm (Context.txCtx sampleTxCtx) okBody
        [PropagationRequired] sampleWorldInTx).2 = sampleWorldInTx :=
  ⟨rfl, rfl,
   (C7_reusing_call_rolls_back_on_error sampleGorm sampleManager sampleTxCtx sampleTxDB 0
      okBody sampleWorldInTx rfl rfl).2⟩

/-- C7, the claim as stated fails.  An inner `Required` call on the root context of
transaction `0`, whose body returns an error without touching the backend, issues a
physical `Rollback` on transaction `0`. -/
theorem C7_counterexample :
    sampleTxCtx.InTransaction = true ∧
    (failBody.run (Context.txCtx
        (TransactionContext.mk (Context.plain 0) (some sampleTxDB) (some sampleTxCtx)))
        sampleWorldInTx) = (Outcome.ret (some (GoError.other 1)), sampleWorldInTx) ∧
    sampleManager.Transaction sampleGorm (Context.txCtx sampleTxCtx) failBody
        [PropagationRequired] sampleWorldInTx =
      (Outcome.ret (some (GoError.other 1)),
       { log := [Op.Begin sampleDB (some 0), Op.Rollback 0], nextTx := 1 }) := by
  decide

/-- C8. `Transaction` with `RequiresNew` on a context inside a transaction `T`, when
the factory lookup and `Begin` succeed: the call issues `Begin` on the handle the
factory returned for the underlying context, which starts a new transaction
different from `T`; the body runs on a root transaction context bound to the new
transaction.  If the body returns `nil`, the new transaction is committed and the
result of the commit is returned (a `Rollback` of the new transaction follows only
when the commit failed); if the body returns an error, the new transaction is rolled
back, not committed, and the error is returned.  Every backend call the call adds
acts on the new transaction, none on `T`. -/
theorem C8_requiresNew_leaves_outer_untouched (g : Gorm) (m : TransactionManager)
    (c : TransactionContext) (dbT : DB) (T : Nat) (db : DB) (bizFn : BizFn) (w : World)
    (htx : c.tx = some dbT) (hpool : dbT.ConnPool = ConnPool.tx T) (hT : T < w.nextTx)
    (hlookup : m.factory.LookupDB w c.Ctx = Except.ok db)
    (hbegin : g.beginError w db = none) :
    let tx : DB := { db with ConnPool := ConnPool.tx w.nextTx, Error := none }
    let txCtx : TransactionContext := TransactionContext.mk (Context.txCtx c) (some tx) none
    let w1 : World := { log := w.log ++ [Op.Begin db (some w.nextTx)], nextTx := w.nextTx + 1 }
    let b := bizFn.run (Context.txCtx txCtx) w1
    c.InTransaction = true ∧ w.nextTx ≠ T ∧ txCtx.IsRoot = true ∧
    txCtx.InTransaction = true ∧
    (b.1 = Outcome.ret none →
      m.Transaction g (Context.txCtx c) bizFn [PropagationRequiresNew] w =
        (Outcome.ret (g.commitError b.2 w.nextTx),
         match g.commitError b.2 w.nextTx with
         | none => b.2.push (Op.Commit w.nextTx)
         | some _ => (b.2.push (Op.Commit w.nextTx)).push (Op.Rollback w.nextTx))) ∧
    (∀ e, b.1 = Outcome.ret (some e) →
      m.Transaction g (Context.txCtx c) bizFn [PropagationRequiresNew] w =
        (Outcome.ret (some e), b.2.push (Op.Rollback w.nextTx))) := by
  intro tx txCtx w1 b
  have hrun : m.Transaction g (Context.txCtx c) bizFn [PropagationRequiresNew] w =
      runInNewTransaction g txCtx bizFn w1 := by
    rw [Transaction_requiresNew]
    simp only [TransactionManager.withRequiresNewPropagation,
      TransactionManager.lookupNewDB, hlookup, DB.Begin, hbegin]
  have hnew := runInNewTransaction_root g (Context.txCtx c) tx w.nextTx bizFn w1 rfl rfl
  refine ⟨InTransaction_of_tx c dbT T htx hpool, Nat.ne_of_gt hT, rfl, rfl, ?_, ?_⟩
  · intro hb
    rw [hrun, hnew]
    simp only [b] at hb
    rw [hb]
  · intro e hb
    rw [hrun, hnew]
    simp only [b] at hb
    rw [hb]

/-- C8 at a sample input: `RequiresNew` inside transaction `0` with a failing body
begins transaction `1` and rolls back transaction `1`. -/
theorem C8_requiresNew_leaves_outer_untouched_witness :
    sampleTxCtx.tx = some sampleTxDB ∧ sampleTxDB.ConnPool = ConnPool.tx 0 ∧
    0 < sampleWorldInTx.nextTx ∧
    sampleManager.factory.LookupDB sampleWorldInTx sampleTxCtx.Ctx = Except.ok sampleDB ∧
    sampleGorm.beginError sampleWorldInTx sampleDB = none ∧
    sampleManager.Transaction sampleGorm (Context.txCtx sampleTxCtx) failBody
        [PropagationRequiresNew] sampleWorldInTx =
      (Outcome.ret (some (GoError.other 1)),
       { log := [Op.Begin sampleDB (some 0), Op.Begin sampleDB (some 1), Op.Rollback 1],
         nextTx := 2 }) :=
  ⟨rfl, rfl, by decide, rfl, rfl,
   (C8_requiresNew_leaves_outer_untouched sampleGorm sampleManager sampleTxCtx sampleTxDB 0
      sampleDB failBody sampleWorldInTx rfl rfl (by decide) rfl rfl).2.2.2.2.2
      (GoError.other 1) rfl⟩

/-- C9. `Transaction` with `Nested` on a context inside a transaction `T` whose handle
has nested transactions enabled, when the savepoint is established: the call issues
`SavePoint` with the name derived from the body and then runs the body on a session
of the incoming context.  If the body returns an error, that error is returned and
the only backend call after the body is one `RollbackTo` with the same name; if the
body returns `nil`, `nil` is returned and no backend call follows the body. -/
theorem C9_nested_savepoint (g : Gorm) (m : TransactionManager) (c : TransactionContext)
    (db : DB) (T : Nat) (bizFn : BizFn) (w : World)
    (htx : c.tx = some db) (hpool : db.ConnPool = ConnPool.tx T)
    (hnested : db.DisableNestedTransaction = false)
    (hsave : g.savePointError w T (savePointName bizFn) = none) :
    let child : TransactionContext := TransactionContext.mk c.ctx (some db) (some c)
    let w1 : World := w.push (Op.SavePoint T (savePointName bizFn))
    let b := bizFn.run (Context.txCtx child) w1
    c.Session = some child ∧ child.IsRoot = false ∧
    (∀ e, b.1 = Outcome.ret (some e) →
      m.Transaction g (Context.txCtx c) bizFn [PropagationNested] w =
        (Outcome.ret (some e), b.2.push (Op.RollbackTo T (savePointName bizFn)))) ∧
    (b.1 = Outcome.ret none →
      m.Transaction g (Context.txCtx c) bizFn [PropagationNested] w =
        (Outcome.ret none, b.2)) := by
  intro child w1 b
  have hsession : c.Session = some child := by
    simp [TransactionContext.Session, htx, DB.Session, child]
  have hrun : m.Transaction g (Context.txCtx c) bizFn [PropagationNested] w =
      match b.1 with
      | Outcome.ret none => b
      | _ => (b.1, b.2.push (Op.RollbackTo T (savePointName bizFn))) := by
    rw [Transaction_nested]
    simp only [TransactionManager.withNestedPropagation, TransactionContext.TxDB, htx,
      InTransaction_of_tx c db T htx hpool, nestedInTransaction, hnested, DB.SavePoint,
      hpool, hsave, hsession, DB.RollbackTo]
    rfl
  refine ⟨hsession, rfl, ?_, ?_⟩
  · intro e hb
    rw [hrun, hb]
  · intro hb
    rw [hrun]
    simp only [hb]
    exact Prod.ext hb rfl

/-- C9 at a sample input: `Nested` inside transaction `0` with a failing body sets a
savepoint and rolls back to it. -/
theorem C9_nested_savepoint_witness :
    sampleTxCtx.tx = some sampleTxDB ∧ sampleTxDB.ConnPool = ConnPool.tx 0 ∧
    sampleTxDB.DisableNestedTransaction = false ∧
    sampleGorm.savePointError sampleWorldInTx 0 (savePointName failBody) = none ∧
    sampleManager.Transaction sampleGorm (Context.txCtx sampleTxCtx) failBody
        [PropagationNested] sampleWorldInTx =
      (Outcome.ret (some (GoError.other 1)),
       { log := [Op.Begin sampleDB (some 0), Op.SavePoint 0 (savePointName failBody),
                 Op.RollbackTo 0 (savePointName failBody)],
         nextTx := 1 }) :=
  ⟨rfl, rfl, rfl, rfl,
   (C9_nested_savepoint sampleGorm sampleManager sampleTxCtx sampleTxDB 0 failBody
      sampleWorldInTx rfl rfl rfl rfl).2.2.1 (GoError.other 1) rfl⟩

/-- C10. `Transaction` with `Never`: on a transaction context that is inside a
transaction the call returns `ErrInTransaction` and leaves the world as it was,
whatever the body is (the body is not run); on every other context the call is the
body run once on the incoming context itself, in the unchanged world, with the
outcome and the world of the body passed on unchanged. -/
theorem C10_never (g : Gorm) (m : TransactionManager) (ctx : Context) (bizFn : BizFn)
    (w : World) :
    m.Transaction g ctx bizFn [PropagationNever] w =
      if ctx.InTransaction then (Outcome.ret (some GoError.ErrInTransaction), w)
      else bizFn.run ctx w := by
  rw [Transaction_never]
  cases ctx with
  | plain i => simp [TransactionManager.withNeverPropagation, Context.InTransaction]
  | txCtx c =>
    cases h : c.InTransaction <;>
      simp [TransactionManager.withNeverPropagation, Context.InTransaction, h]

/-! ## Deep copy: lemmas -/

mutual
/-- A value whose reachable maps are all empty is copied without a panic, and the
copy is the value itself with the unexported struct fields set to zero. -/
theorem copyRecursive_of_mapsEmpty :
    ∀ v : GoValue, mapsEmpty v = true → copyRecursive v = some (exportedView v)
  | .int _, _ => by simp [copyRecursive, exportedView]
  | .str _, _ => by simp [copyRecursive, exportedView]
  | .bool _, _ => by simp [copyRecursive, exportedView]
  | .time _, _ => by simp [copyRecursive, exportedView]
  | .array _, _ => by simp [copyRecursive, exportedView]
  | .ptr none, _ => by simp [copyRecursive, exportedView]
  | .ptr (some v), h => by
    have ih := copyRecursive_of_mapsEmpty v (by simpa [mapsEmpty] using h)
    simp [copyRecursive, exportedView, ih]
  | .iface none, _ => by simp [copyRecursive, exportedView]
  | .iface (some v), h => by
    have ih := copyRecursive_of_mapsEmpty v (by simpa [mapsEmpty] using h)
    simp [copyRecursive, exportedView, ih]
  | .struct typ fs, h => by
    have ih := copyFields_of_mapsEmpty fs (by simpa [mapsEmpty] using h)
    simp [copyRecursive, exportedView, ih]
  | .slice none, _ => by simp [copyRecursive, exportedView]
  | .slice (some es), h => by
    have ih := copyElems_of_mapsEmpty es (by simpa [mapsEmpty] using h)
    simp [copyRecursive, exportedView, ih]
  | .map k none, _ => by simp [copyRecursive, exportedView]
  | .map k (some es), h => by
    have hes : es = [] := by simpa [mapsEmpty] using h
    subst hes
    simp [copyRecursive, copyEntries, exportedView]
/-- The struct case of `copyRecursive_of_mapsEmpty`. -/
theorem copyFields_of_mapsEmpty :
    ∀ fs : List StructField, mapsEmptyFields fs = true →
      copyFields fs = some (exportedViewFields fs)
  | [], _ => by simp [copyFields, exportedViewFields]
  | .mk n e t v :: rest, h => by
    have hrest : mapsEmptyFields rest = true := by
      simp [mapsEmptyFields] at h
      exact h.2
    have ih := copyFields_of_mapsEmpty rest hrest
    cases e with
    | false => simp [copyFields, exportedViewFields, ih]
    | true =>
      have hv : mapsEmpty v = true := by
        simp [mapsEmptyFields] at h
        exact h.1
      have ihv := copyRecursive_of_mapsEmpty v hv
      simp [copyFields, exportedViewFields, ih, ihv]
/-- The slice case of `copyRecursive_of_mapsEmpty`. -/
theorem copyElems_of_mapsEmpty :
    ∀ es : List GoValue, mapsEmptyElems es = true →
      copyElems es = some (exportedViewElems es)
  | [], _ => by simp [copyElems, exportedViewElems]
  | v :: rest, h => by
    have h2 : mapsEmpty v = true ∧ mapsEmptyElems rest = true := by
      simpa [mapsEmptyElems] using h
    have ihv := copyRecursive_of_mapsEmpty v h2.1
    have ih := copyElems_of_mapsEmpty rest h2.2
    simp [copyElems, exportedViewElems, ih, ihv]
end

/-! ## `AroundSave`: lemmas -/

/-- When every `Publish` of the loop succeeds, the loop has appended one successful
`Publish` per event, in list order, and nothing else. -/
theorem publishEvents_ok (pub : DomainEventPublisher) (ctx : Context) :
    ∀ (es : List DomainEvent) (w w1 : World), publishEvents pub ctx es w = (none, w1) →
      w1 = { log := w.log ++ es.map (fun e => Op.Publish e none), nextTx := w.nextTx }
  | [], w, w1, h => by
    simp [publishEvents] at h
    subst h
    simp
  | e :: rest, w, w1, h => by
    cases hp : pub.Publish w ctx e with
    | some err => simp [publishEvents, hp] at h
    | none =>
      simp only [publishEvents, hp] at h
      have ih := publishEvents_ok pub ctx rest _ w1 h
      rw [ih]
      simp [World.push]

/-- The loop stops at the first failing `Publish`. -/
theorem publishEvents_fail (pub : DomainEventPublisher) (ctx : Context) (ek : DomainEvent)
    (post : List DomainEvent) (err : GoError) :
    ∀ (pre : List DomainEvent) (w w1 : World), publishEvents pub ctx pre w = (none, w1) →
      pub.Publish w1 ctx ek = some err →
      publishEvents pub ctx (pre ++ ek :: post) w =
        (some err, w1.push (Op.Publish ek (some err)))
  | [], w, w1, h, hk => by
    simp [publishEvents] at h
    subst h
    simp [publishEvents, hk]
  | e :: rest, w, w1, h, hk => by
    cases hp : pub.Publish w ctx e with
    | some e2 => simp [publishEvents, hp] at h
    | none =>
      simp only [publishEvents, hp] at h
      have ih := publishEvents_fail pub ctx ek post err rest _ w1 h hk
      simp only [List.cons_append, publishEvents, hp]
      exact ih

/-- `ClearEvents` leaves no pending event and keeps the snapshot. -/
theorem ClearEvents_eq (a : AggregateManager) :
    a.ClearEvents = { events := [], snapshot := a.snapshot } := by
  obtain ⟨ev, sn⟩ := a
  cases ev with
  | nil => simp [AggregateManager.ClearEvents]
  | cons e rest => simp [AggregateManager.ClearEvents]

/-- `AroundSave` on a root passed by pointer whose events all publish: the events are
cleared, `doSave` gets the `nil` diff of `AggregateManager.Diff`, and the root is
attached when `doSave` returns `nil`. -/
theorem AroundSave_published (r : RepositoryManager) (ctx : Context) (agg : Aggregate)
    (root : AggregateManager) (doSave : DoSave) (w w1 : World)
    (hptr : agg.isPointer = true) (hroot : agg.manager = some root)
    (hpub : publishEvents r.pub ctx root.events w = (none, w1)) :
    r.AroundSave ctx agg doSave w =
      match (doSave none agg.data w1).1 with
      | none =>
        match AggregateManager.Attach { events := [], snapshot := root.snapshot }
            (doSave none agg.data w1).2.1 with
        | some attached =>
          (Outcome.ret none,
           { agg with data := (doSave none agg.data w1).2.1, manager := some attached },
           (doSave none agg.data w1).2.2)
        | none =>
          (Outcome.panicked "reflect: value is not assignable to the map key type",
           { agg with data := (doSave none agg.data w1).2.1,
                      manager := some { events := [], snapshot := root.snapshot } },
           (doSave none agg.data w1).2.2)
      | some err =>
        (Outcome.ret (some err),
         { agg with data := (doSave none agg.data w1).2.1,
                    manager := some { events := [], snapshot := root.snapshot } },
         (doSave none agg.data w1).2.2) := by
  simp only [RepositoryManager.AroundSave, RepositoryManager.AssertPointer, hptr, hroot,
    AggregateManager.Events, hpub, ClearEvents_eq, AggregateManager.Diff]
  rfl

/-! ## `AroundSave`: the claims -/

/-- C1, as the code has it.  For a root passed by pointer whose pending events all
publish, `AroundSave` has published every pending event, in list order, before
`doSave` is invoked: `doSave` starts in a world whose log is the old log followed by
one successful `Publish` per event, and the world `AroundSave` leaves is the one
`doSave` leaves.  This is so whether `doSave` returns `nil` or an error; when it
returns an error, `AroundSave` returns that error and the publications stand. -/
theorem C1_events_published_before_save (r : RepositoryManager) (ctx : Context)
    (agg : Aggregate) (root : AggregateManager) (doSave : DoSave) (w w1 : World)
    (hptr : agg.isPointer = true) (hroot : agg.manager = some root)
    (hpub : publishEvents r.pub ctx root.events w = (none, w1)) :
    w1.log = w.log ++ root.events.map (fun e => Op.Publish e none) ∧
    (r.AroundSave ctx agg doSave w).2.2 = (doSave none agg.data w1).2.2 ∧
    (∀ err, (doSave none agg.data w1).1 = some err →
      (r.AroundSave ctx agg doSave w).1 = Outcome.ret (some err)) := by
  have hw := publishEvents_ok r.pub ctx root.events w w1 hpub
  have hrun := AroundSave_published r ctx agg root doSave w w1 hptr hroot hpub
  refine ⟨by rw [hw], ?_, ?_⟩
  · rw [hrun]
    cases hs : (doSave none agg.data w1).1 with
    | some err => rfl
    | none =>
      simp only []
      cases AggregateManager.Attach { events := [], snapshot := root.snapshot }
        (doSave none agg.data w1).2.1 <;> rfl
  · intro err herr
    rw [hrun]
    simp only [herr]

/-- C1 at a sample input: two events publish, `doSave` fails, its error is
returned. -/
theorem C1_events_published_before_save_witness :
    sampleRoot.isPointer = true ∧
    sampleRoot.manager = some { events := [firstEvent, secondEvent], snapshot := none } ∧
    publishEvents sampleRepo.pub (Context.plain 0) [firstEvent, secondEvent] sampleWorld =
      (none, { log := [Op.Publish firstEvent none, Op.Publish secondEvent none],
               nextTx := 0 }) ∧
    (sampleRepo.AroundSave (Context.plain 0) sampleRoot saveFail sampleWorld).1 =
      Outcome.ret (some (GoError.other 2)) :=
  ⟨rfl, rfl, rfl,
   (C1_events_published_before_save sampleRepo (Context.plain 0) sampleRoot
      { events := [firstEvent, secondEvent], snapshot := none } saveFail sampleWorld
      { log := [Op.Publish firstEvent none, Op.Publish secondEvent none], nextTx := 0 }
      rfl rfl rfl).2.2 (GoError.other 2) rfl⟩

/-- C1, the claim as stated fails.  A root with two pending events is saved with a
`doSave` that returns an error: `AroundSave` returns that error, and both events have
been published. -/
theorem C1_counterexample :
    (saveFail none sampleRoot.data
        { log := [Op.Publish firstEvent none, Op.Publish secondEvent none],
          nextTx := 0 }).1 = some (GoError.other 2) ∧
    (sampleRepo.AroundSave (Context.plain 0) sampleRoot saveFail sampleWorld).1 =
      Outcome.ret (some (GoError.other 2)) ∧
    (sampleRepo.AroundSave (Context.plain 0) sampleRoot saveFail sampleWorld).2.2.log =
      [Op.Publish firstEvent none, Op.Publish secondEvent none] := by
  decide

/-- C2. For a root passed by pointer with pending events `pre ++ ek :: post`, where
the events of `pre` publish and `Publish` fails on `ek` with `err`: `AroundSave`
returns exactly `err`; the backend log is the old log followed by the successful
`Publish` calls of `pre` in list order and the failing `Publish` of `ek`, so no
event of `post` is published; the result does not depend on `doSave`, which is not
invoked; and the aggregate is left as it was: its pending list is still
`pre ++ ek :: post` and its snapshot is the one held before. -/
theorem C2_publish_failure_aborts_save (r : RepositoryManager) (ctx : Context)
    (agg : Aggregate) (root : AggregateManager) (pre post : List DomainEvent)
    (ek : DomainEvent) (err : GoError) (doSave : DoSave) (w w1 : World)
    (hptr : agg.isPointer = true) (hroot : agg.manager = some root)
    (hevents : root.events = pre ++ ek :: post)
    (hpre : publishEvents r.pub ctx pre w = (none, w1))
    (hfail : r.pub.Publish w1 ctx ek = some err) :
    r.AroundSave ctx agg doSave w =
      (Outcome.ret (some err), agg, w1.push (Op.Publish ek (some err))) ∧
    (w1.push (Op.Publish ek (some err))).log =
      w.log ++ pre.map (fun e => Op.Publish e none) ++ [Op.Publish ek (some err)] ∧
    (r.AroundSave ctx agg doSave w).2.1.manager.map AggregateManager.Events =
      some (pre ++ ek :: post) ∧
    (r.AroundSave ctx agg doSave w).2.1.manager.map AggregateManager.Snapshot =
      some root.snapshot := by
  have hw := publishEvents_ok r.pub ctx pre w w1 hpre
  have hloop := publishEvents_fail r.pub ctx ek post err pre w w1 hpre hfail
  have hrun : r.AroundSave ctx agg doSave w =
      (Outcome.ret (some err), agg, w1.push (Op.Publish ek (some err))) := by
    simp only [RepositoryManager.AroundSave, RepositoryManager.AssertPointer, hptr, hroot,
      AggregateManager.Events, hevents, hloop]
    rfl
  refine ⟨hrun, ?_, ?_, ?_⟩
  · rw [hw]
    simp [World.push]
  · rw [hrun]
    simp [hroot, AggregateManager.Events, hevents]
  · rw [hrun]
    simp [hroot, AggregateManager.Snapshot]

/-- C2 at a sample input: the first event publishes, the second fails, and the log
holds exactly these two calls. -/
theorem C2_publish_failure_aborts_save_witness :
    sampleRoot.isPointer = true ∧
    sampleRoot.manager = some { events := [firstEvent, secondEvent], snapshot := none } ∧
    publishEvents failingRepo.pub (Context.plain 0) [firstEvent] sampleWorld =
      (none, { log := [Op.Publish firstEvent none], nextTx := 0 }) ∧
    failingRepo.pub.Publish { log := [Op.Publish firstEvent none], nextTx := 0 }
      (Context.plain 0) secondEvent = some (GoError.other 5) ∧
    (failingRepo.AroundSave (Context.plain 0) sampleRoot saveOk sampleWorld).2.2.log =
      [Op.Publish firstEvent none, Op.Publish secondEvent (some (GoError.other 5))] :=
  ⟨rfl, rfl, rfl, rfl,
   (congrArg (fun x => x.2.2.log)
     (C2_publish_failure_aborts_save failingRepo (Context.plain 0) sampleRoot
        { events := [firstEvent, secondEvent], snapshot := none } [firstEvent] []
        secondEvent (GoError.other 5) saveOk sampleWorld
        { log := [Op.Publish firstEvent none], nextTx := 0 } rfl rfl rfl rfl rfl).1)⟩

/-- C3, the code at the failing input.  A persisted root that embeds
`AggregateManager`, has no pending event and holds no snapshot is saved with a
`doSave` that reports error `3` exactly when its diff is the `nil` interface:
`AroundSave` returns error `3`.  The diff handed to `doSave` is `nil`, not a diff
whose self-changed flag is set. -/
theorem C3_diff_passed_is_nil :
    AggregateManager.Diff { events := [], snapshot := none } = none ∧
    quietRoot.manager = some { events := [], snapshot := none } ∧
    (sampleRepo.AroundSave (Context.plain 0) quietRoot saveProbe sampleWorld).1 =
      Outcome.ret (some (GoError.other 3)) :=
  ⟨rfl, rfl, by decide⟩

mutual
/-- A value that reaches no unexported field is its own `exportedView`. -/
theorem exportedView_of_exportedOnly :
    ∀ v : GoValue, exportedOnly v = true → exportedView v = v
  | .int _, _ => by simp [exportedView]
  | .str _, _ => by simp [exportedView]
  | .bool _, _ => by simp [exportedView]
  | .time _, _ => by simp [exportedView]
  | .array _, _ => by simp [exportedView]
  | .map _ _, _ => by simp [exportedView]
  | .ptr none, _ => by simp [exportedView]
  | .ptr (some v), h => by
    have ih := exportedView_of_exportedOnly v (by simpa [exportedOnly] using h)
    simp [exportedView, ih]
  | .iface none, _ => by simp [exportedView]
  | .iface (some v), h => by
    have ih := exportedView_of_exportedOnly v (by simpa [exportedOnly] using h)
    simp [exportedView, ih]
  | .struct _ fs, h => by
    have ih := exportedViewFields_of_exportedOnly fs (by simpa [exportedOnly] using h)
    simp [exportedView, ih]
  | .slice none, _ => by simp [exportedView]
  | .slice (some es), h => by
    have ih := exportedViewElems_of_exportedOnly es (by simpa [exportedOnly] using h)
    simp [exportedView, ih]
/-- Fields that are all exported and reach no unexported field are their own
`exportedViewFields`. -/
theorem exportedViewFields_of_exportedOnly :
    ∀ fs : List StructField, exportedOnlyFields fs = true → exportedViewFields fs = fs
  | [], _ => by simp [exportedViewFields]
  | .mk n e t v :: rest, h => by
    simp only [exportedOnlyFields, Bool.and_eq_true] at h
    have ihv := exportedView_of_exportedOnly v h.1.2
    have ih := exportedViewFields_of_exportedOnly rest h.2
    simp [exportedViewFields, h.1.1, ihv, ih]
/-- Elements that reach no unexported field are their own `exportedViewElems`. -/
theorem exportedViewElems_of_exportedOnly :
    ∀ es : List GoValue, exportedOnlyElems es = true → exportedViewElems es = es
  | [], _ => by simp [exportedViewElems]
  | v :: rest, h => by
    simp only [exportedOnlyElems, Bool.and_eq_true] at h
    have ihv := exportedView_of_exportedOnly v h.1
    have ih := exportedViewElems_of_exportedOnly rest h.2
    simp [exportedViewElems, ihv, ih]
end

/-- An exported field that reaches no unexported field is among the copied fields
with the value it has. -/
theorem mem_exportedViewFields :
    ∀ (fs : List StructField) (f : StructField), f ∈ fs → f.exported = true →
      exportedOnly f.value = true → f ∈ exportedViewFields fs
  | [], _, h, _, _ => nomatch h
  | .mk n e t v :: rest, f, h, he, ho => by
    rcases List.mem_cons.mp h with h1 | h1
    · subst h1
      simp only [StructField.exported] at he
      simp only [StructField.value] at ho
      simp [exportedViewFields, he, exportedView_of_exportedOnly v ho]
    · simp only [exportedViewFields]
      exact List.mem_cons_of_mem _ (mem_exportedViewFields rest f h1 he ho)

/-- The copy of an `Addr` with `City` x and `zip` 1 is the `Addr` with `City` x and
`zip` 0: the unexported field nested in the struct is zero in the copy, and the copy
is not deep-equal to the original. -/
theorem exportedView_zeroes_nested_unexported :
    copyRecursive (sampleAddr "x" 1) = some (sampleAddr "x" 0) ∧
    exportedView (sampleAddr "x" 1) = sampleAddr "x" 0 ∧
    exportedOnly (sampleAddr "x" 1) = false ∧
    DeepEqual (sampleAddr "x" 0) (sampleAddr "x" 1) = false :=
  ⟨rfl, rfl, rfl, rfl⟩

/-- C4, as the code has it.  For a root passed by pointer whose pending events all
publish, with `s` what `doSave` returns and leaves:
* if `doSave` returns `nil`, the identity of the saved root is `> 0`, any snapshot
  held before has that identity, and the saved fields reach no non-empty map, then
  `AroundSave` returns `nil` and the held snapshot is the copy `DeepCopy` makes of the
  saved state: the same type and `MixModel` (so the same identity), and as fields the
  saved fields with every unexported struct field, of the root or of a struct reached
  through pointers, interfaces, exported fields and slice elements, set to its zero
  value (`exportedViewFields`).  An exported field that reaches no unexported field
  is therefore held with the value it was saved with, and when no field at all is
  unexported the held snapshot is the saved state itself;
* if `doSave` returns `nil` and the identity of the saved root is `≤ 0`, or a snapshot
  of another identity is held, `AroundSave` returns `nil` and the held snapshot is
  what it was before the call;
* if `doSave` returns an error, `AroundSave` returns that error and the held snapshot
  is what it was before the call. -/
theorem C4_snapshot_after_save (r : RepositoryManager) (ctx : Context) (agg : Aggregate)
    (root : AggregateManager) (doSave : DoSave) (w w1 : World)
    (hptr : agg.isPointer = true) (hroot : agg.manager = some root)
    (hpub : publishEvents r.pub ctx root.events w = (none, w1)) :
    ((doSave none agg.data w1).1 = none →
      0 < (doSave none agg.data w1).2.1.AggregateId →
      (∀ snap, root.snapshot = some snap →
        snap.AggregateId = (doSave none agg.data w1).2.1.AggregateId) →
      mapsEmptyFields (doSave none agg.data w1).2.1.fields = true →
      (r.AroundSave ctx agg doSave w).1 = Outcome.ret none ∧
      (r.AroundSave ctx agg doSave w).2.1.data = (doSave none agg.data w1).2.1 ∧
      (r.AroundSave ctx agg doSave w).2.1.manager =
        some { events := [],
               snapshot := some
                 { typ := (doSave none agg.data w1).2.1.typ,
                   MixModel := (doSave none agg.data w1).2.1.MixModel,
                   fields := exportedViewFields (doSave none agg.data w1).2.1.fields } } ∧
      (∀ f ∈ (doSave none agg.data w1).2.1.fields, f.exported = true →
        exportedOnly f.value = true →
        f ∈ exportedViewFields (doSave none agg.data w1).2.1.fields) ∧
      (exportedOnlyFields (doSave none agg.data w1).2.1.fields = true →
        (r.AroundSave ctx agg doSave w).2.1.manager =
          some { events := [], snapshot := some (doSave none agg.data w1).2.1 })) ∧
    ((doSave none agg.data w1).1 = none →
      ((doSave none agg.data w1).2.1.AggregateId ≤ 0 ∨
        ∃ snap, root.snapshot = some snap ∧
          snap.AggregateId ≠ (doSave none agg.data w1).2.1.AggregateId) →
      (r.AroundSave ctx agg doSave w).1 = Outcome.ret none ∧
      (r.AroundSave ctx agg doSave w).2.1.manager =
        some { events := [], snapshot := root.snapshot }) ∧
    (∀ err, (doSave none agg.data w1).1 = some err →
      (r.AroundSave ctx agg doSave w).1 = Outcome.ret (some err) ∧
      (r.AroundSave ctx agg doSave w).2.1.manager =
        some { events := [], snapshot := root.snapshot }) := by
  have hrun := AroundSave_published r ctx agg root doSave w w1 hptr hroot hpub
  refine ⟨?_, ?_, ?_⟩
  · intro hs hid hsame hmaps
    have hcopy := copyFields_of_mapsEmpty _ hmaps
    have hattach : AggregateManager.Attach { events := [], snapshot := root.snapshot }
        (doSave none agg.data w1).2.1 =
        some { events := [],
               snapshot := some
                 { typ := (doSave none agg.data w1).2.1.typ,
                   MixModel := (doSave none agg.data w1).2.1.MixModel,
                   fields := exportedViewFields (doSave none agg.data w1).2.1.fields } } := by
      have hz : AggregateManager.IsZero (doSave none agg.data w1).2.1 = false := by
        simp [AggregateManager.IsZero, hid]
      cases hsn : root.snapshot with
      | none => simp [AggregateManager.Attach, hz, DeepCopy, hcopy]
      | some snap =>
        have := hsame snap hsn
        simp [AggregateManager.Attach, hz, DeepCopy, hcopy, this]
    rw [hrun]
    simp only [hs, hattach]
    refine ⟨trivial, trivial, trivial, ?_, ?_⟩
    · intro f hf he ho
      exact mem_exportedViewFields _ f hf he ho
    · intro hall
      rw [exportedViewFields_of_exportedOnly _ hall]
  · intro hs hcase
    have hattach : AggregateManager.Attach { events := [], snapshot := root.snapshot }
        (doSave none agg.data w1).2.1 = some { events := [], snapshot := root.snapshot } := by
      rcases hcase with hid | ⟨snap, hsn, hne⟩
      · simp [AggregateManager.Attach, AggregateManager.IsZero, hid]
      · by_cases hz : AggregateManager.IsZero (doSave none agg.data w1).2.1 = true
        · simp [AggregateManager.Attach, hz]
        · have hne2 : ¬ (doSave none agg.data w1).2.1.AggregateId = snap.AggregateId :=
            fun h => hne h.symm
          simp [AggregateManager.Attach, hz, hsn, hne2]
    rw [hrun]
    simp only [hs, hattach]
    exact ⟨trivial, trivial⟩
  · intro err hs
    rw [hrun]
    simp only [hs]
    exact ⟨trivial, trivial⟩

/-- C4 at a sample input: a persisted root without snapshot is saved; its snapshot is
then its data with the unexported field zero. -/
theorem C4_snapshot_after_save_witness :
    quietRoot.isPointer = true ∧
    quietRoot.manager = some { events := [], snapshot := none } ∧
    publishEvents sampleRepo.pub (Context.plain 0) [] sampleWorld = (none, sampleWorld) ∧
    (saveOk none quietRoot.data sampleWorld).1 = none ∧
    0 < (saveOk none quietRoot.data sampleWorld).2.1.AggregateId ∧
    mapsEmptyFields (saveOk none quietRoot.data sampleWorld).2.1.fields = true ∧
    (sampleRepo.AroundSave (Context.plain 0) quietRoot saveOk sampleWorld).2.1.manager =
      some { events := [],
             snapshot := some
               { typ := "Order", MixModel := { Id := 1, CreateTime := 0, UpdateTime := 0 },
                 fields := [StructField.mk "Amount" true "" (GoValue.int 10),
                            StructField.mk "note" false "" (GoValue.str "")] } } :=
  ⟨rfl, rfl, rfl, rfl, by decide, rfl,
   ((C4_snapshot_after_save sampleRepo (Context.plain 0) quietRoot
      { events := [], snapshot := none } saveOk sampleWorld sampleWorld rfl rfl rfl).1
      rfl (by decide) (fun _ h => nomatch h) rfl).2.2.1⟩

/-- C4, the claim as stated fails.  A root without an identity yet (identity `0`) and
without a snapshot is saved with a `doSave` that returns `nil` and assigns no
identity: `AroundSave` returns `nil` and the root still holds no snapshot. -/
theorem C4_counterexample :
    unsavedRoot.isPointer = true ∧
    (unsavedRoot.manager.map (fun a => a.events)) = some [] ∧
    (saveOk none unsavedRoot.data sampleWorld).1 = none ∧
    (sampleRepo.AroundSave (Context.plain 0) unsavedRoot saveOk sampleWorld).1 =
      Outcome.ret none ∧
    ((sampleRepo.AroundSave (Context.plain 0) unsavedRoot saveOk sampleWorld).2.1.manager.map
      (fun a => a.snapshot.isSome)) = some false := by
  decide

/-! ## Transaction propagation: panics, unsupported values, `Commit` -/

/-- A body that panics in a transaction just begun: no commit, one rollback of that
transaction, and the panic goes on. -/
theorem runInNewTransaction_panic (g : Gorm) (txCtx : TransactionContext) (db : DB)
    (n : Nat) (bizFn : BizFn) (w : World) (p : String)
    (htx : txCtx.tx = some db) (hpool : db.ConnPool = ConnPool.tx n)
    (herr : db.Error = none)
    (hb : (bizFn.run (Context.txCtx txCtx) w).1 = Outcome.panicked p) :
    runInNewTransaction g txCtx bizFn w =
      (Outcome.panicked p, (bizFn.run (Context.txCtx txCtx) w).2.push (Op.Rollback n)) := by
  simp only [runInNewTransaction, TransactionContext.TxError, htx, herr, hb, deferRollback,
    Rollback_of_tx txCtx db n _ htx hpool]

/-- C11. When the body panics with `p`: `Transaction` with `Required` on a context
that is not inside a transaction, and `Transaction` with `RequiresNew` on any
context, both with the handle lookup and `Begin` succeeding, end in the same panic
`p` (it is neither swallowed nor turned into a returned error), and the only backend
call after the body is one `Rollback` of the transaction the call began: no
`Commit`. -/
theorem C11_panic_rolls_back_and_propagates (g : Gorm) (m : TransactionManager)
    (bizFn : BizFn) (w : World) (p : String) :
    (∀ (ctx : Context) (db : DB), ctx.InTransaction = false →
      m.lookupDB ctx w = Except.ok db → g.beginError w db = none →
      (bizFn.run (Context.txCtx (requiredTxCtx ctx
          { db with ConnPool := ConnPool.tx w.nextTx, Error := none }))
          { log := w.log ++ [Op.Begin db (some w.nextTx)], nextTx := w.nextTx + 1 }).1 =
        Outcome.panicked p →
      m.Transaction g ctx bizFn [PropagationRequired] w =
        (Outcome.panicked p,
         (bizFn.run (Context.txCtx (requiredTxCtx ctx
            { db with ConnPool := ConnPool.tx w.nextTx, Error := none }))
            { log := w.log ++ [Op.Begin db (some w.nextTx)], nextTx := w.nextTx + 1 }).2.push
           (Op.Rollback w.nextTx))) ∧
    (∀ (ctx : Context) (db : DB),
      m.factory.LookupDB w (pureCtx ctx) = Except.ok db → g.beginError w db = none →
      (bizFn.run (Context.txCtx (TransactionContext.mk ctx
          (some { db with ConnPool := ConnPool.tx w.nextTx, Error := none }) none))
          { log := w.log ++ [Op.Begin db (some w.nextTx)], nextTx := w.nextTx + 1 }).1 =
        Outcome.panicked p →
      m.Transaction g ctx bizFn [PropagationRequiresNew] w =
        (Outcome.panicked p,
         (bizFn.run (Context.txCtx (TransactionContext.mk ctx
            (some { db with ConnPool := ConnPool.tx w.nextTx, Error := none }) none))
            { log := w.log ++ [Op.Begin db (some w.nextTx)], nextTx := w.nextTx + 1 }).2.push
           (Op.Rollback w.nextTx))) := by
  constructor
  · intro ctx db hctx hlookup hbegin hb
    have hrun : m.Transaction g ctx bizFn [PropagationRequired] w =
        runInNewTransaction g (requiredTxCtx ctx
          { db with ConnPool := ConnPool.tx w.nextTx, Error := none }) bizFn
          { log := w.log ++ [Op.Begin db (some w.nextTx)], nextTx := w.nextTx + 1 } := by
      rw [Transaction_required]
      cases ctx with
      | plain i =>
        simp only [TransactionManager.withRequiredPropagation, beginRequired, hlookup,
          DB.Begin, hbegin]
      | txCtx c =>
        have hc : c.InTransaction = false := hctx
        simp only [TransactionManager.withRequiredPropagation, hc, beginRequired, hlookup,
          DB.Begin, hbegin]
        rfl
    rw [hrun]
    refine runInNewTransaction_panic g _
      { db with ConnPool := ConnPool.tx w.nextTx, Error := none } w.nextTx bizFn _ p ?_ rfl
      rfl hb
    cases ctx <;> rfl
  · intro ctx db hlookup hbegin hb
    have hrun : m.Transaction g ctx bizFn [PropagationRequiresNew] w =
        runInNewTransaction g (TransactionContext.mk ctx
          (some { db with ConnPool := ConnPool.tx w.nextTx, Error := none }) none) bizFn
          { log := w.log ++ [Op.Begin db (some w.nextTx)], nextTx := w.nextTx + 1 } := by
      rw [Transaction_requiresNew]
      cases ctx with
      | plain i =>
        simp only [TransactionManager.withRequiresNewPropagation,
          TransactionManager.lookupNewDB, pureCtx] at hlookup ⊢
        simp only [hlookup, DB.Begin, hbegin]
      | txCtx c =>
        simp only [TransactionManager.withRequiresNewPropagation,
          TransactionManager.lookupNewDB, pureCtx] at hlookup ⊢
        simp only [hlookup, DB.Begin, hbegin]
    rw [hrun]
    exact runInNewTransaction_panic g _
      { db with ConnPool := ConnPool.tx w.nextTx, Error := none } w.nextTx bizFn _ p rfl rfl
      rfl hb

/-- C11 at sample inputs: a panicking body under `Required` on a plain context and
under `RequiresNew` inside transaction `0`. -/
theorem C11_panic_rolls_back_and_propagates_witness :
    sampleManager.Transaction sampleGorm (Context.plain 7) panicBody [PropagationRequired]
        sampleWorld =
      (Outcome.panicked "boom",
       { log := [Op.Begin sampleDB (some 0), Op.Rollback 0], nextTx := 1 }) ∧
    sampleManager.Transaction sampleGorm (Context.txCtx sampleTxCtx) panicBody
        [PropagationRequiresNew] sampleWorldInTx =
      (Outcome.panicked "boom",
       { log := [Op.Begin sampleDB (some 0), Op.Begin sampleDB (some 1), Op.Rollback 1],
         nextTx := 2 }) :=
  ⟨(C11_panic_rolls_back_and_propagates sampleGorm sampleManager panicBody sampleWorld
      "boom").1 (Context.plain 7) sampleDB rfl rfl rfl rfl,
   (C11_panic_rolls_back_and_propagates sampleGorm sampleManager panicBody sampleWorldInTx
      "boom").2 (Context.txCtx sampleTxCtx) sampleDB rfl rfl rfl⟩

/-- C12, as the code has it.  `Transaction` invoked with a first propagation value
that is none of the four supported ones does not abort: the value is replaced by the
default, and the call is exactly `withRequiredPropagation`, body included. -/
theorem C12_unsupported_value_runs_as_required (g : Gorm) (m : TransactionManager)
    (ctx : Context) (bizFn : BizFn) (w : World) (p : TransactionPropagation)
    (rest : List TransactionPropagation) (hp : isPropagationSupport p = false) :
    m.Transaction g ctx bizFn (p :: rest) w = m.withRequiredPropagation g ctx bizFn w := by
  simp [TransactionManager.Transaction, hp, defaultPropagation, PropagationRequired,
    PropagationNever, PropagationNested, PropagationRequiresNew]

/-- C12 at a sample input: the value `7` behaves as `Required`. -/
theorem C12_unsupported_value_runs_as_required_witness :
    isPropagationSupport 7 = false ∧
    sampleManager.Transaction sampleGorm (Context.plain 7) okBody [7] sampleWorld =
      sampleManager.withRequiredPropagation sampleGorm (Context.plain 7) okBody sampleWorld :=
  ⟨by decide,
   C12_unsupported_value_runs_as_required sampleGorm sampleManager (Context.plain 7) okBody
     sampleWorld 7 [] (by decide)⟩

/-- C12, the claim as stated fails.  `Transaction` with the propagation value `7`,
which is none of the four, does not panic: it begins a transaction, runs the body
and commits, as `Required` does. -/
theorem C12_counterexample :
    isPropagationSupport 7 = false ∧
    sampleManager.Transaction sampleGorm (Context.plain 7) okBody [7] sampleWorld =
      (Outcome.ret none, { log := [Op.Begin sampleDB (some 0), Op.Commit 0], nextTx := 1 }) := by
  decide

/-- C13. For every transaction context `c`: outside a transaction `Commit` returns
`ErrNotInTransaction` and leaves the world as it was; inside a transaction `T`, a
root issues the physical `Commit` on `T` and returns its error, and a non-root
returns `nil` and leaves the world as it was.  Every context that `Session` returns
is not root and has the receiver as its parent. -/
theorem C13_commit_only_by_root (g : Gorm) (c : TransactionContext) (w : World) :
    (c.InTransaction = false → c.Commit g w = (some GoError.ErrNotInTransaction, w)) ∧
    (∀ (db : DB) (T : Nat), c.tx = some db → db.ConnPool = ConnPool.tx T →
      c.IsRoot = true → c.Commit g w = (g.commitError w T, w.push (Op.Commit T))) ∧
    (∀ (db : DB) (T : Nat), c.tx = some db → db.ConnPool = ConnPool.tx T →
      c.IsRoot = false → c.Commit g w = (none, w)) ∧
    (∀ child, c.Session = some child → child.IsRoot = false ∧ child.parent = some c) := by
  refine ⟨?_, ?_, ?_, ?_⟩
  · intro h
    cases htx : c.tx with
    | none => simp [TransactionContext.Commit, htx]
    | some db => simp [TransactionContext.Commit, htx, h]
  · intro db T htx hpool hroot
    simp [TransactionContext.Commit, htx, InTransaction_of_tx c db T htx hpool, hroot,
      DB.Commit, hpool]
  · intro db T htx hpool hroot
    simp [TransactionContext.Commit, htx, InTransaction_of_tx c db T htx hpool, hroot]
  · intro child h
    cases htx : c.tx with
    | none => simp [TransactionContext.Session, htx] at h
    | some db =>
      simp only [TransactionContext.Session, htx, Option.some.injEq] at h
      subst h
      exact ⟨rfl, rfl⟩

/-- C13 at sample inputs: a context without handle, the root of transaction `0`, and
its session. -/
theorem C13_commit_only_by_root_witness :
    (TransactionContext.mk (Context.plain 0) none none).Commit sampleGorm sampleWorld =
      (some GoError.ErrNotInTransaction, sampleWorld) ∧
    sampleTxCtx.Commit sampleGorm sampleWorldInTx =
      (none, { log := [Op.Begin sampleDB (some 0), Op.Commit 0], nextTx := 1 }) ∧
    sampleChildCtx.Commit sampleGorm sampleWorldInTx = (none, sampleWorldInTx) ∧
    sampleChildCtx.IsRoot = false :=
  ⟨(C13_commit_only_by_root sampleGorm (TransactionContext.mk (Context.plain 0) none none)
      sampleWorld).1 rfl,
   (C13_commit_only_by_root sampleGorm sampleTxCtx sampleWorldInTx).2.1 sampleTxDB 0 rfl rfl
      rfl,
   (C13_commit_only_by_root sampleGorm sampleChildCtx sampleWorldInTx).2.2.1 sampleTxDB 0 rfl
      rfl rfl,
   ((C13_commit_only_by_root sampleGorm sampleTxCtx sampleWorldInTx).2.2.2 sampleChildCtx
      rfl).1⟩

/-! ## `Trace`: evaluations -/

/-- C16. `Trace(a, nil)`, and `Trace(a, s)` for every snapshot `s` of another type,
return without panic the diff that has only the self-changed flag set: for every
group name `GetDiff` is unchanged and `GetListDiff` has empty added, removed and
modified lists, whatever the fields of `a` hold. -/
theorem C16_nil_or_foreign_snapshot (rt : Runtime) (a : AggregateData) :
    Trace rt a none = some (AggregateDiff.aggregateDiff true [] []) ∧
    (∀ s : AggregateData, a.typ ≠ s.typ →
      Trace rt a (some s) = some (AggregateDiff.aggregateDiff true [] [])) ∧
    (AggregateDiff.aggregateDiff true [] []).IsSelfChanged = true ∧
    (∀ g : String,
      (AggregateDiff.aggregateDiff true [] []).GetDiff g = false ∧
      ((AggregateDiff.aggregateDiff true [] []).GetListDiff g).added = [] ∧
      ((AggregateDiff.aggregateDiff true [] []).GetListDiff g).removed = [] ∧
      ((AggregateDiff.aggregateDiff true [] []).GetListDiff g).modified = []) := by
  refine ⟨rfl, ?_, rfl, ?_⟩
  · intro s hs
    simp only [Trace, hs, ne_eq, not_false_eq_true, if_true]
    rfl
  · intro g
    exact ⟨rfl, rfl, rfl, rfl⟩

/-- C16 at a sample input: a snapshot of type `model.Item` for an aggregate of type
`model.Order`. -/
theorem C16_nil_or_foreign_snapshot_witness :
    (order [nameField "a"]).typ ≠ ({ order [nameField "a"] with typ := "model.Item" }).typ ∧
    Trace sampleRuntime (order [nameField "a"])
        (some { order [nameField "a"] with typ := "model.Item" }) =
      some (AggregateDiff.aggregateDiff true [] []) :=
  ⟨by decide,
   (C16_nil_or_foreign_snapshot sampleRuntime (order [nameField "a"])).2.1
     { order [nameField "a"] with typ := "model.Item" } (by decide)⟩

/-- C18, the code at two failing inputs.  The map field `Attrs` is the only field of
its group.  With the key `k` in the current map only, `makeListDiff` calls `IsZero`
on the invalid value that `MapIndex` returns for the absent key and panics, and so
does `Trace`.  With the entry `k: 0` in both maps, which are deep-equal, the zero
value is taken for an absent key: the entry is reported both as added and as
removed. -/
theorem C18_map_reconciliation_fails :
    makeListDiff sampleRuntime true (attrsField [("k", 1)]).value (attrsField []).value =
      none ∧
    Trace sampleRuntime (order [attrsField [("k", 1)]]) (some (order [attrsField []])) = none ∧
    DeepEqual (attrsField [("k", 0)]).value (attrsField [("k", 0)]).value = true ∧
    makeListDiff sampleRuntime true (attrsField [("k", 0)]).value
        (attrsField [("k", 0)]).value =
      some { added := [GoValue.int 0], removed := [GoValue.int 0], modified := [] } :=
  ⟨rfl, rfl, rfl, rfl⟩

/-- C19, the code at a failing input.  An aggregate type declares an exported
untagged field `Name` and an unexported untagged field `note`; current and snapshot
differ in `Name`.  With `Name` declared first `Trace` returns a diff whose
self-changed flag is set; with the two fields declared in the other order `Trace`
panics on `note`. -/
theorem C19_field_order_matters :
    (Trace sampleRuntime (order [nameField "a", noteField "n"])
        (some (order [nameField "b", noteField "n"]))).map AggregateDiff.IsSelfChanged =
      some true ∧
    (Trace sampleRuntime (order [noteField "n", nameField "a"])
        (some (order [noteField "n", nameField "b"]))).isNone = true := by
  decide

/-- C20, the code at the failing input.  `NonNil(nil, nil)` panics, because
`ReflectValueName(nil)` dereferences the nil `reflect.Type`; so `FindNonNil` panics
when the query finds no row and `Find` yields `(nil, nil)`.  For an aggregate that is
present with identity `≤ 0` the not-found failure is returned. -/
theorem C20_nonNil_panics_on_nil :
    RepositoryManager.NonNil none none =
      Outcome.panicked "invalid memory address or nil pointer dereference" ∧
    findResult emptyLoaded none = (none, none) ∧
    FindNonNil emptyLoaded none =
      Outcome.panicked "invalid memory address or nil pointer dereference" ∧
    RepositoryManager.NonNil (some emptyLoaded) none =
      Outcome.ret (some (GoError.appError ErrType.ErrTypeBiz 404 "Order not found"
        [("", "")])) :=
  ⟨rfl, rfl, rfl, by decide⟩

/-- C14, the claim as stated fails.  Current and snapshot hold the same one-element
list in the tagged field `Names []string`, whose elements expose no identity: the
list diff of the group reports the element as added and as removed, and the diff is
not empty. -/
theorem C14_counterexample :
    DeepEqual (namesField ["x"]).value (namesField ["x"]).value = true ∧
    (Trace sampleRuntime (order [namesField ["x"]])
        (some (order [namesField ["x"]]))).map
      (fun d => ((d.GetListDiff "names").IsChanged, d.IsEmpty)) = some (true, false) := by
  decide

/-- C15, the claim as stated fails.  Current and snapshot differ in the untagged
field `Name` only and hold the same list in the tagged field `Names []string`: the
self-changed flag is set, and the list diff of the group `names` reports a
change. -/
theorem C15_counterexample :
    DeepEqual (nameField "a").value (nameField "b").value = false ∧
    DeepEqual (namesField ["x"]).value (namesField ["x"]).value = true ∧
    (Trace sampleRuntime (order [nameField "a", namesField ["x"]])
        (some (order [nameField "b", namesField ["x"]]))).map
      (fun d => (d.IsSelfChanged, (d.GetListDiff "names").IsChanged)) = some (true, true) := by
  decide

/-! ## `Trace`: lemmas on association lists and on `makeListDiff` -/

/-- What `assocPut` holds: the old entries and the new one. -/
theorem mem_assocPut {κ α : Type} [DecidableEq κ] (k : κ) (v : α) :
    ∀ (m : List (κ × α)) (e : κ × α), e ∈ assocPut k v m → e ∈ m ∨ e = (k, v)
  | [], e, h => by
    simp [assocPut] at h
    exact Or.inr h
  | (k2, v2) :: rest, e, h => by
    by_cases hk : k2 = k
    · simp only [assocPut, hk, if_true, List.mem_cons] at h
      rcases h with h | h
      · exact Or.inr h
      · exact Or.inl (List.mem_cons_of_mem _ h)
    · simp only [assocPut, hk, if_false, List.mem_cons] at h
      rcases h with h | h
      · exact Or.inl (h ▸ List.mem_cons_self _ _)
      · rcases mem_assocPut k v rest e h with h2 | h2
        · exact Or.inl (List.mem_cons_of_mem _ h2)
        · exact Or.inr h2

/-- What `assocAppend` holds: every field of every group is an old one or the new
one. -/
theorem mem_assocAppend {α : Type} (k : String) (v : α) :
    ∀ (m : List (String × List α)) (e : String × List α), e ∈ assocAppend k v m →
      ∀ p ∈ e.2, p = v ∨ ∃ e0 ∈ m, p ∈ e0.2
  | [], e, h, p, hp => by
    simp [assocAppend] at h
    subst h
    simp at hp
    exact Or.inl hp
  | (k2, vs) :: rest, e, h, p, hp => by
    by_cases hk : k2 = k
    · simp only [assocAppend, hk, if_true, List.mem_cons] at h
      rcases h with h | h
      · subst h
        simp only [List.mem_append, List.mem_singleton] at hp
        rcases hp with hp | hp
        · exact Or.inr ⟨(k2, vs), List.mem_cons_self _ _, hp⟩
        · exact Or.inl hp
      · exact Or.inr ⟨e, List.mem_cons_of_mem _ h, hp⟩
    · simp only [assocAppend, hk, if_false, List.mem_cons] at h
      rcases h with h | h
      · subst h
        exact Or.inr ⟨(k2, vs), List.mem_cons_self _ _, hp⟩
      · rcases mem_assocAppend k v rest e h p hp with h2 | ⟨e0, he0, hp0⟩
        · exact Or.inl h2
        · exact Or.inr ⟨e0, List.mem_cons_of_mem _ he0, hp0⟩

/-- Deep-equal element lists are deep-equal element by element. -/
theorem deepEqualElems_forall2 :
    ∀ (a b : List GoValue), deepEqualElems a b = true →
      List.Forall₂ (fun u v => DeepEqual u v = true) a b
  | [], [], _ => List.Forall₂.nil
  | [], _ :: _, h => by simp [deepEqualElems] at h
  | _ :: _, [], h => by simp [deepEqualElems] at h
  | u :: a, v :: b, h => by
    simp only [deepEqualElems, Bool.and_eq_true] at h
    exact List.Forall₂.cons h.1 (deepEqualElems_forall2 a b h.2)

/-- Deep-equal sequences have deep-equal element lists. -/
theorem DeepEqual_elems (x y : GoValue) (hseq : x.isSequence = true)
    (h : DeepEqual x y = true) : deepEqualElems x.elems y.elems = true := by
  cases x with
  | slice xs =>
    cases xs with
    | none =>
      cases y with
      | slice ys =>
        cases ys with
        | none => simp [GoValue.elems, deepEqualElems]
        | some b => simp [DeepEqual] at h
      | _ => simp [DeepEqual] at h
    | some a =>
      cases y with
      | slice ys =>
        cases ys with
        | none => simp [DeepEqual] at h
        | some b => simpa [DeepEqual, GoValue.elems] using h
      | _ => simp [DeepEqual] at h
  | array a =>
    cases y with
    | array b => simpa [DeepEqual, GoValue.elems] using h
    | _ => simp [DeepEqual] at h
  | _ => simp [GoValue.isSequence] at hseq

/-- Deep-equal maps: every entry of the first has its key in the second. -/
theorem DeepEqual_entries (x y : GoValue) (hmap : x.isMap = true)
    (h : DeepEqual x y = true) : deepEqualEntries x.entries y.entries = true := by
  cases x with
  | map k xs =>
    cases xs with
    | none => simp [GoValue.entries, deepEqualEntries]
    | some a =>
      cases y with
      | map k2 ys =>
        cases ys with
        | none => simp [DeepEqual] at h
        | some b =>
          simp only [DeepEqual, Bool.and_eq_true] at h
          simpa [GoValue.entries] using h.2
      | _ => simp [DeepEqual] at h
  | _ => simp [GoValue.isMap] at hmap

/-- A value deep-equal to a map is a map. -/
theorem DeepEqual_isMap (x y : GoValue) (hmap : x.isMap = true)
    (h : DeepEqual x y = true) : y.isMap = true := by
  cases x with
  | map k xs =>
    cases y with
    | map k2 ys => rfl
    | _ => cases xs <;> simp [DeepEqual] at h
  | _ => simp [GoValue.isMap] at hmap

/-- A map is not a sequence. -/
theorem isSequence_of_isMap (x : GoValue) (hmap : x.isMap = true) :
    x.isSequence = false := by
  cases x with
  | map k xs => rfl
  | _ => simp [GoValue.isMap] at hmap

/-- What the map case of `DeepEqual` gives for one entry. -/
theorem deepEqualEntries_mem :
    ∀ (a b : List (GoValue × GoValue)), deepEqualEntries a b = true →
      ∀ e ∈ a, ∃ v2, mapIndex b e.1 = some v2 ∧ DeepEqual e.2 v2 = true
  | [], _, _, e, he => by simp at he
  | (k, v) :: r, b, h, e, he => by
    simp only [deepEqualEntries, Bool.and_eq_true] at h
    rcases List.mem_cons.mp he with he | he
    · subst he
      cases hm : mapIndex b k with
      | none => simp [hm] at h
      | some v2 =>
        refine ⟨v2, rfl, ?_⟩
        simpa [hm] using h.1
    · exact deepEqualEntries_mem r b h.2 e he

/-- A value found by `mapIndex` is the value of an entry. -/
theorem mapIndex_mem :
    ∀ (es : List (GoValue × GoValue)) (key v : GoValue), mapIndex es key = some v →
      ∃ e ∈ es, e.2 = v
  | [], _, _, h => by simp [mapIndex] at h
  | (k, v0) :: rest, key, v, h => by
    by_cases hk : GoValue.eqb k key = true
    · simp only [mapIndex, hk, if_true, Option.some.injEq] at h
      exact ⟨(k, v0), List.mem_cons_self _ _, h⟩
    · simp only [mapIndex, hk] at h
      obtain ⟨e, he, hv⟩ := mapIndex_mem rest key v h
      exact ⟨e, List.mem_cons_of_mem _ he, hv⟩

/-- The first loop of the map case adds nothing when every key of `x` is in `y` with
a deep-equal value that is not zero. -/
theorem mapLoopX_quiet (ys : List (GoValue × GoValue)) (b : ListDiff) :
    ∀ (xs : List (GoValue × GoValue)),
      (∀ e ∈ xs, ∃ vY, mapIndex ys e.1 = some vY ∧ isZero vY = false ∧
        DeepEqual e.2 vY = true) →
      mapLoopX true ys b xs = some b
  | [], _ => rfl
  | (kX, vX) :: rest, h => by
    obtain ⟨vY, hm, hz, hd⟩ := h (kX, vX) (List.mem_cons_self _ _)
    simp only [mapLoopX, hm, hz, hd]
    simpa using mapLoopX_quiet ys b rest (fun e he => h e (List.mem_cons_of_mem _ he))

/-- The second loop of the map case removes nothing when every key of `y` is in `x`
with a value that is not zero. -/
theorem mapLoopY_quiet (xs : List (GoValue × GoValue)) (b : ListDiff) :
    ∀ (ys : List (GoValue × GoValue)),
      (∀ e ∈ ys, ∃ vX, mapIndex xs e.1 = some vX ∧ isZero vX = false) →
      mapLoopY true xs b ys = some b
  | [], _ => rfl
  | (kY, vY) :: rest, h => by
    obtain ⟨vX, hm, hz⟩ := h (kY, vY) (List.mem_cons_self _ _)
    simp only [mapLoopY, hm, hz]
    simpa using mapLoopY_quiet xs b rest (fun e he => h e (List.mem_cons_of_mem _ he))

/-- `makeListDiff` on a quiet map field: no panic, nothing reported. -/
theorem makeListDiff_quiet_map (rt : Runtime) (f1 f2 : StructField)
    (hq : QuietField rt f1 f2) (hmap : f1.value.isMap = true) :
    makeListDiff rt f1.exported f1.value f2.value = some EmptyListDiff := by
  obtain ⟨hexp, hd12, hd21, -, hmapq⟩ := hq
  obtain ⟨hz1, hz2⟩ := hmapq hmap
  have hmap2 : f2.value.isMap = true := DeepEqual_isMap _ _ hmap hd12
  have hseq : f1.value.isSequence = false := isSequence_of_isMap _ hmap
  have he12 := deepEqualEntries_mem _ _ (DeepEqual_entries _ _ hmap hd12)
  have he21 := deepEqualEntries_mem _ _ (DeepEqual_entries _ _ hmap2 hd21)
  have hx : mapLoopX true f2.value.entries EmptyListDiff f1.value.entries =
      some EmptyListDiff := by
    apply mapLoopX_quiet
    intro e he
    obtain ⟨vY, hm, hdv⟩ := he12 e he
    obtain ⟨e2, he2, hv2⟩ := mapIndex_mem _ _ _ hm
    exact ⟨vY, hm, hv2 ▸ hz2 e2 he2, hdv⟩
  have hy : mapLoopY true f1.value.entries EmptyListDiff f2.value.entries =
      some EmptyListDiff := by
    apply mapLoopY_quiet
    intro e he
    obtain ⟨vX, hm, -⟩ := he21 e he
    obtain ⟨e1, he1, hv1⟩ := mapIndex_mem _ _ _ hm
    exact ⟨vX, hm, hv1 ▸ hz1 e1 he1⟩
  simp only [makeListDiff, hseq, hmap, hexp, hx, hy]
  rfl

/-- `Interface` keeps deep equality. -/
theorem DeepEqual_Interface (u v : GoValue) (h : DeepEqual u v = true) :
    DeepEqual u.Interface v.Interface = true := by
  cases u with
  | iface d =>
    cases d with
    | none =>
      cases v with
      | iface d2 =>
        cases d2 with
        | none => rfl
        | some b => simp [DeepEqual] at h
      | _ => simp [DeepEqual] at h
    | some a =>
      cases v with
      | iface d2 =>
        cases d2 with
        | none => simp [DeepEqual] at h
        | some b => simpa [DeepEqual, GoValue.Interface] using h
      | _ => simp [DeepEqual] at h
  | int n => cases v <;> first | exact h | simp [DeepEqual] at h
  | str n => cases v <;> first | exact h | simp [DeepEqual] at h
  | bool n => cases v <;> first | exact h | simp [DeepEqual] at h
  | time n => cases v <;> first | exact h | simp [DeepEqual] at h
  | struct t fs => cases v <;> first | exact h | simp [DeepEqual] at h
  | array es => cases v <;> first | exact h | simp [DeepEqual] at h
  | ptr t => cases t <;> cases v <;> first | exact h | simp [DeepEqual] at h
  | slice t => cases t <;> cases v <;> first | exact h | simp [DeepEqual] at h
  | map k t => cases t <;> cases v <;> first | exact h | simp [DeepEqual] at h

/-- When no call of `Identifier()` panics, the loop of `makeListDiff` that fills the
identifier map returns, with the entries of the elements that expose an
identifier. -/
theorem entityMapFrom_eq (rt : Runtime) :
    ∀ (xs : List GoValue) (m : List (Int × GoValue)),
      (∀ v ∈ xs, rt.IdentifierPanics v = false) →
      entityMapFrom rt m xs = some (entityEntriesFrom rt m xs)
  | [], _, _ => rfl
  | v :: rest, m, h => by
    have hv := h v (List.mem_cons_self _ _)
    have ih := fun m2 => entityMapFrom_eq rt rest m2
      (fun u hu => h u (List.mem_cons_of_mem _ hu))
    cases he : rt.Entity v with
    | notEntity => simp only [entityMapFrom, entityEntriesFrom, Runtime.Identifier, he, ih]
    | identifier id => simp only [entityMapFrom, entityEntriesFrom, Runtime.Identifier, he, ih]
    | panics => simp [Runtime.IdentifierPanics, he] at hv

/-- When a call of `Identifier()` panics, the loop that fills the identifier map
panics. -/
theorem entityMapFrom_panics (rt : Runtime) :
    ∀ (xs : List GoValue) (m : List (Int × GoValue)),
      (∃ v ∈ xs, rt.IdentifierPanics v = true) → entityMapFrom rt m xs = none
  | [], _, h => by
    obtain ⟨v, hv, -⟩ := h
    simp at hv
  | u :: rest, m, h => by
    cases he : rt.Entity u with
    | panics => simp only [entityMapFrom, he]
    | notEntity =>
      simp only [entityMapFrom, he]
      refine entityMapFrom_panics rt rest m ?_
      obtain ⟨v, hv, hp⟩ := h
      rcases List.mem_cons.mp hv with h1 | h1
      · rw [h1] at hp
        simp [Runtime.IdentifierPanics, he] at hp
      · exact ⟨v, h1, hp⟩
    | identifier id =>
      simp only [entityMapFrom, he]
      refine entityMapFrom_panics rt rest _ ?_
      obtain ⟨v, hv, hp⟩ := h
      rcases List.mem_cons.mp hv with h1 | h1
      · rw [h1] at hp
        simp [Runtime.IdentifierPanics, he] at hp
      · exact ⟨v, h1, hp⟩

/-- The identifier map of a list none of whose elements makes `Identifier()`
panic. -/
theorem entityMap_eq (rt : Runtime) (xs : List GoValue)
    (h : ∀ v ∈ xs, rt.IdentifierPanics v = false) :
    entityMap rt xs = some (entityEntries rt xs) :=
  entityMapFrom_eq rt xs [] h

/-- The identifier map of the elements of a sequence none of which makes
`Identifier()` panic. -/
theorem entityMap_elems (rt : Runtime) (es : List GoValue)
    (h : ∀ e ∈ es, rt.IdentifierPanics e.Interface = false) :
    entityMap rt (es.map GoValue.Interface) =
      some (entityEntries rt (es.map GoValue.Interface)) := by
  refine entityMap_eq rt _ ?_
  intro v hv
  obtain ⟨e, he, rfl⟩ := List.mem_map.mp hv
  exact h e he

/-- A value that exposes an identifier does not make `Identifier()` panic. -/
theorem panics_false_of_identifier (rt : Runtime) (v : GoValue)
    (h : (rt.Identifier v).isSome = true) : rt.IdentifierPanics v = false := by
  cases he : rt.Entity v <;> simp [Runtime.Identifier, Runtime.IdentifierPanics, he] at h ⊢

/-- `makeListDiff` panics on a sequence with an element on which `Identifier()`
panics, in the current list or in the snapshot list. -/
theorem makeListDiff_panics (rt : Runtime) (exported : Bool) (x y : GoValue)
    (hseq : x.isSequence = true)
    (h : (∃ e ∈ x.elems, rt.IdentifierPanics e.Interface = true) ∨
      (∃ e ∈ y.elems, rt.IdentifierPanics e.Interface = true)) :
    makeListDiff rt exported x y = none := by
  have key : entityMap rt (x.elems.map GoValue.Interface) = none ∨
      entityMap rt (y.elems.map GoValue.Interface) = none := by
    rcases h with ⟨e, he, hp⟩ | ⟨e, he, hp⟩
    · exact Or.inl (entityMapFrom_panics rt _ [] ⟨e.Interface, List.mem_map_of_mem _ he, hp⟩)
    · exact Or.inr (entityMapFrom_panics rt _ [] ⟨e.Interface, List.mem_map_of_mem _ he, hp⟩)
  simp only [makeListDiff, hseq, if_true]
  split
  · rfl
  · rcases key with hk | hk
    · rw [hk]
    · rw [hk]
      cases entityMap rt (x.elems.map GoValue.Interface) <;> rfl

/-- In the sample program a `nil` element of `Items` makes `Trace` panic, in the
current list, in the snapshot list, or in both, also when the two lists are equal. -/
theorem Trace_nil_entity_panics :
    sampleRuntime.Entity (GoValue.ptr none) = EntityAnswer.panics ∧
    Trace sampleRuntime (order [itemsField [item 1 "a", GoValue.ptr none]])
      (some (order [itemsField [item 1 "a", GoValue.ptr none]])) = none ∧
    Trace sampleRuntime (order [itemsField [GoValue.ptr none]])
      (some (order [itemsField [item 1 "a"]])) = none ∧
    Trace sampleRuntime (order [itemsField [item 1 "a"]])
      (some (order [itemsField [GoValue.ptr none]])) = none :=
  ⟨rfl, rfl, rfl, rfl⟩

/-- `assocPut` of deep-equal values under the same key keeps `KeyRel`. -/
theorem KeyRel_assocPut (k : Int) (v v2 : GoValue) (hv : DeepEqual v v2 = true) :
    ∀ (xm ym : List (Int × GoValue)), KeyRel xm ym →
      KeyRel (assocPut k v xm) (assocPut k v2 ym)
  | [], [], _ => List.Forall₂.cons ⟨rfl, hv⟩ List.Forall₂.nil
  | [], _ :: _, h => by cases h
  | _ :: _, [], h => by cases h
  | (k1, v1) :: xm, (k2, w2) :: ym, h => by
    cases h with
    | cons hhead htail =>
      have hk : k1 = k2 := hhead.1
      subst hk
      by_cases hkk : k1 = k
      · simp only [assocPut, hkk, if_true]
        exact List.Forall₂.cons ⟨rfl, hv⟩ htail
      · simp only [assocPut, hkk, if_false]
        exact List.Forall₂.cons hhead (KeyRel_assocPut k v v2 hv xm ym htail)

/-- The loop that fills the identifier map keeps `KeyRel` when it runs over two lists
whose corresponding elements are deep-equal and expose the same identity. -/
theorem KeyRel_entityEntriesFrom (rt : Runtime) :
    ∀ (xs ys : List GoValue) (xm ym : List (Int × GoValue)),
      List.Forall₂ (fun u v => rt.Identifier u = rt.Identifier v ∧ DeepEqual u v = true)
        xs ys →
      KeyRel xm ym → KeyRel (entityEntriesFrom rt xm xs) (entityEntriesFrom rt ym ys)
  | [], [], xm, ym, _, hm => hm
  | [], _ :: _, _, _, h, _ => by cases h
  | _ :: _, [], _, _, h, _ => by cases h
  | u :: xs, v :: ys, xm, ym, h, hm => by
    cases h with
    | cons hhead htail =>
      cases hid : rt.Identifier u with
      | none =>
        have hid2 : rt.Identifier v = none := by rw [← hhead.1, hid]
        simp only [entityEntriesFrom, hid, hid2]
        exact KeyRel_entityEntriesFrom rt xs ys xm ym htail hm
      | some id =>
        have hid2 : rt.Identifier v = some id := by rw [← hhead.1, hid]
        simp only [entityEntriesFrom, hid, hid2]
        exact KeyRel_entityEntriesFrom rt xs ys _ _ htail
          (KeyRel_assocPut id u v hhead.2 xm ym hm)

/-- Under `KeyRel` a key is in both maps or in neither, and the two values are
deep-equal. -/
theorem KeyRel_lookup :
    ∀ (xm ym : List (Int × GoValue)), KeyRel xm ym → ∀ k : Int,
      (xm.lookup k = none ∧ ym.lookup k = none) ∨
      ∃ a b, xm.lookup k = some a ∧ ym.lookup k = some b ∧ DeepEqual a b = true
  | [], [], _, k => Or.inl ⟨rfl, rfl⟩
  | [], _ :: _, h, _ => by cases h
  | _ :: _, [], h, _ => by cases h
  | (k1, v1) :: xm, (k2, v2) :: ym, h, k => by
    cases h with
    | cons hhead htail =>
      have hk : k1 = k2 := hhead.1
      subst hk
      by_cases hkk : k = k1
      · subst hkk
        exact Or.inr ⟨v1, v2, by simp [List.lookup], by simp [List.lookup], hhead.2⟩
      · have hne : (k == k1) = false := by simpa using hkk
        simp only [List.lookup, hne]
        exact KeyRel_lookup xm ym htail k

/-- Under `KeyRel` the maps have the same keys, in the same order. -/
theorem KeyRel_keys (xm ym : List (Int × GoValue)) (h : KeyRel xm ym) :
    xm.map Prod.fst = ym.map Prod.fst := by
  induction h with
  | nil => rfl
  | cons hhead _ ih => simp [hhead.1, ih]

/-- `assocPut` never returns the empty map. -/
theorem assocPut_ne_nil {κ α : Type} [DecidableEq κ] (k : κ) (v : α) (m : List (κ × α)) :
    assocPut k v m ≠ [] := by
  cases m with
  | nil => simp [assocPut]
  | cons e rest =>
    obtain ⟨k2, v2⟩ := e
    by_cases hk : k2 = k <;> simp [assocPut, hk]

/-- The loop that fills the identifier map never empties it. -/
theorem entityEntriesFrom_ne_nil (rt : Runtime) :
    ∀ (xs : List GoValue) (m : List (Int × GoValue)), m ≠ [] → entityEntriesFrom rt m xs ≠ []
  | [], _, h => h
  | u :: xs, m, h => by
    cases hid : rt.Identifier u with
    | none =>
      simp only [entityEntriesFrom, hid]
      exact entityEntriesFrom_ne_nil rt xs m h
    | some id =>
      simp only [entityEntriesFrom, hid]
      exact entityEntriesFrom_ne_nil rt xs _ (assocPut_ne_nil id u m)

/-- A list with an element that exposes an identity has a non-empty identifier
map. -/
theorem entityEntriesFrom_ne_nil_of_mem (rt : Runtime) :
    ∀ (xs : List GoValue) (m : List (Int × GoValue)),
      (∃ u ∈ xs, (rt.Identifier u).isSome = true) → entityEntriesFrom rt m xs ≠ []
  | [], _, h => by
    obtain ⟨u, hu, _⟩ := h
    simp at hu
  | u :: xs, m, h => by
    cases hid : rt.Identifier u with
    | some id =>
      simp only [entityEntriesFrom, hid]
      exact entityEntriesFrom_ne_nil rt xs _ (assocPut_ne_nil id u m)
    | none =>
      simp only [entityEntriesFrom, hid]
      apply entityEntriesFrom_ne_nil_of_mem rt xs m
      obtain ⟨u2, hu2, hsome⟩ := h
      rcases List.mem_cons.mp hu2 with h2 | h2
      · subst h2
        simp [hid] at hsome
      · exact ⟨u2, h2, hsome⟩

/-- The keys after `assocPut`: unchanged for a key that was there, with the new key
at the end otherwise. -/
theorem assocPut_keys {κ α : Type} [DecidableEq κ] (k : κ) (v : α) :
    ∀ m : List (κ × α),
      (assocPut k v m).map Prod.fst =
        if k ∈ m.map Prod.fst then m.map Prod.fst else m.map Prod.fst ++ [k]
  | [] => by simp [assocPut]
  | (k2, v2) :: rest => by
    by_cases hk : k2 = k
    · subst hk
      simp [assocPut]
    · have hk2 : ¬ k = k2 := fun h => hk h.symm
      simp only [assocPut, hk, if_false, List.map_cons, assocPut_keys k v rest,
        List.mem_cons, hk2, false_or]
      by_cases hmem : k ∈ rest.map Prod.fst
      · simp [hmem]
      · simp [hmem]

/-- `assocPut` keeps the keys distinct. -/
theorem assocPut_nodup {κ α : Type} [DecidableEq κ] (k : κ) (v : α) (m : List (κ × α))
    (h : (m.map Prod.fst).Nodup) : ((assocPut k v m).map Prod.fst).Nodup := by
  rw [assocPut_keys]
  by_cases hmem : k ∈ m.map Prod.fst
  · simpa [hmem] using h
  · simp only [hmem, if_false]
    rw [List.nodup_append]
    refine ⟨h, List.nodup_singleton k, ?_⟩
    intro a ha hb
    rw [List.mem_singleton] at hb
    subst hb
    exact hmem ha

/-- The identifier map has distinct keys. -/
theorem entityEntriesFrom_nodup (rt : Runtime) :
    ∀ (xs : List GoValue) (m : List (Int × GoValue)), (m.map Prod.fst).Nodup →
      ((entityEntriesFrom rt m xs).map Prod.fst).Nodup
  | [], _, h => h
  | u :: xs, m, h => by
    cases hid : rt.Identifier u with
    | none =>
      simp only [entityEntriesFrom, hid]
      exact entityEntriesFrom_nodup rt xs m h
    | some id =>
      simp only [entityEntriesFrom, hid]
      exact entityEntriesFrom_nodup rt xs _ (assocPut_nodup id u m h)

/-- In a map with distinct keys, `lookup` finds the entry that is there. -/
theorem lookup_of_mem_nodup {α : Type} :
    ∀ (m : List (Int × α)) (k : Int) (v : α), (m.map Prod.fst).Nodup → (k, v) ∈ m →
      m.lookup k = some v
  | [], _, _, _, h => by simp at h
  | (k2, v2) :: rest, k, v, hnd, h => by
    rw [List.map_cons, List.nodup_cons] at hnd
    rcases List.mem_cons.mp h with h1 | h1
    · cases h1
      simp [List.lookup]
    · have hne : ¬ k = k2 := by
        intro hk
        exact hnd.1 (List.mem_map.mpr ⟨(k, v), h1, hk⟩)
      have hne2 : (k == k2) = false := by simpa using hne
      simp only [List.lookup, hne2]
      exact lookup_of_mem_nodup rest k v hnd.2 h1

/-- A key found by `lookup` is a key of the map. -/
theorem mem_of_lookup {α : Type} :
    ∀ (m : List (Int × α)) (k : Int) (v : α), m.lookup k = some v → (k, v) ∈ m
  | [], _, _, h => by simp [List.lookup] at h
  | (k2, v2) :: rest, k, v, h => by
    by_cases hk : k = k2
    · subst hk
      simp [List.lookup] at h
      subst h
      exact List.mem_cons_self _ _
    · have hne2 : (k == k2) = false := by simpa using hk
      simp only [List.lookup, hne2] at h
      exact List.mem_cons_of_mem _ (mem_of_lookup rest k v h)

/-- Corresponding elements of two deep-equal lists that expose the same identities
are still so after `Interface`. -/
theorem forall2_interface (rt : Runtime) :
    ∀ (xs ys : List GoValue),
      List.Forall₂ (fun u v => DeepEqual u v = true) xs ys →
      xs.map (fun e => rt.Identifier e.Interface) =
        ys.map (fun e => rt.Identifier e.Interface) →
      List.Forall₂ (fun u v => rt.Identifier u = rt.Identifier v ∧ DeepEqual u v = true)
        (xs.map GoValue.Interface) (ys.map GoValue.Interface)
  | [], [], _, _ => List.Forall₂.nil
  | [], _ :: _, h, _ => by cases h
  | _ :: _, [], h, _ => by cases h
  | u :: xs, v :: ys, h, hid => by
    cases h with
    | cons hhead htail =>
      simp only [List.map_cons, List.cons.injEq] at hid
      exact List.Forall₂.cons ⟨hid.1, DeepEqual_Interface u v hhead⟩
        (forall2_interface rt xs ys htail hid.2)

/-- `makeListDiff` on a quiet sequence field: no panic, nothing reported. -/
theorem makeListDiff_quiet_seq (rt : Runtime) (f1 f2 : StructField)
    (hq : QuietField rt f1 f2) (hseq : f1.value.isSequence = true) :
    makeListDiff rt f1.exported f1.value f2.value = some EmptyListDiff := by
  obtain ⟨hexp, hd12, -, hseqq, -⟩ := hq
  obtain ⟨hids, hsome, hnp1, hnp2⟩ := hseqq hseq
  have hX := entityMap_elems rt _ hnp1
  have hY := entityMap_elems rt _ hnp2
  have hfa := deepEqualElems_forall2 _ _ (DeepEqual_elems _ _ hseq hd12)
  have hrel := forall2_interface rt _ _ hfa hids
  have hkey : KeyRel (entityEntries rt (f1.value.elems.map GoValue.Interface))
      (entityEntries rt (f2.value.elems.map GoValue.Interface)) :=
    KeyRel_entityEntriesFrom rt _ _ [] [] hrel List.Forall₂.nil
  have hnd1 : ((entityEntries rt (f1.value.elems.map GoValue.Interface)).map Prod.fst).Nodup :=
    entityEntriesFrom_nodup rt _ [] List.nodup_nil
  have hnd2 : ((entityEntries rt (f2.value.elems.map GoValue.Interface)).map Prod.fst).Nodup :=
    entityEntriesFrom_nodup rt _ [] List.nodup_nil
  simp only [makeListDiff, hseq, hexp, if_true, Bool.not_true, Bool.false_and, hX, hY]
  by_cases hx : (entityEntries rt (f1.value.elems.map GoValue.Interface)).length = 0
  · have hxnil : entityEntries rt (f1.value.elems.map GoValue.Interface) = [] :=
      List.length_eq_zero.mp hx
    have hel : f1.value.elems = [] := by
      rcases hsome with h | ⟨e, he, hsm⟩
      · exact h
      · exact absurd hxnil (entityEntriesFrom_ne_nil_of_mem rt _ []
          ⟨e.Interface, List.mem_map.mpr ⟨e, he, rfl⟩, hsm⟩)
    have hel2 : f2.value.elems = [] := by
      have := hfa.length_eq
      rw [hel] at this
      exact List.length_eq_zero.mp this.symm
    simp [hel, hel2, EmptyListDiff, entityEntries, entityEntriesFrom]
  · have hy : ¬ (entityEntries rt (f2.value.elems.map GoValue.Interface)).length = 0 := by
      rw [← List.Forall₂.length_eq hkey]
      exact hx
    have hadd : (entityEntries rt (f1.value.elems.map GoValue.Interface)).filterMap (fun kv =>
        match (entityEntries rt (f2.value.elems.map GoValue.Interface)).lookup kv.1 with
        | none => some kv.2
        | some _ => none) = [] := by
      rw [List.filterMap_eq_nil_iff]
      intro kv hkv
      have hl := lookup_of_mem_nodup _ kv.1 kv.2 hnd1 hkv
      rcases KeyRel_lookup _ _ hkey kv.1 with ⟨h1, -⟩ | ⟨a, b, -, h2, -⟩
      · rw [hl] at h1
        cases h1
      · simp [h2]
    have hrem : (entityEntries rt (f2.value.elems.map GoValue.Interface)).filterMap (fun kv =>
        match (entityEntries rt (f1.value.elems.map GoValue.Interface)).lookup kv.1 with
        | none => some kv.2
        | some _ => none) = [] := by
      rw [List.filterMap_eq_nil_iff]
      intro kv hkv
      have hl := lookup_of_mem_nodup _ kv.1 kv.2 hnd2 hkv
      rcases KeyRel_lookup _ _ hkey kv.1 with ⟨-, h2⟩ | ⟨a, b, h1, -, -⟩
      · rw [hl] at h2
        cases h2
      · simp [h1]
    have hmod : (entityEntries rt (f1.value.elems.map GoValue.Interface)).filterMap (fun kv =>
        match (entityEntries rt (f2.value.elems.map GoValue.Interface)).lookup kv.1 with
        | none => none
        | some vY => if !DeepEqual kv.2 vY then some kv.2 else none) = [] := by
      rw [List.filterMap_eq_nil_iff]
      intro kv hkv
      have hl := lookup_of_mem_nodup _ kv.1 kv.2 hnd1 hkv
      rcases KeyRel_lookup _ _ hkey kv.1 with ⟨h1, -⟩ | ⟨a, b, h1, h2, hd⟩
      · rw [hl] at h1
        cases h1
      · rw [hl] at h1
        cases h1
        simp [h2, hd]
    simp only [hx, hy, Bool.or_self, decide_False, Bool.false_eq_true, if_false, hadd, hrem,
      hmod]
    rfl

/-! ## `Trace`: the field loop -/

/-- One round of the field loop sets the self-changed flag exactly when it was set or
the field is untagged and differs; it never touches the list diffs. -/
theorem traceField_selfChanged (rt : Runtime) (st st2 : TraceState) (f1 f2 : StructField)
    (h : traceField rt st f1 f2 = some st2) :
    st2.builder.selfChanged =
      (st.builder.selfChanged || (isUntagged rt f1 && !DeepEqual f1.value f2.value)) ∧
    st2.builder.listDiffMap = st.builder.listDiffMap := by
  by_cases hb : f1.Name = "AggregateManager" ∨ f1.Name = "MixModel"
  · simp only [traceField, hb, if_true, Option.some.injEq] at h
    subst h
    simp [isUntagged, isBookkeeping, hb]
  · by_cases hv : isValidTag rt f1.Tag = true
    · have hu : isUntagged rt f1 = false := by simp [isUntagged, hv]
      simp only [traceField, hb, if_false, hv, Bool.not_true, Bool.false_eq_true] at h
      by_cases hg : st.builder.GetDiff (parseTag f1.Tag).1 = true
      · simp only [hg, if_true, Option.some.injEq] at h
        subst h
        simp [hu]
      · simp only [hg, Bool.false_eq_true, if_false] at h
        by_cases hs : f1.value.isSequence = true
        · simp only [hs, if_true, Option.some.injEq] at h
          subst h
          simp [hu]
        · simp only [hs, Bool.false_eq_true, if_false] at h
          by_cases hm : f1.value.isMap = true
          · simp only [hm, if_true, Option.some.injEq] at h
            subst h
            simp [hu]
          · simp only [hm, Bool.false_eq_true, if_false] at h
            by_cases he : f1.exported = true
            · simp only [he, if_true] at h
              by_cases hd : DeepEqual f1.value f2.value = true
              · simp only [hd, Bool.not_true, Bool.false_eq_true, if_false,
                  Option.some.injEq] at h
                subst h
                simp [hu]
              · simp only [hd, Bool.not_eq_true, Bool.not_false, if_true,
                  Option.some.injEq] at h
                subst h
                simp [hu, AggregateDiffBuilder.PutDiff]
            · simp [he] at h
    · have hv2 : isValidTag rt f1.Tag = false := by simpa using hv
      have hu : isUntagged rt f1 = true := by simp [isUntagged, isBookkeeping, hb, hv2]
      simp only [traceField, hb, if_false, hv2, Bool.not_false, if_true] at h
      by_cases hsc : st.builder.selfChanged = true
      · simp only [AggregateDiffBuilder.IsSelfChanged, hsc, Bool.not_true, Bool.false_eq_true,
          if_false, Option.some.injEq] at h
        subst h
        simp [hsc]
      · have hsc2 : st.builder.selfChanged = false := by simpa using hsc
        simp only [AggregateDiffBuilder.IsSelfChanged, hsc2, Bool.not_false, if_true] at h
        by_cases he : f1.exported = true
        · simp only [he, if_true, Option.some.injEq] at h
          subst h
          simp [hu, hsc2, AggregateDiffBuilder.SetSelfChanged]
        · simp [he] at h

/-- What one round of the field loop can do: nothing, set the self-changed flag from
an exported untagged field, record a tagged sequence or map field of a group not
yet changed, or mark the group of an exported tagged field that differs. -/
theorem traceField_cases (rt : Runtime) (st st2 : TraceState) (f1 f2 : StructField)
    (h : traceField rt st f1 f2 = some st2) :
    st2 = st ∨
    (isUntagged rt f1 = true ∧ f1.exported = true ∧
      st2 = { st with builder :=
        st.builder.SetSelfChanged (!DeepEqual f1.value f2.value) }) ∨
    (isTagged rt f1 = true ∧ st.builder.GetDiff (groupOf f1) = false ∧
      f1.value.isSequence = true ∧
      st2 = { st with sliceField := assocAppend (groupOf f1) (f1, f2) st.sliceField }) ∨
    (isTagged rt f1 = true ∧ st.builder.GetDiff (groupOf f1) = false ∧
      f1.value.isMap = true ∧
      st2 = { st with mapField := assocAppend (groupOf f1) (f1, f2) st.mapField }) ∨
    (isTagged rt f1 = true ∧ f1.exported = true ∧ DeepEqual f1.value f2.value = false ∧
      st2 = { st with builder := st.builder.PutDiff (groupOf f1) true }) := by
  by_cases hb : f1.Name = "AggregateManager" ∨ f1.Name = "MixModel"
  · simp only [traceField, hb, if_true, Option.some.injEq] at h
    exact Or.inl h.symm
  · by_cases hv : isValidTag rt f1.Tag = true
    · have ht : isTagged rt f1 = true := by simp [isTagged, isBookkeeping, hb, hv]
      simp only [traceField, hb, if_false, hv, Bool.not_true, Bool.false_eq_true] at h
      by_cases hg : st.builder.GetDiff (parseTag f1.Tag).1 = true
      · simp only [hg, if_true, Option.some.injEq] at h
        exact Or.inl h.symm
      · have hg2 : st.builder.GetDiff (groupOf f1) = false := by simpa [groupOf] using hg
        simp only [hg, Bool.false_eq_true, if_false] at h
        by_cases hs : f1.value.isSequence = true
        · simp only [hs, if_true, Option.some.injEq] at h
          exact Or.inr (Or.inr (Or.inl ⟨ht, hg2, hs, h.symm⟩))
        · simp only [hs, Bool.false_eq_true, if_false] at h
          by_cases hm : f1.value.isMap = true
          · simp only [hm, if_true, Option.some.injEq] at h
            exact Or.inr (Or.inr (Or.inr (Or.inl ⟨ht, hg2, hm, h.symm⟩)))
          · simp only [hm, Bool.false_eq_true, if_false] at h
            by_cases he : f1.exported = true
            · simp only [he, if_true] at h
              by_cases hd : DeepEqual f1.value f2.value = true
              · simp only [hd, Bool.not_true, Bool.false_eq_true, if_false,
                  Option.some.injEq] at h
                exact Or.inl h.symm
              · have hd2 : DeepEqual f1.value f2.value = false := by simpa using hd
                simp only [hd, Bool.not_eq_true, Bool.not_false, if_true,
                  Option.some.injEq] at h
                exact Or.inr (Or.inr (Or.inr (Or.inr ⟨ht, he, hd2, h.symm⟩)))
            · simp [he] at h
    · have hv2 : isValidTag rt f1.Tag = false := by simpa using hv
      have hu : isUntagged rt f1 = true := by simp [isUntagged, isBookkeeping, hb, hv2]
      simp only [traceField, hb, if_false, hv2, Bool.not_false, if_true] at h
      by_cases hsc : st.builder.IsSelfChanged = true
      · simp only [hsc, Bool.not_true, Bool.false_eq_true, if_false,
          Option.some.injEq] at h
        exact Or.inl h.symm
      · have hsc2 : st.builder.IsSelfChanged = false := by simpa using hsc
        simp only [hsc2, Bool.not_false, if_true] at h
        by_cases he : f1.exported = true
        · simp only [he, if_true, Option.some.injEq] at h
          exact Or.inr (Or.inl ⟨hu, he, h.symm⟩)
        · simp [he] at h

/-- One round of the field loop does not panic on an exported field. -/
theorem traceField_total (rt : Runtime) (st : TraceState) (f1 f2 : StructField)
    (he : isBookkeeping f1 = false → f1.exported = true) :
    ∃ st2, traceField rt st f1 f2 = some st2 := by
  by_cases hb : f1.Name = "AggregateManager" ∨ f1.Name = "MixModel"
  · exact ⟨st, by simp [traceField, hb]⟩
  · have hexp : f1.exported = true := he (by simp [isBookkeeping, hb])
    simp only [traceField, hb, if_false, hexp, if_true]
    repeat' split
    all_goals exact ⟨_, rfl⟩

/-- One round of the field loop keeps the recorded fields within `P`, when the field
it reads is in `P` if it is tagged. -/
theorem traceField_groups (rt : Runtime) (P : StructField → StructField → Prop)
    (st st2 : TraceState) (f1 f2 : StructField)
    (h : traceField rt st f1 f2 = some st2)
    (hP : isTagged rt f1 = true → P f1 f2)
    (hs : Groups P GoValue.isSequence st.sliceField)
    (hm : Groups P GoValue.isMap st.mapField) :
    Groups P GoValue.isSequence st2.sliceField ∧ Groups P GoValue.isMap st2.mapField := by
  rcases traceField_cases rt st st2 f1 f2 h with h1 | ⟨-, -, h1⟩ | ⟨ht, -, hk, h1⟩ |
    ⟨ht, -, hk, h1⟩ | ⟨-, -, -, h1⟩
  · subst h1
    exact ⟨hs, hm⟩
  · subst h1
    exact ⟨hs, hm⟩
  · subst h1
    refine ⟨?_, hm⟩
    intro e he p hp
    rcases mem_assocAppend _ _ _ e he p hp with hnew | ⟨e0, he0, hp0⟩
    · subst hnew
      exact ⟨hP ht, hk⟩
    · exact hs e0 he0 p hp0
  · subst h1
    refine ⟨hs, ?_⟩
    intro e he p hp
    rcases mem_assocAppend _ _ _ e he p hp with hnew | ⟨e0, he0, hp0⟩
    · subst hnew
      exact ⟨hP ht, hk⟩
    · exact hm e0 he0 p hp0
  · subst h1
    exact ⟨hs, hm⟩

/-- The field loop sets the self-changed flag exactly when it was set or some
untagged field differs; it never touches the list diffs. -/
theorem traceFields_selfChanged (rt : Runtime) :
    ∀ (fields : List (StructField × StructField)) (st st2 : TraceState),
      traceFields rt st fields = some st2 →
      st2.builder.selfChanged = (st.builder.selfChanged || untaggedDiffer rt fields) ∧
      st2.builder.listDiffMap = st.builder.listDiffMap
  | [], st, st2, h => by
    simp only [traceFields, Option.some.injEq] at h
    subst h
    simp [untaggedDiffer]
  | (f1, f2) :: rest, st, st2, h => by
    cases h1 : traceField rt st f1 f2 with
    | none => simp [traceFields, h1] at h
    | some st1 =>
      simp only [traceFields, h1] at h
      obtain ⟨hsc1, hlm1⟩ := traceField_selfChanged rt st st1 f1 f2 h1
      obtain ⟨hsc2, hlm2⟩ := traceFields_selfChanged rt rest st1 st2 h
      refine ⟨?_, hlm2.trans hlm1⟩
      rw [hsc2, hsc1]
      simp [untaggedDiffer, Bool.or_assoc]

/-- The field loop does not panic when every field it does not skip is exported. -/
theorem traceFields_total (rt : Runtime) :
    ∀ (fields : List (StructField × StructField)) (st : TraceState),
      (∀ p ∈ fields, isBookkeeping p.1 = false → p.1.exported = true) →
      ∃ st2, traceFields rt st fields = some st2
  | [], st, _ => ⟨st, rfl⟩
  | (f1, f2) :: rest, st, h => by
    obtain ⟨st1, h1⟩ := traceField_total rt st f1 f2 (h (f1, f2) (List.mem_cons_self _ _))
    obtain ⟨st2, h2⟩ := traceFields_total rt rest st1
      (fun p hp => h p (List.mem_cons_of_mem _ hp))
    exact ⟨st2, by simp only [traceFields, h1, h2]⟩

/-- The field loop keeps the recorded fields within `P`, when every tagged field it
reads is in `P`. -/
theorem traceFields_groups (rt : Runtime) (P : StructField → StructField → Prop) :
    ∀ (fields : List (StructField × StructField)) (st st2 : TraceState),
      traceFields rt st fields = some st2 →
      (∀ p ∈ fields, isTagged rt p.1 = true → P p.1 p.2) →
      Groups P GoValue.isSequence st.sliceField → Groups P GoValue.isMap st.mapField →
      Groups P GoValue.isSequence st2.sliceField ∧ Groups P GoValue.isMap st2.mapField
  | [], st, st2, h, _, hs, hm => by
    simp only [traceFields, Option.some.injEq] at h
    subst h
    exact ⟨hs, hm⟩
  | (f1, f2) :: rest, st, st2, h, hP, hs, hm => by
    cases h1 : traceField rt st f1 f2 with
    | none => simp [traceFields, h1] at h
    | some st1 =>
      simp only [traceFields, h1] at h
      obtain ⟨hs1, hm1⟩ := traceField_groups rt P st st1 f1 f2 h1
        (hP (f1, f2) (List.mem_cons_self _ _)) hs hm
      exact traceFields_groups rt P rest st1 st2 h
        (fun p hp => hP p (List.mem_cons_of_mem _ hp)) hs1 hm1

/-- The field loop marks no group when every tagged field is deep-equal. -/
theorem traceFields_diffMap (rt : Runtime) :
    ∀ (fields : List (StructField × StructField)) (st st2 : TraceState),
      traceFields rt st fields = some st2 →
      (∀ p ∈ fields, isTagged rt p.1 = true → DeepEqual p.1.value p.2.value = true) →
      st2.builder.diffMap = st.builder.diffMap
  | [], st, st2, h, _ => by
    simp only [traceFields, Option.some.injEq] at h
    subst h
    rfl
  | (f1, f2) :: rest, st, st2, h, hq => by
    cases h1 : traceField rt st f1 f2 with
    | none => simp [traceFields, h1] at h
    | some st1 =>
      simp only [traceFields, h1] at h
      have ih := traceFields_diffMap rt rest st1 st2 h
        (fun p hp => hq p (List.mem_cons_of_mem _ hp))
      rw [ih]
      rcases traceField_cases rt st st1 f1 f2 h1 with h2 | ⟨-, -, h2⟩ | ⟨-, -, -, h2⟩ |
        ⟨-, -, -, h2⟩ | ⟨ht, -, hd, -⟩
      · rw [h2]
      · rw [h2]
        rfl
      · rw [h2]
      · rw [h2]
      · have := hq (f1, f2) (List.mem_cons_self _ _) ht
        rw [hd] at this
        cases this

/-! ## `Trace`: `fillListDiff` -/

/-- One round of `fillListDiff` leaves the self-changed flag alone. -/
theorem fillGroup_selfChanged (rt : Runtime) (b b2 : AggregateDiffBuilder) (t : String)
    (l : List (StructField × StructField)) (h : fillGroup rt b t l = some b2) :
    b2.selfChanged = b.selfChanged := by
  unfold fillGroup at h
  split at h
  · simp only [Option.some.injEq] at h
    rw [← h]
  · split at h
    · simp only [Option.some.injEq] at h
      rw [← h]
    · split at h
      · simp only [Option.some.injEq] at h
        rw [← h]
        rfl
      · simp at h
  · split at h
    · simp only [Option.some.injEq] at h
      rw [← h]
    · split at h
      · simp only [Option.some.injEq] at h
        rw [← h]
        rfl
      · simp only [Option.some.injEq] at h
        rw [← h]
      · simp at h

/-- `fillListDiff` leaves the self-changed flag alone. -/
theorem fillListDiff_selfChanged (rt : Runtime) :
    ∀ (m : List (String × List (StructField × StructField))) (b b2 : AggregateDiffBuilder),
      fillListDiff rt b m = some b2 → b2.selfChanged = b.selfChanged
  | [], b, b2, h => by
    simp only [fillListDiff, Option.some.injEq] at h
    rw [← h]
  | (t, l) :: rest, b, b2, h => by
    cases h1 : fillGroup rt b t l with
    | none => simp [fillListDiff, h1] at h
    | some b1 =>
      simp only [fillListDiff, h1] at h
      rw [fillListDiff_selfChanged rt rest b1 b2 h, fillGroup_selfChanged rt b b1 t l h1]

/-- Exported deep-equal fields: the comparison loop finds no difference. -/
theorem anyFieldDiffers_quiet :
    ∀ l : List (StructField × StructField),
      (∀ p ∈ l, p.1.exported = true ∧ DeepEqual p.1.value p.2.value = true) →
      anyFieldDiffers l = some false
  | [], _ => rfl
  | (f1, f2) :: rest, h => by
    obtain ⟨he, hd⟩ := h (f1, f2) (List.mem_cons_self _ _)
    simp only [anyFieldDiffers, he, if_true, hd, Bool.not_true, Bool.false_eq_true, if_false]
    exact anyFieldDiffers_quiet rest (fun p hp => h p (List.mem_cons_of_mem _ hp))

/-- Exported fields: the comparison loop does not panic. -/
theorem anyFieldDiffers_total :
    ∀ l : List (StructField × StructField), (∀ p ∈ l, p.1.exported = true) →
      ∃ r, anyFieldDiffers l = some r
  | [], _ => ⟨false, rfl⟩
  | (f1, f2) :: rest, h => by
    have he := h (f1, f2) (List.mem_cons_self _ _)
    obtain ⟨r, hr⟩ := anyFieldDiffers_total rest (fun p hp => h p (List.mem_cons_of_mem _ hp))
    by_cases hd : DeepEqual f1.value f2.value = true
    · exact ⟨r, by simp [anyFieldDiffers, he, hd, hr]⟩
    · exact ⟨true, by simp [anyFieldDiffers, he, hd]⟩

/-- A quiet builder reports no group as changed. -/
theorem QuietBuilder_GetDiff (b : AggregateDiffBuilder) (hb : QuietBuilder b) (t : String) :
    b.GetDiff t = false := by
  simp [AggregateDiffBuilder.GetDiff, AggregateDiffBuilder.Build, AggregateDiff.GetDiff, hb.1]

/-- One round of `fillListDiff` on quiet fields: no panic, and the builder stays
quiet. -/
theorem fillGroup_quiet (rt : Runtime) (b : AggregateDiffBuilder) (t : String)
    (l : List (StructField × StructField)) (hb : QuietBuilder b)
    (hq : ∀ p ∈ l, p.1.exported = true ∧ DeepEqual p.1.value p.2.value = true ∧
      makeListDiff rt p.1.exported p.1.value p.2.value = some EmptyListDiff) :
    ∃ b2, fillGroup rt b t l = some b2 ∧ QuietBuilder b2 := by
  have hg := QuietBuilder_GetDiff b hb t
  match l, hq with
  | [], _ => exact ⟨b, rfl, hb⟩
  | [(f1, f2)], hq =>
    obtain ⟨-, -, hmk⟩ := hq (f1, f2) (List.mem_cons_self _ _)
    refine ⟨b.PutListDiff t EmptyListDiff, ?_, ?_⟩
    · simp only [fillGroup, hg, Bool.false_eq_true, if_false, hmk]
    · refine ⟨hb.1, ?_⟩
      intro e he
      rcases mem_assocPut t EmptyListDiff b.listDiffMap e he with h1 | h1
      · exact hb.2 e h1
      · rw [h1]
  | p1 :: p2 :: rest, hq =>
    have hany := anyFieldDiffers_quiet (p1 :: p2 :: rest)
      (fun p hp => ⟨(hq p hp).1, (hq p hp).2.1⟩)
    exact ⟨b, by simp only [fillGroup, hg, Bool.false_eq_true, if_false, hany], hb⟩

/-- `fillListDiff` on quiet fields: no panic, and the builder stays quiet. -/
theorem fillListDiff_quiet (rt : Runtime) :
    ∀ (m : List (String × List (StructField × StructField))) (b : AggregateDiffBuilder),
      QuietBuilder b →
      (∀ e ∈ m, ∀ p ∈ e.2, p.1.exported = true ∧ DeepEqual p.1.value p.2.value = true ∧
        makeListDiff rt p.1.exported p.1.value p.2.value = some EmptyListDiff) →
      ∃ b2, fillListDiff rt b m = some b2 ∧ QuietBuilder b2
  | [], b, hb, _ => ⟨b, rfl, hb⟩
  | (t, l) :: rest, b, hb, hq => by
    obtain ⟨b1, h1, hb1⟩ := fillGroup_quiet rt b t l hb (hq (t, l) (List.mem_cons_self _ _))
    obtain ⟨b2, h2, hb2⟩ := fillListDiff_quiet rt rest b1 hb1
      (fun e he => hq e (List.mem_cons_of_mem _ he))
    exact ⟨b2, by simp only [fillListDiff, h1, h2], hb2⟩

/-- The first loop of the map case does not panic when every key of `x` is in `y`. -/
theorem mapLoopX_total (ys : List (GoValue × GoValue)) :
    ∀ (xs : List (GoValue × GoValue)) (b : ListDiff),
      (∀ e ∈ xs, (mapIndex ys e.1).isSome = true) → ∃ b2, mapLoopX true ys b xs = some b2
  | [], b, _ => ⟨b, rfl⟩
  | (kX, vX) :: rest, b, h => by
    have hk := h (kX, vX) (List.mem_cons_self _ _)
    have hrest : ∀ e ∈ rest, (mapIndex ys e.1).isSome = true :=
      fun e he => h e (List.mem_cons_of_mem _ he)
    cases hm : mapIndex ys kX with
    | none => simp [hm] at hk
    | some vY =>
      simp only [mapLoopX, hm, Bool.not_true, Bool.false_eq_true, if_false]
      by_cases hz : isZero vY = true
      · simp only [hz, if_true]
        exact mapLoopX_total ys rest _ hrest
      · by_cases hd : DeepEqual vX vY = true
        · simp only [hz, hd, Bool.not_true, Bool.false_eq_true, if_false]
          exact mapLoopX_total ys rest _ hrest
        · simp only [hz, hd, Bool.not_eq_true, Bool.false_eq_true, if_false, Bool.not_false,
            if_true]
          exact mapLoopX_total ys rest _ hrest

/-- The second loop of the map case does not panic when every key of `y` is in
`x`. -/
theorem mapLoopY_total (xs : List (GoValue × GoValue)) :
    ∀ (ys : List (GoValue × GoValue)) (b : ListDiff),
      (∀ e ∈ ys, (mapIndex xs e.1).isSome = true) → ∃ b2, mapLoopY true xs b ys = some b2
  | [], b, _ => ⟨b, rfl⟩
  | (kY, vY) :: rest, b, h => by
    have hk := h (kY, vY) (List.mem_cons_self _ _)
    have hrest : ∀ e ∈ rest, (mapIndex xs e.1).isSome = true :=
      fun e he => h e (List.mem_cons_of_mem _ he)
    cases hm : mapIndex xs kY with
    | none => simp [hm] at hk
    | some vX =>
      by_cases hz : isZero vX = true
      · simp only [mapLoopY, hm, hz, if_true, Bool.not_true, Bool.false_eq_true, if_false]
        exact mapLoopY_total xs rest _ hrest
      · simp only [mapLoopY, hm, hz, Bool.false_eq_true, if_false]
        exact mapLoopY_total xs rest _ hrest

/-- `makeListDiff` does not panic on a safe field. -/
theorem makeListDiff_total (rt : Runtime) (f1 f2 : StructField) (hs : SafeField rt f1 f2) :
    ∃ ld, makeListDiff rt f1.exported f1.value f2.value = some ld := by
  obtain ⟨hexp, hseqq, hmapq⟩ := hs
  by_cases hseq : f1.value.isSequence = true
  · obtain ⟨hnp1, hnp2⟩ := hseqq hseq
    simp only [makeListDiff, hseq, if_true, hexp, Bool.not_true, Bool.false_and,
      Bool.false_eq_true, if_false, entityMap_elems rt _ hnp1, entityMap_elems rt _ hnp2]
    split <;> exact ⟨_, rfl⟩
  · by_cases hmap : f1.value.isMap = true
    · obtain ⟨h1, h2⟩ := hmapq hmap
      obtain ⟨b1, hb1⟩ := mapLoopX_total f2.value.entries f1.value.entries EmptyListDiff h1
      obtain ⟨b2, hb2⟩ := mapLoopY_total f1.value.entries f2.value.entries b1 h2
      exact ⟨b2, by simp only [makeListDiff, hseq, Bool.false_eq_true, if_false, hmap, if_true,
        hexp, hb1, hb2]⟩
    · exact ⟨EmptyListDiff, by simp only [makeListDiff, hseq, hmap, Bool.false_eq_true,
        if_false]⟩

/-- One round of `fillListDiff` does not panic on safe fields. -/
theorem fillGroup_total (rt : Runtime) (b : AggregateDiffBuilder) (t : String)
    (l : List (StructField × StructField)) (hs : ∀ p ∈ l, SafeField rt p.1 p.2) :
    ∃ b2, fillGroup rt b t l = some b2 := by
  match l, hs with
  | [], _ => exact ⟨b, rfl⟩
  | [(f1, f2)], hs =>
    obtain ⟨ld, hld⟩ := makeListDiff_total rt f1 f2 (hs (f1, f2) (List.mem_cons_self _ _))
    by_cases hg : b.GetDiff t = true
    · exact ⟨b, by simp only [fillGroup, hg, if_true]⟩
    · exact ⟨b.PutListDiff t ld,
        by simp only [fillGroup, hg, Bool.false_eq_true, if_false, hld]⟩
  | p1 :: p2 :: rest, hs =>
    obtain ⟨r, hr⟩ := anyFieldDiffers_total (p1 :: p2 :: rest) (fun p hp => (hs p hp).1)
    by_cases hg : b.GetDiff t = true
    · exact ⟨b, by simp only [fillGroup, hg, if_true]⟩
    · cases r with
      | true =>
        exact ⟨b.PutDiff t true,
          by simp only [fillGroup, hg, Bool.false_eq_true, if_false, hr]⟩
      | false => exact ⟨b, by simp only [fillGroup, hg, Bool.false_eq_true, if_false, hr]⟩

/-- `fillListDiff` does not panic on safe fields. -/
theorem fillListDiff_total (rt : Runtime) :
    ∀ (m : List (String × List (StructField × StructField))) (b : AggregateDiffBuilder),
      (∀ e ∈ m, ∀ p ∈ e.2, SafeField rt p.1 p.2) → ∃ b2, fillListDiff rt b m = some b2
  | [], b, _ => ⟨b, rfl⟩
  | (t, l) :: rest, b, hs => by
    obtain ⟨b1, h1⟩ := fillGroup_total rt b t l (hs (t, l) (List.mem_cons_self _ _))
    obtain ⟨b2, h2⟩ := fillListDiff_total rt rest b1
      (fun e he => hs e (List.mem_cons_of_mem _ he))
    exact ⟨b2, by simp only [fillListDiff, h1, h2]⟩

/-! ## `Trace`: what it returns -/

/-- A value found by `lookup` under a group name is the value of an entry. -/
theorem mem_of_lookup_name {α : Type} :
    ∀ (m : List (String × α)) (g : String) (v : α), m.lookup g = some v → ∃ e ∈ m, e.2 = v
  | [], _, _, h => by simp [List.lookup] at h
  | (k, v0) :: rest, g, v, h => by
    by_cases hk : (g == k) = true
    · simp only [List.lookup, hk, Option.some.injEq] at h
      exact ⟨(k, v0), List.mem_cons_self _ _, h⟩
    · have hk2 : (g == k) = false := by simpa using hk
      simp only [List.lookup, hk2] at h
      obtain ⟨e, he, hv⟩ := mem_of_lookup_name rest g v h
      exact ⟨e, List.mem_cons_of_mem _ he, hv⟩

/-- A diff without group diffs whose list diffs are all empty reports no change. -/
theorem quiet_diff_reports_nothing (sc : Bool) (lm : List (String × ListDiff))
    (hlm : ∀ e ∈ lm, e.2 = EmptyListDiff) :
    (∀ g : String, (AggregateDiff.aggregateDiff sc [] lm).GetDiff g = false ∧
      ((AggregateDiff.aggregateDiff sc [] lm).GetListDiff g) = EmptyListDiff) ∧
    (AggregateDiff.aggregateDiff sc [] lm).IsEmpty = !sc := by
  constructor
  · intro g
    refine ⟨by simp [AggregateDiff.GetDiff], ?_⟩
    simp only [AggregateDiff.GetListDiff]
    cases hl : lm.lookup g with
    | none => rfl
    | some v =>
      obtain ⟨e, he, hv⟩ := mem_of_lookup_name lm g v hl
      simp only []
      rw [← hv, hlm e he]
  · have hany : lm.any (fun kv => kv.2.IsChanged) = false := by
      rw [List.any_eq_false]
      intro e he
      rw [hlm e he]
      simp [EmptyListDiff, ListDiff.IsChanged]
    cases sc <;> simp [AggregateDiff.IsEmpty, hany]

/-- Whenever `Trace` returns for a snapshot of the same type, the self-changed flag
tells whether some untagged field differs. -/
theorem Trace_selfChanged (rt : Runtime) (a s : AggregateData) (d : AggregateDiff)
    (htyp : a.typ = s.typ) (h : Trace rt a (some s) = some d) :
    d.IsSelfChanged = untaggedDiffer rt (a.fields.zip s.fields) := by
  simp only [Trace, htyp, ne_eq, not_true_eq_false, if_false] at h
  cases h1 : traceFields rt newTraceState (a.fields.zip s.fields) with
  | none => simp [h1] at h
  | some st =>
    simp only [h1] at h
    cases h2 : fillListDiff rt st.builder st.sliceField with
    | none => simp [h2] at h
    | some b1 =>
      simp only [h2] at h
      cases h3 : fillListDiff rt b1 st.mapField with
      | none => simp [h3] at h
      | some b2 =>
        simp only [h3, Option.some.injEq] at h
        rw [← h]
        have hsc := (traceFields_selfChanged rt _ _ st h1).1
        have hsc1 := fillListDiff_selfChanged rt _ _ b1 h2
        have hsc2 := fillListDiff_selfChanged rt _ _ b2 h3
        simp only [AggregateDiffBuilder.Build, AggregateDiff.IsSelfChanged, hsc2, hsc1, hsc,
          newTraceState, NewAggregateDiffBuilder, Bool.false_or]

/-- `Trace` does not panic when every field it does not skip is safe. -/
theorem Trace_total (rt : Runtime) (a s : AggregateData) (htyp : a.typ = s.typ)
    (hsafe : ∀ p ∈ a.fields.zip s.fields, isBookkeeping p.1 = false → SafeField rt p.1 p.2) :
    ∃ d, Trace rt a (some s) = some d := by
  obtain ⟨st, h1⟩ := traceFields_total rt (a.fields.zip s.fields) newTraceState
    (fun p hp hb => (hsafe p hp hb).1)
  have hgroups := traceFields_groups rt (SafeField rt) _ _ st h1
    (fun p hp ht => hsafe p hp (by
      simp only [isTagged, Bool.and_eq_true, Bool.not_eq_true'] at ht
      exact ht.1))
    (fun e he => by simp [newTraceState] at he) (fun e he => by simp [newTraceState] at he)
  obtain ⟨b1, h2⟩ := fillListDiff_total rt st.sliceField st.builder
    (fun e he p hp => (hgroups.1 e he p hp).1)
  obtain ⟨b2, h3⟩ := fillListDiff_total rt st.mapField b1
    (fun e he p hp => (hgroups.2 e he p hp).1)
  exact ⟨b2.Build, by
    simp only [Trace, htyp, ne_eq, not_true_eq_false, if_false, h1, h2, h3]⟩

/-- `Trace` on an aggregate whose untagged fields are exported and whose tagged
fields are quiet: it returns a diff without group diffs, whose list diffs are all
empty and whose self-changed flag tells whether some untagged field differs. -/
theorem Trace_quiet (rt : Runtime) (a s : AggregateData) (htyp : a.typ = s.typ)
    (hun : ∀ p ∈ a.fields.zip s.fields, isUntagged rt p.1 = true → p.1.exported = true)
    (htag : ∀ p ∈ a.fields.zip s.fields, isTagged rt p.1 = true → QuietField rt p.1 p.2) :
    ∃ lm, Trace rt a (some s) =
        some (AggregateDiff.aggregateDiff (untaggedDiffer rt (a.fields.zip s.fields)) [] lm) ∧
      ∀ e ∈ lm, e.2 = EmptyListDiff := by
  have hexp : ∀ p ∈ a.fields.zip s.fields, isBookkeeping p.1 = false → p.1.exported = true := by
    intro p hp hb
    by_cases hv : isValidTag rt p.1.Tag = true
    · exact (htag p hp (by simp [isTagged, hb, hv])).1
    · exact hun p hp (by simp [isUntagged, hb, hv])
  obtain ⟨st, h1⟩ := traceFields_total rt (a.fields.zip s.fields) newTraceState hexp
  have hgroups := traceFields_groups rt (QuietField rt) _ _ st h1 htag
    (fun e he => by simp [newTraceState] at he) (fun e he => by simp [newTraceState] at he)
  obtain ⟨hsc, hlm⟩ := traceFields_selfChanged rt _ _ st h1
  have hdm := traceFields_diffMap rt _ _ st h1 (fun p hp ht => (htag p hp ht).2.1)
  have hq0 : QuietBuilder st.builder := by
    refine ⟨by rw [hdm]; rfl, ?_⟩
    rw [hlm]
    intro e he
    simp [newTraceState, NewAggregateDiffBuilder] at he
  obtain ⟨b1, h2, hq1⟩ := fillListDiff_quiet rt st.sliceField st.builder hq0
    (fun e he p hp =>
      ⟨(hgroups.1 e he p hp).1.1, (hgroups.1 e he p hp).1.2.1,
       makeListDiff_quiet_seq rt p.1 p.2 (hgroups.1 e he p hp).1 (hgroups.1 e he p hp).2⟩)
  obtain ⟨b2, h3, hq2⟩ := fillListDiff_quiet rt st.mapField b1 hq1
    (fun e he p hp =>
      ⟨(hgroups.2 e he p hp).1.1, (hgroups.2 e he p hp).1.2.1,
       makeListDiff_quiet_map rt p.1 p.2 (hgroups.2 e he p hp).1 (hgroups.2 e he p hp).2⟩)
  have hsc1 := fillListDiff_selfChanged rt _ _ b1 h2
  have hsc2 := fillListDiff_selfChanged rt _ _ b2 h3
  refine ⟨b2.listDiffMap, ?_, hq2.2⟩
  simp only [Trace, htyp, ne_eq, not_true_eq_false, if_false, h1, h2, h3]
  simp only [AggregateDiffBuilder.Build, hq2.1, hsc2, hsc1, hsc, newTraceState,
    NewAggregateDiffBuilder, Bool.false_or]

/-- C14, as the code has it.  For an aggregate `a` and a snapshot `s` of the same
type whose fields are pairwise deep-equal, where the untagged fields are exported and
every tagged field is quiet (exported; a sequence is empty or has an element that
exposes an identity, corresponding elements expose the same identity, and no element
is one on which `Identifier()` panics, such as a `nil` pointer of an entity type; a
map has no zero-valued entry): `Trace(a, s)` returns a diff that reports no change.  Self-changed is false, for every group name `GetDiff` and
`GetListDiff` are unchanged, and `IsEmpty` is true. -/
theorem C14_equal_fields_report_no_change (rt : Runtime) (a s : AggregateData)
    (htyp : a.typ = s.typ)
    (hun : ∀ p ∈ a.fields.zip s.fields, isUntagged rt p.1 = true →
      p.1.exported = true ∧ DeepEqual p.1.value p.2.value = true)
    (htag : ∀ p ∈ a.fields.zip s.fields, isTagged rt p.1 = true → QuietField rt p.1 p.2) :
    ∃ d, Trace rt a (some s) = some d ∧ d.IsSelfChanged = false ∧
      (∀ g : String, d.GetDiff g = false ∧ (d.GetListDiff g).IsChanged = false) ∧
      d.IsEmpty = true := by
  obtain ⟨lm, hT, hlm⟩ := Trace_quiet rt a s htyp (fun p hp hu => (hun p hp hu).1) htag
  have hsc : untaggedDiffer rt (a.fields.zip s.fields) = false := by
    simp only [untaggedDiffer, List.any_eq_false, Bool.and_eq_true, Bool.not_eq_true',
      not_and, Bool.not_eq_false]
    intro p hp hu
    exact (hun p hp hu).2
  rw [hsc] at hT
  obtain ⟨hgroups, hempty⟩ := quiet_diff_reports_nothing false lm hlm
  refine ⟨_, hT, rfl, ?_, by simpa using hempty⟩
  intro g
  refine ⟨(hgroups g).1, ?_⟩
  rw [(hgroups g).2]
  rfl

/-- C14 at a sample input: an order and its equal snapshot. -/
theorem C14_equal_fields_report_no_change_witness :
    (sampleOrder "n").typ = (sampleOrder "n").typ ∧
    (∀ p ∈ (sampleOrder "n").fields.zip (sampleOrder "n").fields,
      isUntagged sampleRuntime p.1 = true →
        p.1.exported = true ∧ DeepEqual p.1.value p.2.value = true) ∧
    (∀ p ∈ (sampleOrder "n").fields.zip (sampleOrder "n").fields,
      isTagged sampleRuntime p.1 = true → QuietField sampleRuntime p.1 p.2) ∧
    ∃ d, Trace sampleRuntime (sampleOrder "n") (some (sampleOrder "n")) = some d ∧
      d.IsSelfChanged = false ∧
      (∀ g : String, d.GetDiff g = false ∧ (d.GetListDiff g).IsChanged = false) ∧
      d.IsEmpty = true :=
  ⟨rfl, by decide, by decide,
   C14_equal_fields_report_no_change sampleRuntime (sampleOrder "n") (sampleOrder "n") rfl
     (by decide) (by decide)⟩

/-- C15, as the code has it.  For an aggregate `a` and a snapshot `s` of the same
type: whenever `Trace(a, s)` returns, its self-changed flag is true if and only if
some field that is not skipped and carries no valid tag differs under deep equality,
so tagged fields never influence the flag; `Trace` returns when every field it does
not skip is safe (exported; a sequence without an element on which `Identifier()`
panics, such as a `nil` pointer of an entity type; a map with the same keys on both
sides); and when the untagged fields are exported and the tagged fields are quiet
(`QuietField`), whatever the untagged fields hold, for every group name `GetDiff` and
`GetListDiff` are unchanged. -/
theorem C15_self_changed_iff_untagged_differs (rt : Runtime) (a s : AggregateData)
    (htyp : a.typ = s.typ) :
    (∀ d, Trace rt a (some s) = some d →
      (d.IsSelfChanged = true ↔
        ∃ p ∈ a.fields.zip s.fields,
          isUntagged rt p.1 = true ∧ DeepEqual p.1.value p.2.value = false)) ∧
    ((∀ p ∈ a.fields.zip s.fields, isBookkeeping p.1 = false → SafeField rt p.1 p.2) →
      ∃ d, Trace rt a (some s) = some d) ∧
    ((∀ p ∈ a.fields.zip s.fields, isUntagged rt p.1 = true → p.1.exported = true) →
      (∀ p ∈ a.fields.zip s.fields, isTagged rt p.1 = true → QuietField rt p.1 p.2) →
      ∃ d, Trace rt a (some s) = some d ∧
        ∀ g : String, d.GetDiff g = false ∧ (d.GetListDiff g).IsChanged = false) := by
  refine ⟨?_, Trace_total rt a s htyp, ?_⟩
  · intro d hd
    rw [Trace_selfChanged rt a s d htyp hd]
    simp [untaggedDiffer]
  · intro hun htag
    obtain ⟨lm, hT, hlm⟩ := Trace_quiet rt a s htyp hun htag
    obtain ⟨hgroups, -⟩ :=
      quiet_diff_reports_nothing (untaggedDiffer rt (a.fields.zip s.fields)) lm hlm
    refine ⟨_, hT, ?_⟩
    intro g
    refine ⟨(hgroups g).1, ?_⟩
    rw [(hgroups g).2]
    rfl

/-- C15 at a sample input: an order and a snapshot that differs in the untagged name
only. -/
theorem C15_self_changed_iff_untagged_differs_witness :
    (sampleOrder "a").typ = (sampleOrder "b").typ ∧
    (∀ p ∈ (sampleOrder "a").fields.zip (sampleOrder "b").fields,
      isUntagged sampleRuntime p.1 = true → p.1.exported = true) ∧
    (∀ p ∈ (sampleOrder "a").fields.zip (sampleOrder "b").fields,
      isTagged sampleRuntime p.1 = true → QuietField sampleRuntime p.1 p.2) ∧
    (∃ d, Trace sampleRuntime (sampleOrder "a") (some (sampleOrder "b")) = some d ∧
      ∀ g : String, d.GetDiff g = false ∧ (d.GetListDiff g).IsChanged = false) ∧
    (Trace sampleRuntime (sampleOrder "a") (some (sampleOrder "b"))).map
      AggregateDiff.IsSelfChanged = some true :=
  ⟨rfl, by decide, by decide,
   (C15_self_changed_iff_untagged_differs sampleRuntime (sampleOrder "a") (sampleOrder "b")
      rfl).2.2 (by decide) (by decide),
   by decide⟩

/-! ## `makeListDiff` on sequences whose elements expose identities -/

/-- Every entry of the identifier map was there before or comes from an element,
under the identity the element exposes. -/
theorem mem_entityEntriesFrom (rt : Runtime) :
    ∀ (xs : List GoValue) (m : List (Int × GoValue)) (e : Int × GoValue),
      e ∈ entityEntriesFrom rt m xs → e ∈ m ∨ (e.2 ∈ xs ∧ rt.Identifier e.2 = some e.1)
  | [], _, _, h => Or.inl h
  | u :: xs, m, e, h => by
    cases hid : rt.Identifier u with
    | none =>
      simp only [entityEntriesFrom, hid] at h
      rcases mem_entityEntriesFrom rt xs m e h with h1 | ⟨h1, h2⟩
      · exact Or.inl h1
      · exact Or.inr ⟨List.mem_cons_of_mem _ h1, h2⟩
    | some id =>
      simp only [entityEntriesFrom, hid] at h
      rcases mem_entityEntriesFrom rt xs _ e h with h1 | ⟨h1, h2⟩
      · rcases mem_assocPut id u m e h1 with h3 | h3
        · exact Or.inl h3
        · subst h3
          exact Or.inr ⟨List.mem_cons_self _ _, hid⟩
      · exact Or.inr ⟨List.mem_cons_of_mem _ h1, h2⟩

/-- `assocPut` holds the entry it puts. -/
theorem mem_assocPut_self {κ α : Type} [DecidableEq κ] (k : κ) (v : α) :
    ∀ m : List (κ × α), (k, v) ∈ assocPut k v m
  | [] => by simp [assocPut]
  | (k2, v2) :: rest => by
    by_cases hk : k2 = k
    · simp [assocPut, hk]
    · simp only [assocPut, hk, if_false]
      exact List.mem_cons_of_mem _ (mem_assocPut_self k v rest)

/-- `assocPut` keeps the entries under other keys. -/
theorem mem_assocPut_of_ne {κ α : Type} [DecidableEq κ] (k : κ) (v : α) (e : κ × α)
    (hne : e.1 ≠ k) : ∀ m : List (κ × α), e ∈ m → e ∈ assocPut k v m
  | [], h => by simp at h
  | (k2, v2) :: rest, h => by
    by_cases hk : k2 = k
    · simp only [assocPut, hk, if_true]
      rcases List.mem_cons.mp h with h1 | h1
      · subst h1
        exact absurd hk hne
      · exact List.mem_cons_of_mem _ h1
    · simp only [assocPut, hk, if_false]
      rcases List.mem_cons.mp h with h1 | h1
      · subst h1
        exact List.mem_cons_self _ _
      · exact List.mem_cons_of_mem _ (mem_assocPut_of_ne k v e hne rest h1)

/-- An entry stays in the identifier map while no later element exposes its key. -/
theorem entityEntriesFrom_keeps (rt : Runtime) (e : Int × GoValue) :
    ∀ (xs : List GoValue) (m : List (Int × GoValue)), e ∈ m →
      (∀ u ∈ xs, rt.Identifier u ≠ some e.1) → e ∈ entityEntriesFrom rt m xs
  | [], _, h, _ => h
  | u :: xs, m, h, hne => by
    have hrest : ∀ u2 ∈ xs, rt.Identifier u2 ≠ some e.1 :=
      fun u2 hu2 => hne u2 (List.mem_cons_of_mem _ hu2)
    cases hid : rt.Identifier u with
    | none =>
      simp only [entityEntriesFrom, hid]
      exact entityEntriesFrom_keeps rt e xs m h hrest
    | some id =>
      simp only [entityEntriesFrom, hid]
      have hk : e.1 ≠ id := by
        intro hk
        exact hne u (List.mem_cons_self _ _) (by rw [hid, hk])
      exact entityEntriesFrom_keeps rt e xs _ (mem_assocPut_of_ne id u e hk m h) hrest

/-- With distinct identities every element is in the identifier map under its
identity. -/
theorem entityEntriesFrom_mem (rt : Runtime) (v : GoValue) (k : Int)
    (hid : rt.Identifier v = some k) :
    ∀ (xs : List GoValue) (m : List (Int × GoValue)), v ∈ xs →
      (xs.map rt.Identifier).Nodup → (k, v) ∈ entityEntriesFrom rt m xs
  | [], _, h, _ => by simp at h
  | u :: xs, m, h, hnd => by
    rw [List.map_cons, List.nodup_cons] at hnd
    rcases List.mem_cons.mp h with h1 | h1
    · subst h1
      simp only [entityEntriesFrom, hid]
      apply entityEntriesFrom_keeps rt (k, v) xs _ (mem_assocPut_self k v m)
      intro u2 hu2 heq
      exact hnd.1 (by rw [hid, ← heq]; exact List.mem_map_of_mem _ hu2)
    · cases hid2 : rt.Identifier u with
      | none =>
        simp only [entityEntriesFrom, hid2]
        exact entityEntriesFrom_mem rt v k hid xs m h1 hnd.2
      | some id =>
        simp only [entityEntriesFrom, hid2]
        exact entityEntriesFrom_mem rt v k hid xs _ h1 hnd.2

/-- `lookup` finds nothing exactly when no entry has the key. -/
theorem lookup_eq_none {α : Type} :
    ∀ (m : List (Int × α)) (k : Int), m.lookup k = none ↔ ∀ e ∈ m, e.1 ≠ k
  | [], k => by simp [List.lookup]
  | (k2, v2) :: rest, k => by
    by_cases hk : k = k2
    · subst hk
      simp [List.lookup]
    · have hne2 : (k == k2) = false := by simpa using hk
      simp only [List.lookup, hne2, lookup_eq_none rest k, List.mem_cons, forall_eq_or_imp]
      constructor
      · intro h
        exact ⟨fun h2 => hk h2.symm, h⟩
      · intro h
        exact h.2

/-- With distinct identities, the identifier map of a list has an entry under `k`
exactly when an element exposes `k`. -/
theorem entityEntries_lookup_none (rt : Runtime) (xs : List GoValue) (k : Int)
    (hnd : (xs.map rt.Identifier).Nodup) :
    (entityEntries rt xs).lookup k = none ↔ some k ∉ xs.map rt.Identifier := by
  rw [lookup_eq_none]
  constructor
  · intro h hmem
    obtain ⟨u, hu, hid⟩ := List.mem_map.mp hmem
    exact h (k, u) (entityEntriesFrom_mem rt u k hid xs [] hu hnd) rfl
  · intro h e he hk
    rcases mem_entityEntriesFrom rt xs [] e he with h1 | ⟨h1, h2⟩
    · simp at h1
    · exact h (List.mem_map.mpr ⟨e.2, h1, by rw [h2, hk]⟩)

/-- `makeListDiff` on two non-empty sequences whose elements all expose an identity,
with distinct identities within each: added holds the current elements whose
identity is not in the snapshot, removed the snapshot elements whose identity is
not in the current list, modified the current elements whose identity is in the
snapshot with a value that is not deep-equal. -/
theorem makeListDiff_identified (rt : Runtime) (x y : GoValue)
    (hseq : x.isSequence = true)
    (hx : ∀ u ∈ x.items, (rt.Identifier u).isSome = true)
    (hy : ∀ u ∈ y.items, (rt.Identifier u).isSome = true)
    (hxn : x.items ≠ []) (hyn : y.items ≠ [])
    (hxd : (x.items.map rt.Identifier).Nodup) (hyd : (y.items.map rt.Identifier).Nodup) :
    ∃ ld, makeListDiff rt true x y = some ld ∧
      (∀ v, v ∈ ld.added ↔ v ∈ x.items ∧ rt.Identifier v ∉ y.items.map rt.Identifier) ∧
      (∀ v, v ∈ ld.removed ↔ v ∈ y.items ∧ rt.Identifier v ∉ x.items.map rt.Identifier) ∧
      (∀ v, v ∈ ld.modified ↔
        v ∈ x.items ∧ ∃ w ∈ y.items, rt.Identifier w = rt.Identifier v ∧
          DeepEqual v w = false) := by
  have hxm : (entityEntries rt x.items).length ≠ 0 := by
    intro h
    obtain ⟨u, hu⟩ := List.exists_mem_of_ne_nil _ hxn
    exact entityEntriesFrom_ne_nil_of_mem rt x.items [] ⟨u, hu, hx u hu⟩
      (List.length_eq_zero.mp h)
  have hym : (entityEntries rt y.items).length ≠ 0 := by
    intro h
    obtain ⟨u, hu⟩ := List.exists_mem_of_ne_nil _ hyn
    exact entityEntriesFrom_ne_nil_of_mem rt y.items [] ⟨u, hu, hy u hu⟩
      (List.length_eq_zero.mp h)
  have hkx : ((entityEntries rt x.items).map Prod.fst).Nodup :=
    entityEntriesFrom_nodup rt _ [] List.nodup_nil
  have hky : ((entityEntries rt y.items).map Prod.fst).Nodup :=
    entityEntriesFrom_nodup rt _ [] List.nodup_nil
  have hin : ∀ (xs : List GoValue) (e : Int × GoValue), e ∈ entityEntries rt xs →
      e.2 ∈ xs ∧ rt.Identifier e.2 = some e.1 := by
    intro xs e he
    rcases mem_entityEntriesFrom rt xs [] e he with h1 | h1
    · simp at h1
    · exact h1
  have hX : entityMap rt (x.elems.map GoValue.Interface) =
      some (entityEntries rt (x.elems.map GoValue.Interface)) :=
    entityMap_eq rt _ (fun v hv => panics_false_of_identifier rt v (hx v hv))
  have hY : entityMap rt (y.elems.map GoValue.Interface) =
      some (entityEntries rt (y.elems.map GoValue.Interface)) :=
    entityMap_eq rt _ (fun v hv => panics_false_of_identifier rt v (hy v hv))
  refine ⟨_, by
    simp only [makeListDiff, hseq, if_true, Bool.not_true, Bool.false_and,
      Bool.false_eq_true, if_false, hX, hY]
    rw [if_neg (by simpa [GoValue.items] using And.intro hxm hym)], ?_, ?_, ?_⟩
  · intro v
    simp only [List.mem_filterMap]
    constructor
    · rintro ⟨kv, hkv, hf⟩
      obtain ⟨hmem, hid⟩ := hin _ kv hkv
      cases hl : (entityEntries rt (y.elems.map GoValue.Interface)).lookup kv.1 with
      | some w => simp [hl] at hf
      | none =>
        simp only [hl, Option.some.injEq] at hf
        subst hf
        refine ⟨hmem, ?_⟩
        rw [hid]
        exact (entityEntries_lookup_none rt y.items kv.1 hyd).mp hl
    · rintro ⟨hmem, hnot⟩
      cases hid : rt.Identifier v with
      | none =>
        have := hx v hmem
        simp [hid] at this
      | some k =>
        refine ⟨(k, v), entityEntriesFrom_mem rt v k hid _ [] hmem hxd, ?_⟩
        have hl : (entityEntries rt (y.elems.map GoValue.Interface)).lookup k = none :=
          (entityEntries_lookup_none rt y.items k hyd).mpr (by rw [← hid]; exact hnot)
        simp [hl]
  · intro v
    simp only [List.mem_filterMap]
    constructor
    · rintro ⟨kv, hkv, hf⟩
      obtain ⟨hmem, hid⟩ := hin _ kv hkv
      cases hl : (entityEntries rt (x.elems.map GoValue.Interface)).lookup kv.1 with
      | some w => simp [hl] at hf
      | none =>
        simp only [hl, Option.some.injEq] at hf
        subst hf
        refine ⟨hmem, ?_⟩
        rw [hid]
        exact (entityEntries_lookup_none rt x.items kv.1 hxd).mp hl
    · rintro ⟨hmem, hnot⟩
      cases hid : rt.Identifier v with
      | none =>
        have := hy v hmem
        simp [hid] at this
      | some k =>
        refine ⟨(k, v), entityEntriesFrom_mem rt v k hid _ [] hmem hyd, ?_⟩
        have hl : (entityEntries rt (x.elems.map GoValue.Interface)).lookup k = none :=
          (entityEntries_lookup_none rt x.items k hxd).mpr (by rw [← hid]; exact hnot)
        simp [hl]
  · intro v
    simp only [List.mem_filterMap]
    constructor
    · rintro ⟨kv, hkv, hf⟩
      obtain ⟨hmem, hid⟩ := hin _ kv hkv
      cases hl : (entityEntries rt (y.elems.map GoValue.Interface)).lookup kv.1 with
      | none => simp [hl] at hf
      | some w =>
        simp only [hl] at hf
        by_cases hd : DeepEqual kv.2 w = true
        · simp [hd] at hf
        · have hd2 : DeepEqual kv.2 w = false := by simpa using hd
          simp only [hd2, Bool.not_false, if_true, Option.some.injEq] at hf
          subst hf
          obtain ⟨hw, hidw⟩ := hin _ (kv.1, w) (mem_of_lookup _ _ _ hl)
          exact ⟨hmem, w, hw, by rw [hidw, hid], hd2⟩
    · rintro ⟨hmem, w, hw, hidw, hd⟩
      cases hid : rt.Identifier v with
      | none =>
        have := hx v hmem
        simp [hid] at this
      | some k =>
        refine ⟨(k, v), entityEntriesFrom_mem rt v k hid _ [] hmem hxd, ?_⟩
        have hl : (entityEntries rt (y.elems.map GoValue.Interface)).lookup k = some w :=
          lookup_of_mem_nodup _ k w hky
            (entityEntriesFrom_mem rt w k (by rw [hidw, hid]) _ [] hw hyd)
        simp [hl, hd]

/-! ## `Trace`: a group is only touched by its own fields -/

/-- `assocPut` under another name leaves the lookup alone. -/
theorem lookup_assocPut_ne {α : Type} (k g : String) (v : α) (hne : k ≠ g) :
    ∀ m : List (String × α), (assocPut k v m).lookup g = m.lookup g
  | [] => by
    have h : (g == k) = false := by simpa using fun h : g = k => hne h.symm
    simp [assocPut, List.lookup, h]
  | (k2, v2) :: rest => by
    by_cases hk : k2 = k
    · subst hk
      have h : (g == k2) = false := by simpa using fun h : g = k2 => hne h.symm
      simp [assocPut, List.lookup, h]
    · by_cases hg : g = k2
      · subst hg
        simp [assocPut, hk, List.lookup]
      · have h : (g == k2) = false := by simpa using hg
        simp only [assocPut, hk, if_false, List.lookup, h]
        exact lookup_assocPut_ne k g v hne rest

/-- `assocPut` is found under its own name. -/
theorem lookup_assocPut_self {α : Type} (k : String) (v : α) :
    ∀ m : List (String × α), (assocPut k v m).lookup k = some v
  | [] => by simp [assocPut, List.lookup]
  | (k2, v2) :: rest => by
    by_cases hk : k2 = k
    · subst hk
      simp [assocPut, List.lookup]
    · have h : (k == k2) = false := by simpa using fun h : k = k2 => hk h.symm
      simp only [assocPut, hk, if_false, List.lookup, h]
      exact lookup_assocPut_self k v rest

/-- `assocAppend` under another name leaves the lookup alone. -/
theorem lookup_assocAppend_ne {α : Type} (k g : String) (v : α) (hne : k ≠ g) :
    ∀ m : List (String × List α), (assocAppend k v m).lookup g = m.lookup g
  | [] => by
    have h : (g == k) = false := by simpa using fun h : g = k => hne h.symm
    simp [assocAppend, List.lookup, h]
  | (k2, v2) :: rest => by
    by_cases hk : k2 = k
    · subst hk
      have h : (g == k2) = false := by simpa using fun h : g = k2 => hne h.symm
      simp [assocAppend, List.lookup, h]
    · by_cases hg : g = k2
      · subst hg
        simp [assocAppend, hk, List.lookup]
      · have h : (g == k2) = false := by simpa using hg
        simp only [assocAppend, hk, if_false, List.lookup, h]
        exact lookup_assocAppend_ne k g v hne rest

/-- `assocAppend` under a name that has no entry yet starts its list. -/
theorem lookup_assocAppend_new {α : Type} (k : String) (v : α) :
    ∀ m : List (String × List α), m.lookup k = none → (assocAppend k v m).lookup k = some [v]
  | [], _ => by simp [assocAppend, List.lookup]
  | (k2, v2) :: rest, h => by
    by_cases hk : k = k2
    · subst hk
      simp [List.lookup] at h
    · have hb : (k == k2) = false := by simpa using hk
      have hk2 : ¬ k2 = k := fun h2 => hk h2.symm
      simp only [List.lookup, hb] at h
      simp only [assocAppend, hk2, if_false, List.lookup, hb]
      exact lookup_assocAppend_new k v rest h

/-- The keys after `assocAppend`: unchanged for a key that was there, with the new
key at the end otherwise. -/
theorem assocAppend_keys {α : Type} (k : String) (v : α) :
    ∀ m : List (String × List α),
      (assocAppend k v m).map Prod.fst =
        if k ∈ m.map Prod.fst then m.map Prod.fst else m.map Prod.fst ++ [k]
  | [] => by simp [assocAppend]
  | (k2, v2) :: rest => by
    by_cases hk : k2 = k
    · subst hk
      simp [assocAppend]
    · have hk2 : ¬ k = k2 := fun h => hk h.symm
      simp only [assocAppend, hk, if_false, List.map_cons, assocAppend_keys k v rest,
        List.mem_cons, hk2, false_or]
      by_cases hmem : k ∈ rest.map Prod.fst
      · simp [hmem]
      · simp [hmem]

/-- `assocAppend` keeps the keys distinct. -/
theorem assocAppend_nodup {α : Type} (k : String) (v : α) (m : List (String × List α))
    (h : (m.map Prod.fst).Nodup) : ((assocAppend k v m).map Prod.fst).Nodup := by
  rw [assocAppend_keys]
  by_cases hmem : k ∈ m.map Prod.fst
  · simpa [hmem] using h
  · simp only [hmem, if_false]
    rw [List.nodup_append]
    refine ⟨h, List.nodup_singleton k, ?_⟩
    intro a ha hb
    rw [List.mem_singleton] at hb
    subst hb
    exact hmem ha

/-- `lookup` under a name finds nothing exactly when no entry has the name. -/
theorem lookup_name_eq_none {α : Type} :
    ∀ (m : List (String × α)) (g : String), m.lookup g = none ↔ ∀ e ∈ m, e.1 ≠ g
  | [], g => by simp [List.lookup]
  | (k2, v2) :: rest, g => by
    by_cases hk : g = k2
    · subst hk
      simp [List.lookup]
    · have hne2 : (g == k2) = false := by simpa using hk
      simp only [List.lookup, hne2, lookup_name_eq_none rest g, List.mem_cons,
        forall_eq_or_imp]
      constructor
      · intro h
        exact ⟨fun h2 => hk h2.symm, h⟩
      · intro h
        exact h.2

/-- One round of the field loop on a field of another group, or of no group, leaves
what is kept under the group `g` as it was, and keeps the names of `sliceField`
distinct. -/
theorem traceField_frame (rt : Runtime) (g : String) (st st2 : TraceState)
    (f1 f2 : StructField) (h : traceField rt st f1 f2 = some st2)
    (hne : isTagged rt f1 = true → groupOf f1 ≠ g) :
    st2.builder.diffMap.lookup g = st.builder.diffMap.lookup g ∧
    st2.sliceField.lookup g = st.sliceField.lookup g ∧
    st2.mapField.lookup g = st.mapField.lookup g := by
  rcases traceField_cases rt st st2 f1 f2 h with h1 | ⟨-, -, h1⟩ | ⟨ht, -, -, h1⟩ |
    ⟨ht, -, -, h1⟩ | ⟨ht, -, -, h1⟩
  · subst h1
    exact ⟨rfl, rfl, rfl⟩
  · subst h1
    exact ⟨rfl, rfl, rfl⟩
  · subst h1
    exact ⟨rfl, lookup_assocAppend_ne _ g _ (hne ht) _, rfl⟩
  · subst h1
    exact ⟨rfl, rfl, lookup_assocAppend_ne _ g _ (hne ht) _⟩
  · subst h1
    exact ⟨lookup_assocPut_ne _ g _ (hne ht) _, rfl, rfl⟩

/-- One round of the field loop keeps the names of `sliceField` distinct. -/
theorem traceField_nodup (rt : Runtime) (st st2 : TraceState) (f1 f2 : StructField)
    (h : traceField rt st f1 f2 = some st2) (hnd : (st.sliceField.map Prod.fst).Nodup) :
    (st2.sliceField.map Prod.fst).Nodup := by
  rcases traceField_cases rt st st2 f1 f2 h with h1 | ⟨-, -, h1⟩ | ⟨-, -, -, h1⟩ |
    ⟨-, -, -, h1⟩ | ⟨-, -, -, h1⟩
  · subst h1
    exact hnd
  · subst h1
    exact hnd
  · subst h1
    exact assocAppend_nodup _ _ _ hnd
  · subst h1
    exact hnd
  · subst h1
    exact hnd

/-- The field loop over fields of other groups leaves what is kept under the group
`g` as it was. -/
theorem traceFields_frame (rt : Runtime) (g : String) :
    ∀ (fields : List (StructField × StructField)) (st st2 : TraceState),
      traceFields rt st fields = some st2 →
      (∀ p ∈ fields, isTagged rt p.1 = true → groupOf p.1 ≠ g) →
      st2.builder.diffMap.lookup g = st.builder.diffMap.lookup g ∧
      st2.sliceField.lookup g = st.sliceField.lookup g ∧
      st2.mapField.lookup g = st.mapField.lookup g
  | [], st, st2, h, _ => by
    simp only [traceFields, Option.some.injEq] at h
    subst h
    exact ⟨rfl, rfl, rfl⟩
  | (f1, f2) :: rest, st, st2, h, hne => by
    cases h1 : traceField rt st f1 f2 with
    | none => simp [traceFields, h1] at h
    | some st1 =>
      simp only [traceFields, h1] at h
      obtain ⟨a1, a2, a3⟩ := traceField_frame rt g st st1 f1 f2 h1
        (hne (f1, f2) (List.mem_cons_self _ _))
      obtain ⟨b1, b2, b3⟩ := traceFields_frame rt g rest st1 st2 h
        (fun p hp => hne p (List.mem_cons_of_mem _ hp))
      exact ⟨b1.trans a1, b2.trans a2, b3.trans a3⟩

/-- The field loop keeps the names of `sliceField` distinct. -/
theorem traceFields_nodup (rt : Runtime) :
    ∀ (fields : List (StructField × StructField)) (st st2 : TraceState),
      traceFields rt st fields = some st2 → (st.sliceField.map Prod.fst).Nodup →
      (st2.sliceField.map Prod.fst).Nodup
  | [], st, st2, h, hnd => by
    simp only [traceFields, Option.some.injEq] at h
    subst h
    exact hnd
  | (f1, f2) :: rest, st, st2, h, hnd => by
    cases h1 : traceField rt st f1 f2 with
    | none => simp [traceFields, h1] at h
    | some st1 =>
      simp only [traceFields, h1] at h
      exact traceFields_nodup rt rest st1 st2 h (traceField_nodup rt st st1 f1 f2 h1 hnd)

/-- The field loop splits over an appended field list. -/
theorem traceFields_append (rt : Runtime) :
    ∀ (pre post : List (StructField × StructField)) (st st2 : TraceState),
      traceFields rt st (pre ++ post) = some st2 →
      ∃ st1, traceFields rt st pre = some st1 ∧ traceFields rt st1 post = some st2
  | [], post, st, st2, h => ⟨st, rfl, h⟩
  | (f1, f2) :: rest, post, st, st2, h => by
    cases h1 : traceField rt st f1 f2 with
    | none => simp [traceFields, h1] at h
    | some st0 =>
      simp only [List.cons_append, traceFields, h1] at h
      obtain ⟨st1, ha, hb⟩ := traceFields_append rt rest post st0 st2 h
      exact ⟨st1, by simp only [traceFields, h1, ha], hb⟩

/-- One round of the field loop on a tagged sequence field whose group has no diff
yet records the field under its group and changes nothing else. -/
theorem traceField_record_seq (rt : Runtime) (st : TraceState) (f1 f2 : StructField)
    (ht : isTagged rt f1 = true) (hs : f1.value.isSequence = true)
    (hg : st.builder.diffMap.lookup (groupOf f1) = none) :
    traceField rt st f1 f2 =
      some { st with sliceField := assocAppend (groupOf f1) (f1, f2) st.sliceField } := by
  simp only [isTagged, isBookkeeping, Bool.and_eq_true, Bool.not_eq_true',
    decide_eq_false_iff_not] at ht
  obtain ⟨hb, hv⟩ := ht
  have hgd : st.builder.GetDiff (parseTag f1.Tag).1 = false := by
    simp only [groupOf] at hg
    simp only [AggregateDiffBuilder.GetDiff, AggregateDiffBuilder.Build,
      AggregateDiff.GetDiff, hg]
  simp only [traceField, hb, if_false, hv, Bool.not_true, Bool.false_eq_true, hgd, hs,
    if_true, groupOf]

/-- One round of `fillListDiff` for another group leaves what the builder holds under
the group `g` as it was. -/
theorem fillGroup_frame (rt : Runtime) (g : String) (b b2 : AggregateDiffBuilder)
    (t : String) (l : List (StructField × StructField))
    (h : fillGroup rt b t l = some b2) (hne : t ≠ g) :
    b2.diffMap.lookup g = b.diffMap.lookup g ∧
    b2.listDiffMap.lookup g = b.listDiffMap.lookup g := by
  unfold fillGroup at h
  split at h
  · simp only [Option.some.injEq] at h
    rw [← h]
    exact ⟨rfl, rfl⟩
  · split at h
    · simp only [Option.some.injEq] at h
      rw [← h]
      exact ⟨rfl, rfl⟩
    · split at h
      · simp only [Option.some.injEq] at h
        rw [← h]
        exact ⟨rfl, lookup_assocPut_ne t g _ hne _⟩
      · simp at h
  · split at h
    · simp only [Option.some.injEq] at h
      rw [← h]
      exact ⟨rfl, rfl⟩
    · split at h
      · simp only [Option.some.injEq] at h
        rw [← h]
        exact ⟨lookup_assocPut_ne t g _ hne _, rfl⟩
      · simp only [Option.some.injEq] at h
        rw [← h]
        exact ⟨rfl, rfl⟩
      · simp at h

/-- `fillListDiff` over other groups leaves what the builder holds under the group
`g` as it was. -/
theorem fillListDiff_frame (rt : Runtime) (g : String) :
    ∀ (m : List (String × List (StructField × StructField))) (b b2 : AggregateDiffBuilder),
      fillListDiff rt b m = some b2 → (∀ e ∈ m, e.1 ≠ g) →
      b2.diffMap.lookup g = b.diffMap.lookup g ∧
      b2.listDiffMap.lookup g = b.listDiffMap.lookup g
  | [], b, b2, h, _ => by
    simp only [fillListDiff, Option.some.injEq] at h
    subst h
    exact ⟨rfl, rfl⟩
  | (t, l) :: rest, b, b2, h, hne => by
    cases h1 : fillGroup rt b t l with
    | none => simp [fillListDiff, h1] at h
    | some b1 =>
      simp only [fillListDiff, h1] at h
      obtain ⟨a1, a2⟩ := fillGroup_frame rt g b b1 t l h1 (hne (t, l) (List.mem_cons_self _ _))
      obtain ⟨c1, c2⟩ := fillListDiff_frame rt g rest b1 b2 h
        (fun e he => hne e (List.mem_cons_of_mem _ he))
      exact ⟨c1.trans a1, c2.trans a2⟩

/-- `fillListDiff` over a map that holds exactly one field under the group `g`, with
no diff stored for `g`, stores the list diff of that field under `g`. -/
theorem fillListDiff_hit (rt : Runtime) (g : String) (f1 f2 : StructField) (ld : ListDiff)
    (hld : makeListDiff rt f1.exported f1.value f2.value = some ld) :
    ∀ (m : List (String × List (StructField × StructField))) (b b2 : AggregateDiffBuilder),
      fillListDiff rt b m = some b2 → (m.map Prod.fst).Nodup →
      m.lookup g = some [(f1, f2)] → b.diffMap.lookup g = none →
      b2.diffMap.lookup g = none ∧ b2.listDiffMap.lookup g = some ld
  | [], b, b2, _, _, hl, _ => by simp [List.lookup] at hl
  | (t, l) :: rest, b, b2, h, hnd, hl, hd => by
    simp only [List.map_cons, List.nodup_cons] at hnd
    cases h1 : fillGroup rt b t l with
    | none => simp [fillListDiff, h1] at h
    | some b1 =>
      simp only [fillListDiff, h1] at h
      by_cases htg : g = t
      · subst htg
        simp only [List.lookup, beq_self_eq_true, Option.some.injEq] at hl
        subst hl
        have hgd : b.GetDiff g = false := by
          simp only [AggregateDiffBuilder.GetDiff, AggregateDiffBuilder.Build,
            AggregateDiff.GetDiff, hd]
        simp only [fillGroup, hgd, Bool.false_eq_true, if_false, hld,
          Option.some.injEq] at h1
        have hrest : ∀ e ∈ rest, e.1 ≠ g := fun e he heq =>
          hnd.1 (heq ▸ List.mem_map_of_mem Prod.fst he)
        obtain ⟨c1, c2⟩ := fillListDiff_frame rt g rest b1 b2 h hrest
        rw [c1, c2, ← h1]
        exact ⟨hd, lookup_assocPut_self g ld _⟩
      · have hb : (g == t) = false := by simpa using htg
        simp only [List.lookup, hb] at hl
        obtain ⟨a1, a2⟩ := fillGroup_frame rt g b b1 t l h1 (fun h2 => htg h2.symm)
        exact fillListDiff_hit rt g f1 f2 ld hld rest b1 b2 h hnd.2 hl (a1.trans hd)

/-- `Trace` on a tagged sequence field that is the only field of its group, when no
field makes it panic: the group has no diff, and its list diff is what `makeListDiff`
returns for the field. -/
theorem Trace_single_sequence (rt : Runtime) (a s : AggregateData)
    (pre post : List (StructField × StructField)) (f1 f2 : StructField)
    (htyp : a.typ = s.typ)
    (hfields : a.fields.zip s.fields = pre ++ (f1, f2) :: post)
    (hsafe : ∀ p ∈ a.fields.zip s.fields, isBookkeeping p.1 = false → SafeField rt p.1 p.2)
    (ht : isTagged rt f1 = true) (hseq : f1.value.isSequence = true)
    (honly : ∀ p ∈ pre ++ post, isTagged rt p.1 = true → groupOf p.1 ≠ groupOf f1) :
    ∃ d ld, Trace rt a (some s) = some d ∧
      makeListDiff rt true f1.value f2.value = some ld ∧
      d.GetDiff (groupOf f1) = false ∧ d.GetListDiff (groupOf f1) = ld := by
  have hnb : ∀ p : StructField × StructField, isTagged rt p.1 = true →
      isBookkeeping p.1 = false := by
    intro p hp
    simp only [isTagged, Bool.and_eq_true, Bool.not_eq_true'] at hp
    exact hp.1
  have hmem : (f1, f2) ∈ a.fields.zip s.fields := by
    rw [hfields]
    exact List.mem_append_right _ (List.mem_cons_self _ _)
  have hsf : SafeField rt f1 f2 := hsafe (f1, f2) hmem (hnb (f1, f2) ht)
  obtain ⟨st, h1⟩ := traceFields_total rt (a.fields.zip s.fields) newTraceState
    (fun p hp hb => (hsafe p hp hb).1)
  have hgroups := traceFields_groups rt (SafeField rt) _ _ st h1
    (fun p hp htp => hsafe p hp (hnb p htp))
    (fun e he => by simp [newTraceState] at he) (fun e he => by simp [newTraceState] at he)
  have hnd : (st.sliceField.map Prod.fst).Nodup :=
    traceFields_nodup rt _ _ st h1 (by simp [newTraceState])
  have h1b := h1
  rw [hfields] at h1b
  obtain ⟨st1, hpre, hrest⟩ := traceFields_append rt pre ((f1, f2) :: post) _ st h1b
  obtain ⟨p1, p2, p3⟩ := traceFields_frame rt (groupOf f1) pre _ st1 hpre
    (fun p hp => honly p (List.mem_append_left _ hp))
  have hrec := traceField_record_seq rt st1 f1 f2 ht hseq
    (p1.trans (by simp [newTraceState, NewAggregateDiffBuilder]))
  simp only [traceFields, hrec] at hrest
  obtain ⟨q1, q2, q3⟩ := traceFields_frame rt (groupOf f1) post _ st hrest
    (fun p hp => honly p (List.mem_append_right _ hp))
  have hD : st.builder.diffMap.lookup (groupOf f1) = none := by
    rw [q1]
    exact p1.trans (by simp [newTraceState, NewAggregateDiffBuilder])
  have hS : st.sliceField.lookup (groupOf f1) = some [(f1, f2)] := by
    rw [q2]
    exact lookup_assocAppend_new _ _ _ (p2.trans (by simp [newTraceState]))
  have hM : st.mapField.lookup (groupOf f1) = none := by
    rw [q3]
    exact p3.trans (by simp [newTraceState])
  obtain ⟨ld, hld⟩ := makeListDiff_total rt f1 f2 hsf
  obtain ⟨b1, h2⟩ := fillListDiff_total rt st.sliceField st.builder
    (fun e he p hp => (hgroups.1 e he p hp).1)
  obtain ⟨b2, h3⟩ := fillListDiff_total rt st.mapField b1
    (fun e he p hp => (hgroups.2 e he p hp).1)
  obtain ⟨r1, r2⟩ := fillListDiff_hit rt (groupOf f1) f1 f2 ld hld _ _ b1 h2 hnd hS hD
  obtain ⟨s1, s2⟩ := fillListDiff_frame rt (groupOf f1) _ b1 b2 h3
    ((lookup_name_eq_none _ _).mp hM)
  rw [hsf.1] at hld
  refine ⟨b2.Build, ld, ?_, hld, ?_, ?_⟩
  · simp only [Trace, htyp, ne_eq, not_true_eq_false, if_false, h1, h2, h3]
  · simp only [AggregateDiffBuilder.Build, AggregateDiff.GetDiff, s1, r1]
  · simp only [AggregateDiffBuilder.Build, AggregateDiff.GetListDiff, s2, r2]

/-- C17.  For a tagged sequence field that is the only field of its group, in an
aggregate and a snapshot of the same type all of whose fields that `Trace` reads are
safe (exported; a sequence without an element on which `Identifier()` panics, such as
a `nil` pointer of an entity type; a map with the same keys on both sides):
when the current and the snapshot list are both non-empty, every element exposes an
identity and the identities are distinct within each list, `Trace` returns a diff in
which the group has no plain diff and its list diff has as added exactly the current
elements whose identity does not occur in the snapshot, as removed exactly the
snapshot elements whose identity does not occur in the current list, and as modified
exactly the current elements whose identity occurs in the snapshot with a value that
is not deep-equal. -/
theorem C17_sequence_reconciled_by_identity (rt : Runtime) (a s : AggregateData)
    (pre post : List (StructField × StructField)) (f1 f2 : StructField)
    (htyp : a.typ = s.typ)
    (hfields : a.fields.zip s.fields = pre ++ (f1, f2) :: post)
    (hsafe : ∀ p ∈ a.fields.zip s.fields, isBookkeeping p.1 = false → SafeField rt p.1 p.2)
    (ht : isTagged rt f1 = true) (hseq : f1.value.isSequence = true)
    (honly : ∀ p ∈ pre ++ post, isTagged rt p.1 = true → groupOf p.1 ≠ groupOf f1)
    (hx : ∀ u ∈ f1.value.items, (rt.Identifier u).isSome = true)
    (hy : ∀ u ∈ f2.value.items, (rt.Identifier u).isSome = true)
    (hxn : f1.value.items ≠ []) (hyn : f2.value.items ≠ [])
    (hxd : (f1.value.items.map rt.Identifier).Nodup)
    (hyd : (f2.value.items.map rt.Identifier).Nodup) :
    ∃ d, Trace rt a (some s) = some d ∧ d.GetDiff (groupOf f1) = false ∧
      (∀ v, v ∈ (d.GetListDiff (groupOf f1)).added ↔
        v ∈ f1.value.items ∧ rt.Identifier v ∉ f2.value.items.map rt.Identifier) ∧
      (∀ v, v ∈ (d.GetListDiff (groupOf f1)).removed ↔
        v ∈ f2.value.items ∧ rt.Identifier v ∉ f1.value.items.map rt.Identifier) ∧
      (∀ v, v ∈ (d.GetListDiff (groupOf f1)).modified ↔
        v ∈ f1.value.items ∧ ∃ w ∈ f2.value.items, rt.Identifier w = rt.Identifier v ∧
          DeepEqual v w = false) := by
  obtain ⟨d, ld, hT, hld, hD, hL⟩ :=
    Trace_single_sequence rt a s pre post f1 f2 htyp hfields hsafe ht hseq honly
  obtain ⟨ld2, hld2, hadd, hrem, hmod⟩ :=
    makeListDiff_identified rt f1.value f2.value hseq hx hy hxn hyn hxd hyd
  rw [hld] at hld2
  simp only [Option.some.injEq] at hld2
  subst hld2
  rw [← hL] at hadd hrem hmod
  exact ⟨d, hT, hD, hadd, hrem, hmod⟩

/-- C17 at the sample input: snapshot `[{1,a},{2,b}]` and current `[{1,a},{3,c}]`,
next to an untagged name, give added `[{3,c}]`, removed `[{2,b}]` and nothing
modified. -/
theorem C17_sequence_reconciled_by_identity_witness :
    (order [nameField "n", itemsField [item 1 "a", item 3 "c"]]).typ =
      (order [nameField "n", itemsField [item 1 "a", item 2 "b"]]).typ ∧
    (∃ d, Trace sampleRuntime (order [nameField "n", itemsField [item 1 "a", item 3 "c"]])
        (some (order [nameField "n", itemsField [item 1 "a", item 2 "b"]])) = some d ∧
      d.GetDiff (groupOf (itemsField [item 1 "a", item 3 "c"])) = false ∧
      (∀ v, v ∈ (d.GetListDiff (groupOf (itemsField [item 1 "a", item 3 "c"]))).added ↔
        v ∈ (itemsField [item 1 "a", item 3 "c"]).value.items ∧
        sampleRuntime.Identifier v ∉
          (itemsField [item 1 "a", item 2 "b"]).value.items.map sampleRuntime.Identifier) ∧
      (∀ v, v ∈ (d.GetListDiff (groupOf (itemsField [item 1 "a", item 3 "c"]))).removed ↔
        v ∈ (itemsField [item 1 "a", item 2 "b"]).value.items ∧
        sampleRuntime.Identifier v ∉
          (itemsField [item 1 "a", item 3 "c"]).value.items.map sampleRuntime.Identifier) ∧
      (∀ v, v ∈ (d.GetListDiff (groupOf (itemsField [item 1 "a", item 3 "c"]))).modified ↔
        v ∈ (itemsField [item 1 "a", item 3 "c"]).value.items ∧
        ∃ w ∈ (itemsField [item 1 "a", item 2 "b"]).value.items,
          sampleRuntime.Identifier w = sampleRuntime.Identifier v ∧
          DeepEqual v w = false)) ∧
    (Trace sampleRuntime (order [nameField "n", itemsField [item 1 "a", item 3 "c"]])
        (some (order [nameField "n", itemsField [item 1 "a", item 2 "b"]]))).map
      (fun d => d.GetListDiff "items") =
      some { added := [item 3 "c"], removed := [item 2 "b"], modified := [] } :=
  ⟨rfl,
   C17_sequence_reconciled_by_identity sampleRuntime
     (order [nameField "n", itemsField [item 1 "a", item 3 "c"]])
     (order [nameField "n", itemsField [item 1 "a", item 2 "b"]])
     [(nameField "n", nameField "n")] []
     (itemsField [item 1 "a", item 3 "c"]) (itemsField [item 1 "a", item 2 "b"])
     rfl rfl (by decide) (by decide) rfl (by decide) (by decide) (by decide)
     (by decide) (by decide) (by decide) (by decide),
   rfl⟩

/-! ## `Attach` and `Detach`: what a root can hold -/

/-- `DeepCopy` keeps the identity. -/
theorem DeepCopy_AggregateId (src copied : AggregateData) (h : DeepCopy src = some copied) :
    copied.AggregateId = src.AggregateId := by
  unfold DeepCopy at h
  split at h
  · simp only [Option.some.injEq] at h
    rw [← h]
    rfl
  · simp at h

/-- What one call does to the snapshot: it stays as it was, or it becomes a copy of
the attached aggregate under the guard of `Attach`, or it is dropped by a `Detach` of
its identity. -/
theorem afterCall_snapshot (a : AggregateManager) (c : SnapshotCall) :
    (a.afterCall c).snapshot = a.snapshot ∨
    (∃ agg copied, c = SnapshotCall.attach agg ∧ (a.afterCall c).snapshot = some copied ∧
      copied.AggregateId = agg.AggregateId ∧ 0 < agg.AggregateId ∧
      (a.snapshot = none ∨ ∃ s, a.snapshot = some s ∧ s.AggregateId = agg.AggregateId)) ∨
    (∃ s, c = SnapshotCall.detach s.AggregateId ∧ a.snapshot = some s ∧
      (a.afterCall c).snapshot = none) := by
  cases c with
  | attach agg =>
    by_cases hz : AggregateManager.IsZero agg = true
    · left
      simp [AggregateManager.afterCall, AggregateManager.Attach, hz]
    · have hpos : 0 < agg.AggregateId := by
        simpa [AggregateManager.IsZero] using hz
      cases hs : a.snapshot with
      | none =>
        cases hc : DeepCopy agg with
        | none =>
          left
          simp [AggregateManager.afterCall, AggregateManager.Attach, hz, hs, hc]
        | some copied =>
          right
          left
          exact ⟨agg, copied, rfl,
            by simp [AggregateManager.afterCall, AggregateManager.Attach, hz, hs, hc],
            DeepCopy_AggregateId agg copied hc, hpos, Or.inl rfl⟩
      | some s =>
        by_cases hid : agg.AggregateId = s.AggregateId
        · cases hc : DeepCopy agg with
          | none =>
            left
            simp [AggregateManager.afterCall, AggregateManager.Attach, hz, hs, hc, hid]
          | some copied =>
            right
            left
            exact ⟨agg, copied, rfl,
              by simp [AggregateManager.afterCall, AggregateManager.Attach, hz, hs, hc, hid],
              DeepCopy_AggregateId agg copied hc, hpos, Or.inr ⟨s, rfl, hid.symm⟩⟩
        · left
          simp [AggregateManager.afterCall, AggregateManager.Attach, hz, hs, hid]
  | detach id =>
    cases hs : a.snapshot with
    | none =>
      left
      simp [AggregateManager.afterCall, AggregateManager.Detach, hs]
    | some s =>
      by_cases hid : s.AggregateId = id
      · right
        right
        exact ⟨s, by rw [hid], rfl,
          by simp [AggregateManager.afterCall, AggregateManager.Detach, hs, hid]⟩
      · left
        simp [AggregateManager.afterCall, AggregateManager.Detach, hs, hid]

/-- Over a sequence of calls a held snapshot keeps an identity `> 0`. -/
theorem afterCalls_positive :
    ∀ (calls : List SnapshotCall) (a : AggregateManager),
      (∀ s, a.snapshot = some s → 0 < s.AggregateId) →
      ∀ s, (a.afterCalls calls).snapshot = some s → 0 < s.AggregateId
  | [], _, h0, s, hs => h0 s hs
  | c :: rest, a, h0, s, hs => by
    refine afterCalls_positive rest (a.afterCall c) ?_ s hs
    intro s1 hs1
    rcases afterCall_snapshot a c with h | ⟨agg, copied, -, hc, hid, hpos, -⟩ | ⟨_, -, -, hn⟩
    · exact h0 s1 (h ▸ hs1)
    · rw [hc] at hs1
      simp only [Option.some.injEq] at hs1
      rw [← hs1, hid]
      exact hpos
    · rw [hn] at hs1
      simp at hs1

/-- Over a sequence of calls the identity of the held snapshot changes only when the
sequence holds a `Detach` of that identity. -/
theorem afterCalls_identity_change :
    ∀ (calls : List SnapshotCall) (a : AggregateManager) (s s2 : AggregateData),
      a.snapshot = some s → (a.afterCalls calls).snapshot = some s2 →
      s2.AggregateId ≠ s.AggregateId → SnapshotCall.detach s.AggregateId ∈ calls
  | [], a, s, s2, hs, hs2, hne => by
    simp only [AggregateManager.afterCalls] at hs2
    rw [hs] at hs2
    simp only [Option.some.injEq] at hs2
    exact absurd (by rw [hs2]) hne
  | c :: rest, a, s, s2, hs, hs2, hne => by
    simp only [AggregateManager.afterCalls] at hs2
    rcases afterCall_snapshot a c with h | ⟨agg, copied, -, hc, hid, -, hg⟩ | ⟨s1, hc, hs1, -⟩
    · exact List.mem_cons_of_mem _
        (afterCalls_identity_change rest (a.afterCall c) s s2 (h.trans hs) hs2 hne)
    · have hsame : copied.AggregateId = s.AggregateId := by
        rcases hg with hg | ⟨s1, hs1, hid1⟩
        · rw [hs] at hg
          simp at hg
        · rw [hs] at hs1
          simp only [Option.some.injEq] at hs1
          rw [hid, ← hid1, hs1]
      have := afterCalls_identity_change rest (a.afterCall c) copied s2 hc hs2
        (by rw [hsame]; exact hne)
      rw [hsame] at this
      exact List.mem_cons_of_mem _ this
    · rw [hs] at hs1
      simp only [Option.some.injEq] at hs1
      rw [hs1, hc]
      exact List.mem_cons_self _ _

/-- Over a sequence of calls whose `Attach` calls are all given an aggregate of
identity `id` (or of an identity `≤ 0`), a held snapshot has identity `id`. -/
theorem afterCalls_identity (id : Int) :
    ∀ (calls : List SnapshotCall) (a : AggregateManager),
      (∀ s, a.snapshot = some s → s.AggregateId = id) →
      (∀ agg, SnapshotCall.attach agg ∈ calls → 0 < agg.AggregateId → agg.AggregateId = id) →
      ∀ s, (a.afterCalls calls).snapshot = some s → s.AggregateId = id
  | [], _, h0, _, s, hs => h0 s hs
  | c :: rest, a, h0, hcalls, s, hs => by
    refine afterCalls_identity id rest (a.afterCall c) ?_
      (fun agg hm => hcalls agg (List.mem_cons_of_mem _ hm)) s hs
    intro s1 hs1
    rcases afterCall_snapshot a c with h | ⟨agg, copied, hc0, hc, hid, hpos, -⟩ | ⟨_, -, -, hn⟩
    · exact h0 s1 (h ▸ hs1)
    · rw [hc] at hs1
      simp only [Option.some.injEq] at hs1
      rw [← hs1, hid]
      exact hcalls agg (hc0 ▸ List.mem_cons_self _ _) hpos
    · rw [hn] at hs1
      simp at hs1

/-- C30. For every manager `a` and aggregate `agg`: unless the identity of `agg` is
`> 0` and `a` holds no snapshot or one of the identity of `agg`, `Attach(agg)`
returns and leaves `a` exactly as it was; under that guard the snapshot becomes the
deep copy of `agg` (and `Attach` panics only where `DeepCopy` does).  Over every
sequence of `Attach` and `Detach` calls on a manager whose snapshot, if any, has an
identity `> 0`, a held snapshot has an identity `> 0`; and when the identity of the
held snapshot differs before and after a sequence, the sequence holds a `Detach` of
the former identity. -/
theorem C30_attach_guard_and_snapshot_identity (a : AggregateManager) (agg : AggregateData) :
    (¬ (0 < agg.AggregateId ∧
        (a.snapshot = none ∨ ∃ s, a.snapshot = some s ∧ s.AggregateId = agg.AggregateId)) →
      a.Attach agg = some a) ∧
    (0 < agg.AggregateId →
      (a.snapshot = none ∨ ∃ s, a.snapshot = some s ∧ s.AggregateId = agg.AggregateId) →
      a.Attach agg = (DeepCopy agg).map (fun copied => { a with snapshot := some copied })) ∧
    ((∀ s, a.snapshot = some s → 0 < s.AggregateId) →
      ∀ calls s, (a.afterCalls calls).snapshot = some s → 0 < s.AggregateId) ∧
    (∀ calls s s2, a.snapshot = some s → (a.afterCalls calls).snapshot = some s2 →
      s2.AggregateId ≠ s.AggregateId → SnapshotCall.detach s.AggregateId ∈ calls) := by
  refine ⟨?_, ?_, fun h0 calls => afterCalls_positive calls a h0,
    fun calls => afterCalls_identity_change calls a⟩
  · intro hg
    by_cases hz : AggregateManager.IsZero agg = true
    · simp [AggregateManager.Attach, hz]
    · have hpos : 0 < agg.AggregateId := by
        simpa [AggregateManager.IsZero] using hz
      cases hs : a.snapshot with
      | none => exact absurd ⟨hpos, Or.inl hs⟩ hg
      | some s =>
        have hid : ¬ agg.AggregateId = s.AggregateId := fun h =>
          hg ⟨hpos, Or.inr ⟨s, hs, h.symm⟩⟩
        simp [AggregateManager.Attach, hz, hs, hid]
  · intro hpos hg
    have hz : AggregateManager.IsZero agg = false := by
      simpa [AggregateManager.IsZero] using hpos
    rcases hg with hs | ⟨s, hs, hid⟩
    · simp only [AggregateManager.Attach, hz, Bool.false_eq_true, if_false, hs, if_true]
      cases DeepCopy agg <;> rfl
    · simp only [AggregateManager.Attach, hz, Bool.false_eq_true, if_false, hs, hid,
        decide_True, if_true]
      cases DeepCopy agg <;> rfl

/-- C30 at sample inputs: `Attach` of an order without identity on a new manager, of
order `2` on a manager that holds order `1`, of order `1` on that manager, and the
sample sequence of calls. -/
theorem C30_attach_guard_and_snapshot_identity_witness :
    newManager.Attach (orderWithId 0) = some newManager ∧
    (managerHolding 1).Attach (orderWithId 2) = some (managerHolding 1) ∧
    (managerHolding 1).Attach { orderWithId 1 with fields := [nameField "m"] } =
      (DeepCopy { orderWithId 1 with fields := [nameField "m"] }).map
        (fun copied => { managerHolding 1 with snapshot := some copied }) ∧
    (newManager.afterCalls sampleCalls).snapshot = some (orderWithId 2) ∧
    0 < (orderWithId 2).AggregateId ∧
    ((managerHolding 1).afterCalls (sampleCalls.drop 1)).snapshot = some (orderWithId 2) ∧
    SnapshotCall.detach (orderWithId 1).AggregateId ∈ sampleCalls.drop 1 :=
  ⟨(C30_attach_guard_and_snapshot_identity newManager (orderWithId 0)).1
      (fun h => absurd h.1 (by decide)),
   (C30_attach_guard_and_snapshot_identity (managerHolding 1) (orderWithId 2)).1
      (fun h => h.2.elim (fun hn => by simp [managerHolding] at hn)
        (fun ⟨s, hs, hid⟩ => by
          simp only [managerHolding, Option.some.injEq] at hs
          rw [← hs] at hid
          exact absurd hid (by decide))),
   (C30_attach_guard_and_snapshot_identity (managerHolding 1)
      { orderWithId 1 with fields := [nameField "m"] }).2.1 (by decide)
      (Or.inr ⟨orderWithId 1, rfl, rfl⟩),
   rfl,
   (C30_attach_guard_and_snapshot_identity newManager (orderWithId 0)).2.2.1
      (fun s hs => by simp [newManager] at hs) sampleCalls (orderWithId 2) rfl,
   rfl,
   (C30_attach_guard_and_snapshot_identity (managerHolding 1) (orderWithId 0)).2.2.2
      (sampleCalls.drop 1) (orderWithId 1) (orderWithId 2) rfl rfl (by decide)⟩

/-- C21, as the code has it.  For a root `r` with manager `m` whose snapshot, if any,
has the identity of `r`: over every sequence of `Attach` and `Detach` calls in which
every `Attach` is given an aggregate with the identity of `r` (the root itself, as
the repository does) or with an identity `≤ 0`, a held snapshot has the identity of
`r`. -/
theorem C21_snapshot_identity_follows_attached (r : Aggregate) (m : AggregateManager)
    (calls : List SnapshotCall) (hm : r.manager = some m)
    (h0 : ∀ s, m.snapshot = some s → s.AggregateId = r.data.AggregateId)
    (hcalls : ∀ agg, SnapshotCall.attach agg ∈ calls → 0 < agg.AggregateId →
      agg.AggregateId = r.data.AggregateId) :
    ∃ m0, r.manager = some m0 ∧
      ∀ s, (m0.afterCalls calls).snapshot = some s → s.AggregateId = r.data.AggregateId :=
  ⟨m, hm, afterCalls_identity r.data.AggregateId calls m h0 hcalls⟩

/-- C21 at a sample input: the root of identity `1` is attached, detached, and
attached again, each time with itself. -/
theorem C21_snapshot_identity_follows_attached_witness :
    quietRoot.manager = some newManager ∧
    (newManager.afterCalls [SnapshotCall.attach quietRoot.data, SnapshotCall.detach 1,
        SnapshotCall.attach quietRoot.data]).snapshot.map AggregateData.AggregateId =
      some 1 ∧
    ∃ m0, quietRoot.manager = some m0 ∧
      ∀ s, (m0.afterCalls [SnapshotCall.attach quietRoot.data, SnapshotCall.detach 1,
          SnapshotCall.attach quietRoot.data]).snapshot = some s →
        s.AggregateId = quietRoot.data.AggregateId :=
  ⟨rfl, rfl,
   C21_snapshot_identity_follows_attached quietRoot newManager
     [SnapshotCall.attach quietRoot.data, SnapshotCall.detach 1,
      SnapshotCall.attach quietRoot.data] rfl
     (fun s hs => by simp [newManager] at hs)
     (fun agg hmem _ => by
       simp only [List.mem_cons, SnapshotCall.attach.injEq, List.mem_singleton,
         List.not_mem_nil, or_false, reduceCtorEq, false_or] at hmem
       rcases hmem with h | h <;> rw [h])⟩

/-- C21, the claim as stated fails.  The root of identity `1`, which holds no
snapshot, is given the order of identity `7` to attach: it then holds a snapshot of
identity `7`. -/
theorem C21_counterexample :
    quietRoot.data.AggregateId = 1 ∧
    (quietRoot.manager.bind (fun m => m.Attach (orderWithId 7))).map
      (fun m => m.snapshot.map AggregateData.AggregateId) = some (some 7) :=
  ⟨rfl, rfl⟩

/-! ## `DeepCopy` on maps, groups with several fields, tags with options, asynchronous
subscribers: evaluations -/

/-- C22, the code at the failing input.  `copyRecursive` panics on every non-empty map
whose key type is neither a pointer type nor the empty interface: the copy of a key
is a pointer, which `SetMapIndex` does not accept.  So `DeepCopy` panics on an order
that holds `Attrs map[string]int` with one entry, and so does `Attach`.  On a map
with keys of the empty interface type the copy returns, with a pointer to the key in
place of the key, and is not deep-equal to the original. -/
theorem C22_deep_copy_panics_on_keyed_map :
    (∀ (key v : GoValue) (rest : List (GoValue × GoValue)),
      copyRecursive (GoValue.map MapKeyKind.other (some ((key, v) :: rest))) = none) ∧
    DeepCopy (order [attrsField [("k", 1)]]) = none ∧
    newManager.Attach (order [attrsField [("k", 1)]]) = none ∧
    copyRecursive (GoValue.map MapKeyKind.anyIface
        (some [(GoValue.iface (some (GoValue.str "k")), GoValue.int 1)])) =
      some (GoValue.map MapKeyKind.anyIface
        (some [(GoValue.iface (some (GoValue.ptr (some (GoValue.str "k")))), GoValue.int 1)])) ∧
    DeepEqual
      (GoValue.map MapKeyKind.anyIface
        (some [(GoValue.iface (some (GoValue.str "k")), GoValue.int 1)]))
      (GoValue.map MapKeyKind.anyIface
        (some [(GoValue.iface (some (GoValue.ptr (some (GoValue.str "k")))), GoValue.int 1)])) =
      false := by
  refine ⟨?_, rfl, rfl, rfl, rfl⟩
  intro key v rest
  simp only [copyRecursive, copyEntries]
  split <;> rfl

/-- C27, the code at two failing inputs and at one where it does as claimed.  In the
group `g`: with a scalar `Title` that is equal on both sides next to a sequence
`Items` that differs, `Trace` reconciles the elements (the list diff of `g` holds the
modified item) and `GetDiff(g)` is unchanged; with the sequence `Items` that differs
next to a map `Attrs` that is equal, the list diff of the map replaces the one of the
sequence, so the diff reports nothing at all; with two sequences, one of which
differs, `GetDiff(g)` is changed and there is no list diff. -/
theorem C27_shared_group_is_reconciled :
    (Trace sampleRuntime
        (order [titleField "g" "t", itemsIn "g" [item 1 "a"]])
        (some (order [titleField "g" "t", itemsIn "g" [item 1 "b"]]))).map
      (fun d => (d.GetDiff "g", (d.GetListDiff "g").IsChanged)) = some (false, true) ∧
    (Trace sampleRuntime
        (order [titleField "g" "t", itemsIn "g" [item 1 "a"]])
        (some (order [titleField "g" "t", itemsIn "g" [item 1 "b"]]))).map
      (fun d => d.GetListDiff "g") =
      some { added := [], removed := [], modified := [item 1 "a"] } ∧
    DeepEqual (itemsIn "g" [item 1 "a"]).value (itemsIn "g" [item 1 "b"]).value = false ∧
    (Trace sampleRuntime
        (order [itemsIn "g" [item 1 "a"], attrsIn "g" [("k", 1)]])
        (some (order [itemsIn "g" [item 1 "b"], attrsIn "g" [("k", 1)]]))).map
      (fun d => (d.GetDiff "g", (d.GetListDiff "g").IsChanged, d.IsEmpty)) =
      some (false, false, true) ∧
    (Trace sampleRuntime
        (order [itemsIn "g" [item 1 "a"], moreIn "g" [item 2 "x"]])
        (some (order [itemsIn "g" [item 1 "b"], moreIn "g" [item 2 "x"]]))).map
      (fun d => (d.GetDiff "g", (d.GetListDiff "g").IsChanged)) = some (true, false) :=
  ⟨by decide, rfl, by decide, by decide, by decide⟩

/-- A tag that holds a comma is not a valid tag. -/
theorem isValidTag_comma (rt : Runtime) (name opts : String) :
    isValidTag rt (name ++ "," ++ opts) = false := by
  have hne : ¬ (name ++ "," ++ opts = "") := by
    intro h
    have := congrArg String.length h
    simp at this
    exact absurd this.1.2 (by decide)
  have hmem : ',' ∈ (name ++ "," ++ opts).toList := by
    simp only [String.toList, String.data_append, List.mem_append]
    exact Or.inl (Or.inr (List.mem_singleton.mpr rfl))
  have h1 : tagPunctuation.contains ',' = false := by decide
  have hlt : (',' : Char).val < 128 := by decide
  have h2 : IsLetter rt ',' = false := by
    simp only [IsLetter, hlt, if_true]
    decide
  have h3 : IsDigit rt ',' = false := by
    simp only [IsDigit, hlt, if_true]
    decide
  simp only [isValidTag, hne, if_false]
  rw [Bool.eq_false_iff]
  intro hall
  have := List.all_eq_true.mp hall ',' hmem
  rw [h1, h2, h3] at this
  exact absurd this (by decide)

/-- C28, the code at the failing input.  `Trace` tests `isValidTag` on the whole tag,
before `parseTag`, and no tag that holds a comma is valid: a field tagged
`name,opt` counts as untagged.  With `Title` differing, the tag `name,opt` sets the
self-changed flag and leaves the group `name` unchanged, where the tag `name` leaves
the flag alone and marks the group `name` as changed. -/
theorem C28_tag_with_options_counts_as_untagged :
    (∀ (rt : Runtime) (name opts : String), isValidTag rt (name ++ "," ++ opts) = false) ∧
    parseTag "name,opt" = ("name", "opt") ∧
    isUntagged sampleRuntime (titleField "name,opt" "a") = true ∧
    isTagged sampleRuntime (titleField "name" "a") = true ∧
    (Trace sampleRuntime (order [titleField "name,opt" "a"])
        (some (order [titleField "name,opt" "b"]))).map
      (fun d => (d.IsSelfChanged, d.GetDiff "name")) = some (true, false) ∧
    (Trace sampleRuntime (order [titleField "name" "a"])
        (some (order [titleField "name" "b"]))).map
      (fun d => (d.IsSelfChanged, d.GetDiff "name")) = some (false, true) :=
  ⟨isValidTag_comma, by decide, by decide, by decide, by decide, by decide⟩

/-- C29, the code at the failing input.  An asynchronous `dddEventHandler` hands its
subscriber function the context that the transaction context it is given wraps, one
level down.  `withRequiresNewPropagation` wraps the incoming context as it is, so
inside transaction `0` the body runs on a context that wraps the transaction context
of transaction `0`: the subscriber function is handed that transaction context,
which is inside transaction `0`.  From `Required` on a plain context it is handed
the plain context. -/
theorem C29_async_subscriber_keeps_outer_transaction :
    (∀ (id : String) (fn : Nat) (ctx : Context) (d : DomainEvent),
      (dddEventHandler.mk id fn true).OnEvent ctx (BusEvent.domainEvent d) =
        some { fn := fn, ctx := pureCtx ctx, event := d }) ∧
    pureCtx (Context.txCtx (TransactionContext.mk (Context.txCtx sampleTxCtx)
      (some { sampleDB with ConnPool := ConnPool.tx 1 }) none)) = Context.txCtx sampleTxCtx ∧
    (Context.txCtx sampleTxCtx).InTransaction = true ∧
    sampleManager.Transaction sampleGorm (Context.txCtx sampleTxCtx) asyncProbeBody
        [PropagationRequiresNew] sampleWorldInTx =
      (Outcome.ret (some (GoError.other 9)),
       { log := [Op.Begin sampleDB (some 0), Op.Begin sampleDB (some 1), Op.Rollback 1],
         nextTx := 2 }) ∧
    sampleManager.Transaction sampleGorm (Context.plain 7) asyncProbeBody
        [PropagationRequired] sampleWorld =
      (Outcome.ret none, { log := [Op.Begin sampleDB (some 0), Op.Commit 0], nextTx := 1 }) := by
  refine ⟨?_, rfl, rfl, by decide, by decide⟩
  intro id fn ctx d
  cases ctx <;> rfl

/-! ## The singleton registry -/

/-- `getLock` leaves the components alone. -/
theorem getLock_lookup (s : Container) (name n : String) :
    (getLock s name).lookup n = s.lookup n := by
  unfold getLock
  split
  · rfl
  · split <;> rfl

/-- `getLock` invokes no constructor. -/
theorem getLock_constructed (s : Container) (name : String) :
    (getLock s name).constructed = s.constructed := by
  unfold getLock
  split
  · rfl
  · split <;> rfl

/-- The lookup in a map that was made if it was `nil`. -/
theorem lookup_getD (m : Option (List (String × Instance))) (n : String) :
    (m.getD []).lookup n = (match m with | none => none | some l => l.lookup n) := by
  cases m <;> rfl

/-- `LoadOrStoreComponent` under a name that is already stored returns the stored
instance and changes nothing. -/
theorem LoadOrStoreComponent_hit (s : Container) (c : ComponentKey) (n : String)
    (g : ConstructFn) (v : Instance) (hn : componentName c = some n)
    (hv : s.lookup n = some v) : LoadOrStoreComponent c g s = (some v, s) := by
  simp only [LoadOrStoreComponent, hn, hv]

/-- `LoadOrStoreComponent` under another name leaves the entry of `n` as it was. -/
theorem LoadOrStoreComponent_other (s : Container) (c : ComponentKey) (n : String)
    (g : ConstructFn) (hn : componentName c ≠ some n) :
    (LoadOrStoreComponent c g s).2.lookup n = s.lookup n := by
  cases hc : componentName c with
  | none => simp only [LoadOrStoreComponent, hc]
  | some name =>
    have hne : name ≠ n := fun h => hn (by rw [hc, h])
    cases h1 : s.lookup name with
    | some component => simp only [LoadOrStoreComponent, hc, h1]
    | none =>
      have h2 : (getLock s name).lookup name = none := by rw [getLock_lookup, h1]
      have h3 : (getLock s name).lookup n = s.lookup n := getLock_lookup s name n
      simp only [LoadOrStoreComponent, hc, h1, h2]
      cases hr : g.result with
      | none =>
        simp only [Container.lookup, lookup_getD]
        exact h3
      | some component =>
        simp only [Container.lookup, lookup_assocPut_ne name n component hne, lookup_getD]
        exact h3

/-- The first `LoadOrStoreComponent` under a name: the constructor is invoked once,
its result is returned and stored. -/
theorem LoadOrStoreComponent_first (s : Container) (c : ComponentKey) (n : String)
    (f : ConstructFn) (v : Instance) (hn : componentName c = some n)
    (hfresh : s.lookup n = none) (hf : f.result = some v) :
    (LoadOrStoreComponent c f s).1 = some v ∧
    (LoadOrStoreComponent c f s).2.lookup n = some v ∧
    (LoadOrStoreComponent c f s).2.constructed = s.constructed ++ [f.addr] := by
  have h2 : (getLock s n).lookup n = none := by rw [getLock_lookup, hfresh]
  simp only [LoadOrStoreComponent, hn, hfresh, h2, hf]
  refine ⟨trivial, ?_, ?_⟩
  · simp only [Container.lookup, lookup_assocPut_self]
  · simp only [getLock_constructed]

/-- A stored entry stays over every call. -/
theorem afterCall_lookup (s : Container) (call : ContainerCall) (n : String) (v : Instance)
    (hv : s.lookup n = some v) : (s.afterCall call).lookup n = some v := by
  cases call with
  | loadOrStore c g =>
    by_cases hn : componentName c = some n
    · simp only [Container.afterCall, LoadOrStoreComponent_hit s c n g v hn hv]
      exact hv
    · simp only [Container.afterCall, LoadOrStoreComponent_other s c n g hn]
      exact hv
  | load c => exact hv
  | mustLoad c => exact hv

/-- A stored entry stays over every sequence of calls. -/
theorem afterCalls_lookup (n : String) (v : Instance) :
    ∀ (calls : List ContainerCall) (s : Container), s.lookup n = some v →
      (s.afterCalls calls).lookup n = some v
  | [], _, hv => hv
  | call :: rest, s, hv =>
    afterCalls_lookup n v rest (s.afterCall call) (afterCall_lookup s call n v hv)

/-- A name stays absent over every sequence of calls that holds no
`LoadOrStoreComponent` under it. -/
theorem afterCalls_absent (n : String) :
    ∀ (calls : List ContainerCall) (s : Container), s.lookup n = none →
      (∀ c g, ContainerCall.loadOrStore c g ∈ calls → componentName c ≠ some n) →
      (s.afterCalls calls).lookup n = none
  | [], _, hv, _ => hv
  | call :: rest, s, hv, hcalls => by
    refine afterCalls_absent n rest (s.afterCall call) ?_
      (fun c g hm => hcalls c g (List.mem_cons_of_mem _ hm))
    cases call with
    | loadOrStore c g =>
      simp only [Container.afterCall,
        LoadOrStoreComponent_other s c n g (hcalls c g (List.mem_cons_self _ _))]
      exact hv
    | load c => exact hv
    | mustLoad c => exact hv

/-- C23. In the sequential model of the registry, for a key of name `n` under which
nothing is stored and a constructor `f` that returns `v`: `LoadOrStoreComponent`
invokes `f` once and returns `v`; after every sequence of further calls,
`LoadOrStoreComponent` with a key of name `n` and any constructor `g` returns `v`
and changes nothing, so `g` is not invoked, and `LoadComponent` returns `v` with
found `true`.  `LoadComponent` under a name that is not stored returns `nil` with
found `false`, also after every sequence of calls that holds no
`LoadOrStoreComponent` under that name; it constructs nothing, being a read. -/
theorem C23_singleton_constructed_once (s : Container) (c : ComponentKey) (n : String)
    (f : ConstructFn) (v : Instance) (hn : componentName c = some n)
    (hfresh : s.lookup n = none) (hf : f.result = some v) :
    (LoadOrStoreComponent c f s).1 = some v ∧
    (LoadOrStoreComponent c f s).2.constructed = s.constructed ++ [f.addr] ∧
    (∀ (calls : List ContainerCall) (c2 : ComponentKey), componentName c2 = some n →
      (∀ g : ConstructFn,
        LoadOrStoreComponent c2 g ((LoadOrStoreComponent c f s).2.afterCalls calls) =
          (some v, (LoadOrStoreComponent c f s).2.afterCalls calls)) ∧
      LoadComponent c2 ((LoadOrStoreComponent c f s).2.afterCalls calls) = some (v, true)) ∧
    LoadComponent c s = some (Instance.nil, false) ∧
    (∀ calls : List ContainerCall,
      (∀ c2 g, ContainerCall.loadOrStore c2 g ∈ calls → componentName c2 ≠ some n) →
      LoadComponent c (s.afterCalls calls) = some (Instance.nil, false)) := by
  obtain ⟨h1, h2, h3⟩ := LoadOrStoreComponent_first s c n f v hn hfresh hf
  refine ⟨h1, h3, ?_, ?_, ?_⟩
  · intro calls c2 hn2
    have hv := afterCalls_lookup n v calls _ h2
    refine ⟨fun g => LoadOrStoreComponent_hit _ c2 n g v hn2 hv, ?_⟩
    simp only [LoadComponent, hn2, hv]
  · simp only [LoadComponent, hn, hfresh]
  · intro calls hcalls
    simp only [LoadComponent, hn, afterCalls_absent n calls s hfresh hcalls]

/-- C23 at a sample input: the first call under the name of the type `ddd.Saver`
constructs the instance at `100`; the second call, with another constructor, returns
that instance and invokes nothing. -/
theorem C23_singleton_constructed_once_witness :
    componentName (ComponentKey.value "ddd.Saver") = some "ddd.Saver" ∧
    LoadOrStoreComponent (ComponentKey.value "ddd.Saver") firstConstructor newContainer =
      (some (Instance.at 100),
       { componentMap := some [("ddd.Saver", Instance.at 100)],
         lockMap := some ["ddd.Saver"], constructed := [1] }) ∧
    ((LoadOrStoreComponent (ComponentKey.str "ddd.Saver") secondConstructor
        (LoadOrStoreComponent (ComponentKey.value "ddd.Saver") firstConstructor
          newContainer).2).1 = some (Instance.at 100) ∧
      (LoadOrStoreComponent (ComponentKey.str "ddd.Saver") secondConstructor
        (LoadOrStoreComponent (ComponentKey.value "ddd.Saver") firstConstructor
          newContainer).2).2.constructed = [1]) ∧
    LoadComponent (ComponentKey.value "ddd.Saver") newContainer =
      some (Instance.nil, false) ∧
    (LoadOrStoreComponent (ComponentKey.value "ddd.Saver") firstConstructor
        newContainer).1 = some (Instance.at 100) :=
  ⟨by decide, rfl, by decide, by decide,
   (C23_singleton_constructed_once newContainer (ComponentKey.value "ddd.Saver") "ddd.Saver"
      firstConstructor (Instance.at 100) (by decide) rfl rfl).1⟩

/-! ## Package `ebus`: the registry of one topic -/

/-- The lookup in a map from which the entry of `key` was deleted. -/
theorem lookup_filter_key {α : Type} (key k : String) :
    ∀ m : List (String × α),
      (m.filter (fun kv => kv.1 != key)).lookup k = if k = key then none else m.lookup k
  | [] => by simp [List.lookup]
  | (k2, v2) :: rest => by
    by_cases h2 : k2 = key
    · subst h2
      by_cases hk : k = k2
      · subst hk
        simp [List.filter, lookup_filter_key k k rest]
      · have hb : (k == k2) = false := by simpa using hk
        simp [List.filter, lookup_filter_key k2 k rest, hk, List.lookup, hb]
    · have hf : (k2 != key) = true := by simpa using h2
      simp only [List.filter, hf]
      by_cases hk : k = k2
      · subst hk
        simp [List.lookup, h2]
      · have hb : (k == k2) = false := by simpa using hk
        simp only [List.lookup, hb]
        exact lookup_filter_key key k rest

/-- Two handlers with the same subscriber identifier have the same identifier. -/
theorem subscriberIdentifier_inj (h1 h2 : EventHandler)
    (h : subscriberIdentifier h1 = subscriberIdentifier h2) : h1.Identifier = h2.Identifier := by
  have hd := congrArg String.data h
  simp only [subscriberIdentifier, String.data_append] at hd
  exact String.ext (List.append_cancel_left hd)

/-- Elements of a list with distinct numbers are equal when their numbers are. -/
theorem eq_of_fst_eq {α : Type} :
    ∀ (l : List (Nat × α)), (l.map Prod.fst).Nodup → ∀ p ∈ l, ∀ q ∈ l, p.1 = q.1 → p = q
  | [], _, p, hp, _, _, _ => by simp at hp
  | x :: rest, hnd, p, hp, q, hq, hpq => by
    simp only [List.map_cons, List.nodup_cons] at hnd
    rcases List.mem_cons.mp hp with hp1 | hp1
    · rcases List.mem_cons.mp hq with hq1 | hq1
      · rw [hp1, hq1]
      · exact absurd (List.mem_map_of_mem Prod.fst hq1) (by rw [← hpq, hp1]; exact hnd.1)
    · rcases List.mem_cons.mp hq with hq1 | hq1
      · exact absurd (List.mem_map_of_mem Prod.fst hp1) (by rw [hpq, hq1]; exact hnd.1)
      · exact eq_of_fst_eq rest hnd.2 p hp1 q hq1 hpq

/-- The new registry is in order. -/
theorem NewSubscriberRegistry_ok : RegistryOk NewSubscriberRegistry := by
  refine ⟨?_, ?_, ?_, ?_, ?_⟩ <;> simp [NewSubscriberRegistry, List.lookup]

/-- In a registry that is in order, a handler identifier is in the map exactly when
a subscriber with that handler identifier is in the list. -/
theorem registered_iff (r : SubscriberRegistry) (hr : RegistryOk r) (h : EventHandler) :
    (∃ s ∈ r.subscribers.map Prod.snd, s.handler.Identifier = h.Identifier) ↔
      ∃ e, r.idMap.lookup (subscriberIdentifier h) = some e := by
  obtain ⟨ha, hb, -, -, he⟩ := hr
  constructor
  · rintro ⟨s, hs, hid⟩
    obtain ⟨p, hp, rfl⟩ := List.mem_map.mp hs
    refine ⟨p.1, ?_⟩
    have := ha p hp
    rw [he p hp] at this
    simpa [subscriberIdentifier, hid] using this
  · rintro ⟨e, hl⟩
    obtain ⟨p, hp, -, hk⟩ := hb _ e hl
    refine ⟨p.2, List.mem_map_of_mem Prod.snd hp, ?_⟩
    rw [he p hp] at hk
    exact subscriberIdentifier_inj _ _ hk

/-- `Register` of the registry on an identifier that is in the map: the error, and
the registry as it was. -/
theorem Register_dup (r : SubscriberRegistry) (h : EventHandler) (async : Bool) (e : Nat)
    (hl : r.idMap.lookup (subscriberIdentifier h) = some e) :
    r.Register h async = (some GoError.ErrSubscriberAlreadyRegistered, r) := by
  simp only [SubscriberRegistry.Register, hl]

/-- `Register` of the registry on an identifier that is not in the map: no error,
and the new subscriber at the back of the list. -/
theorem Register_new (r : SubscriberRegistry) (h : EventHandler) (async : Bool)
    (hl : r.idMap.lookup (subscriberIdentifier h) = none) :
    (r.Register h async).1 = none ∧
    (r.Register h async).2.subscribers.map Prod.snd =
      r.subscribers.map Prod.snd ++
        [if async then newAsyncSubscriber h else newSyncSubscriber h] := by
  simp only [SubscriberRegistry.Register, hl, List.map_append, List.map_cons, List.map_nil,
    and_self]

/-- The only error of `Register` of the registry. -/
theorem Register_error (r : SubscriberRegistry) (h : EventHandler) (async : Bool)
    (err : GoError) (he : (r.Register h async).1 = some err) :
    err = GoError.ErrSubscriberAlreadyRegistered ∧ (r.Register h async).2 = r := by
  cases hl : r.idMap.lookup (subscriberIdentifier h) with
  | none => simp [SubscriberRegistry.Register, hl] at he
  | some e =>
    simp only [SubscriberRegistry.Register, hl, Option.some.injEq] at he ⊢
    exact ⟨he.symm, trivial⟩

/-- `Register` of the registry never empties the list. -/
theorem Register_nonempty (r : SubscriberRegistry) (h : EventHandler) (async : Bool) :
    (r.subscribers ≠ [] ∨ (r.Register h async).1 = none) →
    (r.Register h async).2.subscribers ≠ [] := by
  cases hl : r.idMap.lookup (subscriberIdentifier h) with
  | none =>
    intro _
    simp [SubscriberRegistry.Register, hl]
  | some e =>
    intro hor
    simp only [SubscriberRegistry.Register, hl] at hor ⊢
    rcases hor with h1 | h1
    · exact h1
    · simp at h1

/-- `Register` keeps a registry in order. -/
theorem Register_ok (r : SubscriberRegistry) (h : EventHandler) (async : Bool)
    (hr : RegistryOk r) : RegistryOk (r.Register h async).2 := by
  cases hl : r.idMap.lookup (subscriberIdentifier h) with
  | some e =>
    rw [Register_dup r h async e hl]
    exact hr
  | none =>
    obtain ⟨ha, hb, hc, hd, he⟩ := hr
    have hsub : (if async then newAsyncSubscriber h else newSyncSubscriber h).identifier =
        subscriberIdentifier h := by
      cases async <;> rfl
    have hsubh : (if async then newAsyncSubscriber h else newSyncSubscriber h).handler = h := by
      cases async <;> rfl
    simp only [SubscriberRegistry.Register, hl]
    refine ⟨?_, ?_, ?_, ?_, ?_⟩
    · intro p hp
      rcases List.mem_append.mp hp with hp1 | hp1
      · have hne : subscriberIdentifier h ≠ p.2.identifier := by
          intro heq
          have := ha p hp1
          rw [← heq, hl] at this
          simp at this
        simp only [lookup_assocPut_ne _ _ _ hne]
        exact ha p hp1
      · rw [List.mem_singleton] at hp1
        subst hp1
        simp only [hsub]
        exact lookup_assocPut_self _ _ _
    · intro k e hke
      by_cases hk : subscriberIdentifier h = k
      · subst hk
        rw [lookup_assocPut_self] at hke
        simp only [Option.some.injEq] at hke
        exact ⟨_, List.mem_append_right _ (List.mem_singleton.mpr rfl), hke, hsub⟩
      · rw [lookup_assocPut_ne _ _ _ hk] at hke
        obtain ⟨p, hp, h1, h2⟩ := hb k e hke
        exact ⟨p, List.mem_append_left _ hp, h1, h2⟩
    · intro p hp
      rcases List.mem_append.mp hp with hp1 | hp1
      · exact Nat.lt_succ_of_lt (hc p hp1)
      · rw [List.mem_singleton] at hp1
        subst hp1
        exact Nat.lt_succ_self _
    · rw [List.map_append, List.nodup_append]
      refine ⟨hd, by simp, ?_⟩
      intro a ha1 ha2
      simp only [List.map_cons, List.map_nil, List.mem_singleton] at ha2
      obtain ⟨p, hp, hpa⟩ := List.mem_map.mp ha1
      have := hc p hp
      rw [hpa, ha2] at this
      exact absurd this (Nat.lt_irrefl _)
    · intro p hp
      rcases List.mem_append.mp hp with hp1 | hp1
      · exact he p hp1
      · rw [List.mem_singleton] at hp1
        subst hp1
        simp only [hsub, hsubh]

/-- In a registry that is in order, the element the map holds for a handler is the
one element of the list whose subscriber has the identifier of the handler. -/
theorem element_iff (r : SubscriberRegistry) (hr : RegistryOk r) (h : EventHandler) (ele : Nat)
    (hl : r.idMap.lookup (subscriberIdentifier h) = some ele) :
    ∀ p ∈ r.subscribers, (p.1 = ele ↔ p.2.handler.Identifier = h.Identifier) := by
  obtain ⟨ha, hb, -, hd, he⟩ := hr
  intro p hp
  constructor
  · intro hpe
    obtain ⟨q, hq, hq1, hq2⟩ := hb _ ele hl
    have hpq : p = q := eq_of_fst_eq r.subscribers hd p hp q hq (by rw [hpe, hq1])
    rw [← hpq, he p hp] at hq2
    exact subscriberIdentifier_inj _ _ hq2
  · intro hid
    have h1 := ha p hp
    rw [he p hp] at h1
    have hkey : subscriberIdentifier p.2.handler = subscriberIdentifier h := by
      simp only [subscriberIdentifier, hid]
    rw [hkey, hl] at h1
    simp only [Option.some.injEq] at h1
    exact h1.symm

/-- `Unregister` of a registry that is in order removes the subscribers with the
identifier of the handler and keeps the others in their order. -/
theorem Unregister_subscribers (r : SubscriberRegistry) (hr : RegistryOk r) (h : EventHandler) :
    (r.Unregister h).subscribers.map Prod.snd =
      (r.subscribers.map Prod.snd).filter
        (fun s => s.handler.Identifier != h.Identifier) := by
  cases hl : r.idMap.lookup (subscriberIdentifier h) with
  | none =>
    simp only [SubscriberRegistry.Unregister, hl]
    symm
    rw [List.filter_eq_self]
    intro s hs
    have hno : ¬ s.handler.Identifier = h.Identifier := by
      intro hid
      obtain ⟨e, he⟩ := (registered_iff r hr h).mp ⟨s, hs, hid⟩
      rw [hl] at he
      simp at he
    simpa using hno
  | some ele =>
    simp only [SubscriberRegistry.Unregister, hl, List.filter_map]
    congr 1
    apply List.filter_congr
    intro p hp
    have hiff := element_iff r hr h ele hl p hp
    by_cases hpe : p.1 = ele
    · have := hiff.mp hpe
      simp [hpe, this]
    · have hno : ¬ p.2.handler.Identifier = h.Identifier := fun hid => hpe (hiff.mpr hid)
      have e1 : (p.1 != ele) = true := by simpa using hpe
      have e2 : (p.2.handler.Identifier != h.Identifier) = true := by simpa using hno
      rw [e1]
      exact e2.symm

/-- `Unregister` keeps a registry in order. -/
theorem Unregister_ok (r : SubscriberRegistry) (h : EventHandler) (hr : RegistryOk r) :
    RegistryOk (r.Unregister h) := by
  cases hl : r.idMap.lookup (subscriberIdentifier h) with
  | none =>
    simp only [SubscriberRegistry.Unregister, hl]
    exact hr
  | some ele =>
    have hiff := element_iff r hr h ele hl
    obtain ⟨ha, hb, hc, hd, he⟩ := hr
    simp only [SubscriberRegistry.Unregister, hl]
    refine ⟨?_, ?_, ?_, ?_, ?_⟩
    · intro p hp
      obtain ⟨hp1, hp2⟩ := List.mem_filter.mp hp
      have hpe : ¬ p.1 = ele := by simpa using hp2
      have hne : ¬ p.2.identifier = subscriberIdentifier h := by
        intro heq
        have h1 := ha p hp1
        rw [heq, hl] at h1
        simp only [Option.some.injEq] at h1
        exact hpe h1.symm
      simp only [lookup_filter_key, hne, if_false]
      exact ha p hp1
    · intro k e hke
      by_cases hk : k = subscriberIdentifier h
      · simp [lookup_filter_key, hk] at hke
      · simp only [lookup_filter_key, hk, if_false] at hke
        obtain ⟨p, hp, h1, h2⟩ := hb k e hke
        refine ⟨p, List.mem_filter.mpr ⟨hp, ?_⟩, h1, h2⟩
        have hpe : ¬ p.1 = ele := by
          intro hpe
          have hid := (hiff p hp).mp hpe
          apply hk
          rw [← h2, he p hp]
          simp only [subscriberIdentifier, hid]
        simpa using hpe
    · intro p hp
      exact hc p (List.mem_filter.mp hp).1
    · exact (List.filter_sublist _).map Prod.fst |>.nodup hd
    · intro p hp
      exact he p (List.mem_filter.mp hp).1

/-! ## Package `ebus`: the bus -/

/-- What one round of the loop of `Register` does: on an identifier that the registry
of the topic holds, the error and the bus as it was; otherwise no error, and the
registry of the topic, new if the topic was not there, with the handler
registered. -/
theorem registerOne_cases (async : Bool) (h : EventHandler) (b : bus) (topic : String) :
    (∃ r e, b.topics.lookup topic = some r ∧
      r.idMap.lookup (subscriberIdentifier h) = some e ∧
      bus.registerOne async h b topic = (some GoError.ErrSubscriberAlreadyRegistered, b)) ∨
    (∃ r0 b1, (b.topics.lookup topic = some r0 ∨
        (b.topics.lookup topic = none ∧ r0 = NewSubscriberRegistry)) ∧
      r0.idMap.lookup (subscriberIdentifier h) = none ∧
      bus.registerOne async h b topic = (none, b1) ∧
      b1.dispatcher = b.dispatcher ∧
      b1.topics.lookup topic = some (r0.Register h async).2 ∧
      ∀ t, t ≠ topic → b1.topics.lookup t = b.topics.lookup t) := by
  cases ht : b.topics.lookup topic with
  | some r =>
    have hls : b.loadOrStoreRegistry topic = (r, b) := by
      simp only [bus.loadOrStoreRegistry, ht]
    cases hl : r.idMap.lookup (subscriberIdentifier h) with
    | some e =>
      left
      refine ⟨r, e, rfl, hl, ?_⟩
      simp only [bus.registerOne, hls, Register_dup r h async e hl]
    | none =>
      right
      have hreg : r.Register h async = (none, (r.Register h async).2) := by
        have := (Register_new r h async hl).1
        exact Prod.ext this rfl
      refine ⟨r, bus.mk b.dispatcher (assocPut topic (r.Register h async).2 b.topics),
        Or.inl rfl, hl, ?_, rfl, ?_, ?_⟩
      · simp only [bus.registerOne, hls]
        rw [hreg]
      · exact lookup_assocPut_self _ _ _
      · intro t hne
        exact lookup_assocPut_ne _ _ _ (fun h2 => hne h2.symm) _
  | none =>
    right
    have hls : b.loadOrStoreRegistry topic =
        (NewSubscriberRegistry,
         { b with topics := assocPut topic NewSubscriberRegistry b.topics }) := by
      simp only [bus.loadOrStoreRegistry, ht]
    have hl : NewSubscriberRegistry.idMap.lookup (subscriberIdentifier h) = none := rfl
    have hreg : NewSubscriberRegistry.Register h async =
        (none, (NewSubscriberRegistry.Register h async).2) := by
      have := (Register_new NewSubscriberRegistry h async hl).1
      exact Prod.ext this rfl
    refine ⟨NewSubscriberRegistry,
      bus.mk b.dispatcher (assocPut topic (NewSubscriberRegistry.Register h async).2
        (assocPut topic NewSubscriberRegistry b.topics)),
      Or.inr ⟨rfl, rfl⟩, hl, ?_, rfl, ?_, ?_⟩
    · simp only [bus.registerOne, hls]
      rw [hreg]
    · exact lookup_assocPut_self _ _ _
    · intro t hne
      simp only [lookup_assocPut_ne _ _ _ (fun h2 : topic = t => hne h2.symm)]

/-- What one round of the loop of `Unregister` does. -/
theorem unregisterOne_spec (b : bus) (h : EventHandler) (topic : String) :
    (b.unregisterOne h topic).dispatcher = b.dispatcher ∧
    (b.unregisterOne h topic).topics.lookup topic =
      (b.topics.lookup topic).map (fun r => r.Unregister h) ∧
    ∀ t, t ≠ topic → (b.unregisterOne h topic).topics.lookup t = b.topics.lookup t := by
  cases ht : b.topics.lookup topic with
  | none =>
    simp only [bus.unregisterOne, bus.loadRegistry, ht, Option.map_none']
    exact ⟨trivial, trivial, fun _ _ => trivial⟩
  | some r =>
    simp only [bus.unregisterOne, bus.loadRegistry, ht, Option.map_some']
    refine ⟨trivial, lookup_assocPut_self _ _ _, ?_⟩
    intro t hne
    exact lookup_assocPut_ne _ _ _ (fun h2 => hne h2.symm) _

/-- One round of the loop of `Register` keeps the bus in order. -/
theorem registerOne_ok (async : Bool) (h : EventHandler) (b : bus) (topic : String)
    (hb : b.Ok) : (bus.registerOne async h b topic).2.Ok := by
  rcases registerOne_cases async h b topic with ⟨r, e, -, -, heq⟩ |
    ⟨r0, b1, hr0, -, heq, -, h1, h2⟩
  · rw [heq]
    exact hb
  · rw [heq]
    have hr0ok : RegistryOk r0 := by
      rcases hr0 with h3 | ⟨-, h3⟩
      · exact hb topic r0 h3
      · rw [h3]
        exact NewSubscriberRegistry_ok
    intro t r ht
    by_cases htt : t = topic
    · subst htt
      rw [h1] at ht
      simp only [Option.some.injEq] at ht
      rw [← ht]
      exact Register_ok r0 h async hr0ok
    · rw [h2 t htt] at ht
      exact hb t r ht

/-- The loop of `Register` keeps the bus in order. -/
theorem registerLoop_ok (async : Bool) (h : EventHandler) :
    ∀ (ts : List String) (b : bus), b.Ok → (bus.registerLoop async h b ts).2.Ok
  | [], _, hb => hb
  | topic :: rest, b, hb => by
    have h1 := registerOne_ok async h b topic hb
    cases hreg : bus.registerOne async h b topic with
    | mk e b1 =>
      rw [hreg] at h1
      cases e with
      | some err =>
        simp only [bus.registerLoop, hreg]
        exact h1
      | none =>
        simp only [bus.registerLoop, hreg]
        exact registerLoop_ok async h rest b1 h1

/-- One round of the loop of `Unregister` keeps the bus in order. -/
theorem unregisterOne_ok (b : bus) (h : EventHandler) (topic : String) (hb : b.Ok) :
    (b.unregisterOne h topic).Ok := by
  obtain ⟨-, h1, h2⟩ := unregisterOne_spec b h topic
  intro t r ht
  by_cases htt : t = topic
  · subst htt
    rw [h1] at ht
    cases hl : b.topics.lookup t with
    | none => simp [hl] at ht
    | some r0 =>
      simp only [hl, Option.map_some', Option.some.injEq] at ht
      rw [← ht]
      exact Unregister_ok r0 h (hb t r0 hl)
  · rw [h2 t htt] at ht
    exact hb t r ht

/-- `Unregister` of the bus keeps it in order. -/
theorem bus_Unregister_ok (h : EventHandler) :
    ∀ (ts : List String) (b : bus), b.Ok → (bus.Unregister h b ts).Ok
  | [], _, hb => hb
  | topic :: rest, b, hb => bus_Unregister_ok h rest _ (unregisterOne_ok b h topic hb)

/-- Every call keeps the bus in order. -/
theorem afterCall_ok (b : bus) (call : BusCall) (hb : b.Ok) : (b.afterCall call).Ok := by
  cases call with
  | register h ts =>
    simp only [bus.afterCall, bus.Register]
    split
    · exact hb
    · exact registerLoop_ok false h ts b hb
  | registerAsync h ts =>
    simp only [bus.afterCall, bus.RegisterAsync]
    split
    · exact hb
    · exact registerLoop_ok true h ts b hb
  | unregister h ts => exact bus_Unregister_ok h ts b hb
  | post ctx t e => exact hb

/-- Every bus that calls lead to from a new one is in order. -/
theorem afterCalls_ok :
    ∀ (calls : List BusCall) (b : bus), b.Ok → (b.afterCalls calls).Ok
  | [], _, hb => hb
  | call :: rest, b, hb => afterCalls_ok rest _ (afterCall_ok b call hb)

/-- A new bus is in order. -/
theorem NewEBus_ok (d : Option Dispatcher) : (NewEBus d).Ok := by
  intro t r ht
  simp [NewEBus, List.lookup] at ht

/-- The loop of `Register` keeps the dispatcher. -/
theorem registerLoop_dispatcher (async : Bool) (h : EventHandler) :
    ∀ (ts : List String) (b : bus), (bus.registerLoop async h b ts).2.dispatcher = b.dispatcher
  | [], _ => rfl
  | topic :: rest, b => by
    rcases registerOne_cases async h b topic with ⟨r, e, -, -, heq⟩ |
      ⟨r0, b1, -, -, heq, hd, -, -⟩
    · simp only [bus.registerLoop, heq]
    · simp only [bus.registerLoop, heq]
      rw [registerLoop_dispatcher async h rest b1, hd]

/-- `Unregister` of the bus keeps the dispatcher. -/
theorem bus_Unregister_dispatcher (h : EventHandler) :
    ∀ (ts : List String) (b : bus), (bus.Unregister h b ts).dispatcher = b.dispatcher
  | [], _ => rfl
  | topic :: rest, b => by
    simp only [bus.Unregister]
    rw [bus_Unregister_dispatcher h rest _, (unregisterOne_spec b h topic).1]

/-- Every sequence of calls keeps the dispatcher. -/
theorem afterCalls_dispatcher :
    ∀ (calls : List BusCall) (b : bus), (b.afterCalls calls).dispatcher = b.dispatcher
  | [], _ => rfl
  | call :: rest, b => by
    simp only [bus.afterCalls]
    rw [afterCalls_dispatcher rest _]
    cases call with
    | register h ts =>
      simp only [bus.afterCall, bus.Register]
      split
      · rfl
      · exact registerLoop_dispatcher false h ts b
    | registerAsync h ts =>
      simp only [bus.afterCall, bus.RegisterAsync]
      split
      · rfl
      · exact registerLoop_dispatcher true h ts b
    | unregister h ts => exact bus_Unregister_dispatcher h ts b
    | post ctx t e => rfl

/-- The loop of `Register` over topics one of which holds the identifier of the
handler: the error, and the registry of that topic as it was. -/
theorem registerLoop_dup (async : Bool) (h : EventHandler) (t : String) :
    ∀ (ts : List String) (b : bus), t ∈ ts →
      (∃ r e, b.topics.lookup t = some r ∧
        r.idMap.lookup (subscriberIdentifier h) = some e) →
      (bus.registerLoop async h b ts).1 = some GoError.ErrSubscriberAlreadyRegistered ∧
      (bus.registerLoop async h b ts).2.topics.lookup t = b.topics.lookup t
  | [], _, ht, _ => by simp at ht
  | topic :: rest, b, ht, ⟨r, e, hr, hl⟩ => by
    rcases registerOne_cases async h b topic with ⟨-, -, -, -, heq⟩ |
      ⟨r0, b1, hr0, hl0, heq, -, -, h2⟩
    · simp only [bus.registerLoop, heq, and_self]
    · have hne : t ≠ topic := by
        intro htt
        subst htt
        rcases hr0 with h3 | ⟨h3, -⟩
        · rw [hr] at h3
          simp only [Option.some.injEq] at h3
          rw [← h3, hl] at hl0
          simp at hl0
        · rw [hr] at h3
          simp at h3
      have ht2 : t ∈ rest := by
        rcases List.mem_cons.mp ht with h3 | h3
        · exact absurd h3 hne
        · exact h3
      obtain ⟨k1, k2⟩ := registerLoop_dup async h t rest b1 ht2
        ⟨r, e, (h2 t hne).trans hr, hl⟩
      simp only [bus.registerLoop, heq]
      exact ⟨k1, k2.trans (h2 t hne)⟩

/-- On a bus in order, a subscriber with the identifier of the handler on a topic
means that the map of the topic holds the identifier. -/
theorem registered_on_topic (b : bus) (hb : b.Ok) (h : EventHandler) (t : String) :
    (∃ s ∈ b.subscribersOf t, s.handler.Identifier = h.Identifier) ↔
      ∃ r e, b.topics.lookup t = some r ∧
        r.idMap.lookup (subscriberIdentifier h) = some e := by
  cases hl : b.topics.lookup t with
  | none => simp [bus.subscribersOf, bus.loadRegistry, hl]
  | some r =>
    have := registered_iff r (hb t r hl) h
    simp only [bus.subscribersOf, bus.loadRegistry, hl, Option.some.injEq, exists_and_left,
      exists_eq_left']
    exact this

/-- The loop of `Register` over one topic on which no subscriber has the identifier
of the handler: no error, and the new subscriber at the back of the list. -/
theorem registerLoop_single (async : Bool) (h : EventHandler) (b : bus) (hb : b.Ok)
    (t : String) (hno : ∀ s ∈ b.subscribersOf t, s.handler.Identifier ≠ h.Identifier) :
    (bus.registerLoop async h b [t]).1 = none ∧
    (bus.registerLoop async h b [t]).2.subscribersOf t =
      b.subscribersOf t ++ [if async then newAsyncSubscriber h else newSyncSubscriber h] := by
  rcases registerOne_cases async h b t with ⟨r, e, hr, hl, -⟩ |
    ⟨r0, b1, hr0, hl0, heq, -, h1, -⟩
  · obtain ⟨s, hs, hid⟩ := (registered_on_topic b hb h t).mpr ⟨r, e, hr, hl⟩
    exact absurd hid (hno s hs)
  · simp only [bus.registerLoop, heq, true_and]
    simp only [bus.subscribersOf, bus.loadRegistry, h1, (Register_new r0 h async hl0).2]
    rcases hr0 with h3 | ⟨h3, h4⟩
    · simp only [h3]
    · simp only [h3, h4, NewSubscriberRegistry, List.map_nil]

/-- C24. On every bus that calls lead to from a new one: `Register` and
`RegisterAsync` of a handler, over topics one of which has a subscriber (synchronous
or asynchronous) with the identifier of the handler, return
`ErrSubscriberAlreadyRegistered` and leave the subscribers of that topic as they
were, in their order; on a topic without such a subscriber they return `nil` and put
the new subscriber at the back of the list, whatever other topics hold. -/
theorem C24_duplicate_identifier_rejected (d : Option Dispatcher) (calls : List BusCall)
    (h : EventHandler) (t : String) (ts : List String) (ht : t ∈ ts)
    (hreg : ∃ s ∈ ((NewEBus d).afterCalls calls).subscribersOf t,
      s.handler.Identifier = h.Identifier) :
    (((NewEBus d).afterCalls calls).Register h ts).1 =
      some GoError.ErrSubscriberAlreadyRegistered ∧
    (((NewEBus d).afterCalls calls).Register h ts).2.subscribersOf t =
      ((NewEBus d).afterCalls calls).subscribersOf t ∧
    (((NewEBus d).afterCalls calls).RegisterAsync h ts).1 =
      some GoError.ErrSubscriberAlreadyRegistered ∧
    (((NewEBus d).afterCalls calls).RegisterAsync h ts).2.subscribersOf t =
      ((NewEBus d).afterCalls calls).subscribersOf t ∧
    ∀ t2, (∀ s ∈ ((NewEBus d).afterCalls calls).subscribersOf t2,
        s.handler.Identifier ≠ h.Identifier) →
      (((NewEBus d).afterCalls calls).Register h [t2]).1 = none ∧
      (((NewEBus d).afterCalls calls).Register h [t2]).2.subscribersOf t2 =
        ((NewEBus d).afterCalls calls).subscribersOf t2 ++ [newSyncSubscriber h] ∧
      (((NewEBus d).afterCalls calls).RegisterAsync h [t2]).1 = none ∧
      (((NewEBus d).afterCalls calls).RegisterAsync h [t2]).2.subscribersOf t2 =
        ((NewEBus d).afterCalls calls).subscribersOf t2 ++ [newAsyncSubscriber h] := by
  have hb : ((NewEBus d).afterCalls calls).Ok := afterCalls_ok calls _ (NewEBus_ok d)
  have hkey := (registered_on_topic _ hb h t).mp hreg
  have hlen : ¬ ts.length = 0 := by
    intro h0
    rw [List.length_eq_zero.mp h0] at ht
    simp at ht
  obtain ⟨a1, a2⟩ := registerLoop_dup false h t ts _ ht hkey
  obtain ⟨c1, c2⟩ := registerLoop_dup true h t ts _ ht hkey
  refine ⟨?_, ?_, ?_, ?_, ?_⟩
  · simp only [bus.Register, hlen, if_false]
    exact a1
  · simp only [bus.Register, hlen, if_false, bus.subscribersOf, bus.loadRegistry]
    rw [a2]
  · simp only [bus.RegisterAsync, hlen, if_false]
    exact c1
  · simp only [bus.RegisterAsync, hlen, if_false, bus.subscribersOf, bus.loadRegistry]
    rw [c2]
  · intro t2 hno
    obtain ⟨e1, e2⟩ := registerLoop_single false h _ hb t2 hno
    obtain ⟨f1, f2⟩ := registerLoop_single true h _ hb t2 hno
    have hl1 : ¬ [t2].length = 0 := by simp
    simp only [bus.Register, bus.RegisterAsync, hl1, if_false]
    exact ⟨e1, e2, f1, f2⟩

/-- C24 at a sample input: with `audit`, `mail` and `stats` on `orders` and `stats` on
`users`, another handler with identifier `audit` is rejected on `orders`, in both
modes, and accepted on `users`. -/
theorem C24_duplicate_identifier_rejected_witness :
    (((NewEBus none).afterCalls sampleBusCalls).subscribersOf "orders").map
      Subscriber.Identifier = ["subscriber-audit", "subscriber-mail", "subscriber-stats"] ∧
    (((NewEBus none).afterCalls sampleBusCalls).Register auditAgain ["users", "orders"]).1 =
      some GoError.ErrSubscriberAlreadyRegistered ∧
    ((((NewEBus none).afterCalls sampleBusCalls).Register auditAgain
        ["users", "orders"]).2.subscribersOf "orders").map Subscriber.Identifier =
      ["subscriber-audit", "subscriber-mail", "subscriber-stats"] ∧
    (((NewEBus none).afterCalls sampleBusCalls).RegisterAsync auditAgain ["orders"]).1 =
      some GoError.ErrSubscriberAlreadyRegistered ∧
    ((((NewEBus none).afterCalls sampleBusCalls).Register auditAgain
        ["users"]).2.subscribersOf "users").map Subscriber.Identifier =
      ["subscriber-stats", "subscriber-audit"] ∧
    (((NewEBus none).afterCalls sampleBusCalls).Register auditAgain ["users", "orders"]).2.subscribersOf
      "orders" = ((NewEBus none).afterCalls sampleBusCalls).subscribersOf "orders" :=
  ⟨by decide, by decide, by decide, by decide, by decide,
   (C24_duplicate_identifier_rejected none sampleBusCalls auditAgain "orders"
      ["users", "orders"] (by decide)
      ⟨newSyncSubscriber auditHandler, List.Mem.head _, rfl⟩).2.1⟩

/-! ## Package `ebus`: which topics a bus has -/

/-- Buses with the same registry under a topic have the same subscribers on it. -/
theorem subscribersOf_congr (b b1 : bus) (t : String)
    (h : b1.topics.lookup t = b.topics.lookup t) : b1.subscribersOf t = b.subscribersOf t := by
  simp only [bus.subscribersOf, bus.loadRegistry, h]

/-- A topic that has subscribers is in the map of the bus. -/
theorem isSome_of_subscribers (b : bus) (t : String) (h : b.subscribersOf t ≠ []) :
    (b.topics.lookup t).isSome = true := by
  cases hl : b.topics.lookup t with
  | none => simp [bus.subscribersOf, bus.loadRegistry, hl] at h
  | some r => rfl

/-- One round of the loop of `Register` removes no topic and empties no subscriber
list, and a topic it creates has a subscriber. -/
theorem registerOne_grows (async : Bool) (h : EventHandler) (b : bus) (topic t : String) :
    ((b.topics.lookup t).isSome = true →
      ((bus.registerOne async h b topic).2.topics.lookup t).isSome = true) ∧
    (b.subscribersOf t ≠ [] → (bus.registerOne async h b topic).2.subscribersOf t ≠ []) ∧
    (((bus.registerOne async h b topic).2.topics.lookup t).isSome = true →
      (b.topics.lookup t).isSome = true ∨
        (bus.registerOne async h b topic).2.subscribersOf t ≠ []) := by
  rcases registerOne_cases async h b topic with ⟨-, -, -, -, heq⟩ |
    ⟨r0, b1, hr0, hl0, heq, -, h1, h2⟩
  · rw [heq]
    exact ⟨id, id, Or.inl⟩
  · rw [heq]
    by_cases htt : t = topic
    · subst htt
      have hne : b1.subscribersOf t ≠ [] := by
        simp only [bus.subscribersOf, bus.loadRegistry, h1]
        intro hnil
        exact Register_nonempty r0 h async (Or.inr (Register_new r0 h async hl0).1)
          (List.map_eq_nil_iff.mp hnil)
      exact ⟨fun _ => by simp only [h1, Option.isSome_some], fun _ => hne, fun _ => Or.inr hne⟩
    · have hs := subscribersOf_congr b b1 t (h2 t htt)
      simp only [h2 t htt, hs]
      exact ⟨id, id, Or.inl⟩

/-- The loop of `Register` removes no topic and empties no subscriber list, and a
topic it creates has a subscriber. -/
theorem registerLoop_grows (async : Bool) (h : EventHandler) (t : String) :
    ∀ (ts : List String) (b : bus),
      ((b.topics.lookup t).isSome = true →
        ((bus.registerLoop async h b ts).2.topics.lookup t).isSome = true) ∧
      (b.subscribersOf t ≠ [] → (bus.registerLoop async h b ts).2.subscribersOf t ≠ []) ∧
      (((bus.registerLoop async h b ts).2.topics.lookup t).isSome = true →
        (b.topics.lookup t).isSome = true ∨
          (bus.registerLoop async h b ts).2.subscribersOf t ≠ [])
  | [], _ => ⟨id, id, Or.inl⟩
  | topic :: rest, b => by
    obtain ⟨a1, a2, a3⟩ := registerOne_grows async h b topic t
    cases hreg : bus.registerOne async h b topic with
    | mk e b1 =>
      rw [hreg] at a1 a2 a3
      cases e with
      | some err =>
        simp only [bus.registerLoop, hreg]
        exact ⟨a1, a2, a3⟩
      | none =>
        obtain ⟨c1, c2, c3⟩ := registerLoop_grows async h t rest b1
        simp only [bus.registerLoop, hreg]
        refine ⟨fun hx => c1 (a1 hx), fun hx => c2 (a2 hx), ?_⟩
        intro hx
        rcases c3 hx with h3 | h3
        · rcases a3 h3 with h4 | h4
          · exact Or.inl h4
          · exact Or.inr (c2 h4)
        · exact Or.inr h3

/-- `Unregister` of the bus neither creates nor removes a topic. -/
theorem bus_Unregister_topics (h : EventHandler) (t : String) :
    ∀ (ts : List String) (b : bus),
      ((bus.Unregister h b ts).topics.lookup t).isSome = (b.topics.lookup t).isSome
  | [], _ => rfl
  | topic :: rest, b => by
    simp only [bus.Unregister]
    rw [bus_Unregister_topics h t rest _]
    obtain ⟨-, h1, h2⟩ := unregisterOne_spec b h topic
    by_cases htt : t = topic
    · subst htt
      rw [h1]
      cases b.topics.lookup t <;> rfl
    · rw [h2 t htt]

/-- No call removes a topic, and a topic that a call creates has a subscriber. -/
theorem afterCall_grows (b : bus) (call : BusCall) (t : String) :
    ((b.topics.lookup t).isSome = true → ((b.afterCall call).topics.lookup t).isSome = true) ∧
    (((b.afterCall call).topics.lookup t).isSome = true →
      (b.topics.lookup t).isSome = true ∨ (b.afterCall call).subscribersOf t ≠ []) := by
  cases call with
  | register h ts =>
    simp only [bus.afterCall, bus.Register]
    split
    · exact ⟨id, Or.inl⟩
    · exact ⟨(registerLoop_grows false h t ts b).1, (registerLoop_grows false h t ts b).2.2⟩
  | registerAsync h ts =>
    simp only [bus.afterCall, bus.RegisterAsync]
    split
    · exact ⟨id, Or.inl⟩
    · exact ⟨(registerLoop_grows true h t ts b).1, (registerLoop_grows true h t ts b).2.2⟩
  | unregister h ts =>
    simp only [bus.afterCall, bus_Unregister_topics h t ts b]
    exact ⟨id, Or.inl⟩
  | post ctx t2 e => exact ⟨id, Or.inl⟩

/-- A bus has a topic exactly when it had it at the start or the topic had a
subscriber after some number of the calls. -/
theorem topics_after (t : String) :
    ∀ (calls : List BusCall) (b : bus),
      ((b.afterCalls calls).topics.lookup t).isSome = true ↔
        (b.topics.lookup t).isSome = true ∨
          ∃ n, (b.afterCalls (calls.take n)).subscribersOf t ≠ []
  | [], b => by
    constructor
    · exact Or.inl
    · rintro (h | ⟨n, h⟩)
      · exact h
      · simp only [List.take_nil, bus.afterCalls] at h
        exact isSome_of_subscribers b t h
  | call :: rest, b => by
    have ih := topics_after t rest (b.afterCall call)
    obtain ⟨g1, g2⟩ := afterCall_grows b call t
    simp only [bus.afterCalls]
    constructor
    · intro hx
      rcases ih.mp hx with h | ⟨n, h⟩
      · rcases g2 h with h2 | h2
        · exact Or.inl h2
        · exact Or.inr ⟨1, by simpa [bus.afterCalls] using h2⟩
      · exact Or.inr ⟨n + 1, by simpa [bus.afterCalls] using h⟩
    · rintro (h | ⟨n, h⟩)
      · exact ih.mpr (Or.inl (g1 h))
      · cases n with
        | zero =>
          simp only [List.take_zero, bus.afterCalls] at h
          exact ih.mpr (Or.inl (g1 (isSome_of_subscribers b t h)))
        | succ m =>
          simp only [List.take_succ_cons, bus.afterCalls] at h
          exact ih.mpr (Or.inr ⟨m, h⟩)

/-- `Post` on a topic the bus does not have: the error, and no delivery. -/
theorem Post_absent (b : bus) (ctx : Context) (t : String) (e : BusEvent)
    (log : List Delivery) (h : b.topics.lookup t = none) :
    b.Post ctx t e log = (Outcome.ret (some GoError.ErrTopicNotFound), log) := by
  simp only [bus.Post, bus.loadRegistry, h]

/-- `Post` on a topic the bus has returns `nil`, unless the dispatcher panics. -/
theorem Post_present (b : bus) (ctx : Context) (t : String) (e : BusEvent)
    (log : List Delivery) (h : (b.topics.lookup t).isSome = true) :
    (b.Post ctx t e log).1 = Outcome.ret none ∨
      ∃ msg, (b.Post ctx t e log).1 = Outcome.panicked msg := by
  cases hl : b.topics.lookup t with
  | none => simp [hl] at h
  | some r =>
    simp only [bus.Post, bus.loadRegistry, hl]
    cases hd : b.dispatcher.Dispatch ctx e (r.GetSubscribers e) log with
    | mk p log2 =>
      cases p with
      | none => exact Or.inl rfl
      | some msg => exact Or.inr ⟨msg, rfl⟩

/-- C25. On every bus that calls lead to from a new one: `Post` on a topic returns
`ErrTopicNotFound` if and only if the topic had no subscriber after any number of
the calls, and it then delivers nothing; `Post` leaves the bus as it is, so the same
`Post` ends the same way again; on a topic that had a subscriber at some point `Post`
returns `nil` unless the dispatcher panics, and with the default dispatcher and no
subscriber left on the topic it returns `nil` and delivers nothing. -/
theorem C25_post_fails_iff_never_registered (d : Option Dispatcher) (calls : List BusCall)
    (ctx : Context) (t : String) (e : BusEvent) (log : List Delivery) :
    ((((NewEBus d).afterCalls calls).Post ctx t e log).1 =
        Outcome.ret (some GoError.ErrTopicNotFound) ↔
      ∀ n, ((NewEBus d).afterCalls (calls.take n)).subscribersOf t = []) ∧
    ((((NewEBus d).afterCalls calls).Post ctx t e log).1 =
        Outcome.ret (some GoError.ErrTopicNotFound) →
      (((NewEBus d).afterCalls calls).Post ctx t e log).2 = log) ∧
    ((((NewEBus d).afterCalls calls).afterCall (BusCall.post ctx t e)).Post ctx t e log =
      ((NewEBus d).afterCalls calls).Post ctx t e log) ∧
    ((∃ n, ((NewEBus d).afterCalls (calls.take n)).subscribersOf t ≠ []) →
      (((NewEBus d).afterCalls calls).Post ctx t e log).1 = Outcome.ret none ∨
        ∃ msg, (((NewEBus d).afterCalls calls).Post ctx t e log).1 = Outcome.panicked msg) ∧
    ((∃ n, ((NewEBus d).afterCalls (calls.take n)).subscribersOf t ≠ []) → d = none →
      ((NewEBus d).afterCalls calls).subscribersOf t = [] →
      ((NewEBus d).afterCalls calls).Post ctx t e log = (Outcome.ret none, log)) := by
  have hnew : ((NewEBus d).topics.lookup t).isSome = false := rfl
  have hiff : (((NewEBus d).afterCalls calls).topics.lookup t).isSome = true ↔
      ∃ n, ((NewEBus d).afterCalls (calls.take n)).subscribersOf t ≠ [] := by
    rw [topics_after t calls (NewEBus d), hnew]
    simp
  have hfail : (((NewEBus d).afterCalls calls).Post ctx t e log).1 =
      Outcome.ret (some GoError.ErrTopicNotFound) ↔
      ((NewEBus d).afterCalls calls).topics.lookup t = none := by
    constructor
    · intro hp
      cases hl : ((NewEBus d).afterCalls calls).topics.lookup t with
      | none => rfl
      | some r =>
        rcases Post_present _ ctx t e log (by rw [hl]; rfl) with h1 | ⟨msg, h1⟩
        · rw [h1] at hp
          simp at hp
        · rw [h1] at hp
          simp at hp
    · intro hl
      rw [Post_absent _ ctx t e log hl]
  refine ⟨?_, ?_, rfl, ?_, ?_⟩
  · rw [hfail]
    constructor
    · intro hl n
      by_contra hne
      have := hiff.mpr ⟨n, hne⟩
      rw [hl] at this
      simp at this
    · intro hall
      cases hl : ((NewEBus d).afterCalls calls).topics.lookup t with
      | none => rfl
      | some r =>
        obtain ⟨n, hn⟩ := hiff.mp (by rw [hl]; rfl)
        exact absurd (hall n) hn
  · intro hp
    rw [Post_absent _ ctx t e log (hfail.mp hp)]
  · intro hex
    exact Post_present _ ctx t e log (hiff.mpr hex)
  · intro hex hd hnil
    have hdisp : ((NewEBus d).afterCalls calls).dispatcher = NewImmediateDispatcher := by
      rw [afterCalls_dispatcher, hd]
      rfl
    cases hl : ((NewEBus d).afterCalls calls).topics.lookup t with
    | none =>
      have := hiff.mpr hex
      rw [hl] at this
      simp at this
    | some r =>
      have hr : r.subscribers = [] := by
        simp only [bus.subscribersOf, bus.loadRegistry, hl] at hnil
        exact List.map_eq_nil_iff.mp hnil
      simp only [bus.Post, bus.loadRegistry, hl, hdisp, NewImmediateDispatcher,
        SubscriberRegistry.GetSubscribers, hr, List.map_nil, List.filter_nil, dispatchLoop]

/-- C25 at a sample input: after the sample calls and `Unregister` of `stats` on
`users`, `Post` on `users`, which has no subscriber left, returns `nil`, and `Post` on
`payments`, where nothing was ever registered, returns `ErrTopicNotFound`. -/
theorem C25_post_fails_iff_never_registered_witness :
    (((NewEBus none).afterCalls
        (sampleBusCalls ++ [BusCall.unregister statsHandler ["users"]])).subscribersOf
      "users").length = 0 ∧
    (((NewEBus none).afterCalls
        (sampleBusCalls ++ [BusCall.unregister statsHandler ["users"]])).Post
      (Context.plain 0) "payments" (BusEvent.other 1) []).1 =
      Outcome.ret (some GoError.ErrTopicNotFound) ∧
    ((NewEBus none).afterCalls
        (sampleBusCalls ++ [BusCall.unregister statsHandler ["users"]])).Post
      (Context.plain 0) "users" (BusEvent.other 1) [] = (Outcome.ret none, []) :=
  ⟨by decide, by decide,
   (C25_post_fails_iff_never_registered none
      (sampleBusCalls ++ [BusCall.unregister statsHandler ["users"]])
      (Context.plain 0) "users" (BusEvent.other 1) []).2.2.2.2
      ⟨3, fun h => absurd (congrArg List.length h) (by decide)⟩ rfl
      (List.eq_nil_of_length_eq_zero (by decide))⟩

/-! ## Package `ebus`: dispatch -/

/-- The loop of the immediate dispatcher, when no inline call panics: one delivery
for each subscriber, in the order of the list. -/
theorem dispatchLoop_ok (ctx : Context) (e : BusEvent) :
    ∀ (subs : List Subscriber) (log : List Delivery),
      (∀ s ∈ subs, s.async = false → s.handler.OnEvent ctx e = none) →
      dispatchLoop ctx e subs log = (none, log ++ subs.map (fun s => s.delivery ctx e))
  | [], log, _ => by simp [dispatchLoop]
  | s :: rest, log, h => by
    have ih := dispatchLoop_ok ctx e rest (log ++ [s.delivery ctx e])
      (fun s2 hs2 => h s2 (List.mem_cons_of_mem _ hs2))
    cases ha : s.async with
    | true =>
      simp only [dispatchLoop, Subscriber.Dispatch, ha, if_true]
      simp only [Subscriber.delivery, ha, if_true] at ih
      rw [ih]
      simp [Subscriber.delivery, ha]
    | false =>
      have hret := h s (List.mem_cons_self _ _) ha
      simp only [dispatchLoop, Subscriber.Dispatch, ha, Bool.false_eq_true, if_false, hret]
      simp only [Subscriber.delivery, ha, Bool.false_eq_true, if_false] at ih
      rw [ih]
      simp [Subscriber.delivery, ha]

/-- On a bus in order the subscribers of a topic have distinct identifiers. -/
theorem subscribersOf_nodup (b : bus) (hb : b.Ok) (t : String) :
    ((b.subscribersOf t).map Subscriber.Identifier).Nodup := by
  cases hl : b.topics.lookup t with
  | none => simp [bus.subscribersOf, bus.loadRegistry, hl]
  | some r =>
    obtain ⟨ha, -, -, hd, -⟩ := hb t r hl
    simp only [bus.subscribersOf, bus.loadRegistry, hl, List.map_map]
    refine List.Nodup.map_on ?_ (List.Nodup.of_map _ hd)
    intro p hp q hq hpq
    simp only [Function.comp, Subscriber.Identifier] at hpq
    have h1 := ha p hp
    have h2 := ha q hq
    rw [hpq, h2] at h1
    simp only [Option.some.injEq] at h1
    exact eq_of_fst_eq r.subscribers hd p hp q hq h1.symm

/-- One round of the loop of `Unregister` on a bus in order removes from the topic
the subscribers with the identifier of the handler and keeps the others in their
order. -/
theorem unregisterOne_subscribers (b : bus) (hb : b.Ok) (h : EventHandler)
    (topic t : String) :
    (b.unregisterOne h topic).subscribersOf t =
      if t = topic then
        (b.subscribersOf t).filter (fun s => s.handler.Identifier != h.Identifier)
      else b.subscribersOf t := by
  obtain ⟨-, h1, h2⟩ := unregisterOne_spec b h topic
  by_cases htt : t = topic
  · subst htt
    simp only [if_true, bus.subscribersOf, bus.loadRegistry, h1]
    cases hl : b.topics.lookup t with
    | none => simp
    | some r =>
      simp only [Option.map_some']
      exact Unregister_subscribers r (hb t r hl) h
  · simp only [htt, if_false]
    exact subscribersOf_congr b _ t (h2 t htt)

/-- `Unregister` of a bus in order removes from each of the topics the subscribers
with the identifier of the handler and keeps the others in their order. -/
theorem bus_Unregister_subscribers (h : EventHandler) (t : String) :
    ∀ (ts : List String) (b : bus), b.Ok →
      (bus.Unregister h b ts).subscribersOf t =
        if t ∈ ts then
          (b.subscribersOf t).filter (fun s => s.handler.Identifier != h.Identifier)
        else b.subscribersOf t
  | [], _, _ => by simp [bus.Unregister]
  | topic :: rest, b, hb => by
    have ih := bus_Unregister_subscribers h t rest (b.unregisterOne h topic)
      (unregisterOne_ok b h topic hb)
    have h1 := unregisterOne_subscribers b hb h topic t
    simp only [bus.Unregister]
    rw [ih, h1]
    by_cases htt : t = topic
    · subst htt
      by_cases hr : t ∈ rest
      · simp [hr, List.filter_filter]
      · simp [hr]
    · by_cases hr : t ∈ rest
      · simp [hr, htt]
      · simp [hr, htt]

/-- C26. On every bus with the default dispatcher that calls lead to from a new one,
for a topic the bus has, when no inline call of `OnEvent` on the event panics:
`Post` returns `nil`, having made one delivery for each subscriber currently on the
topic whose filter does not reject the event, in the order of the list, and no
other; the inline calls among them are those of the synchronous subscribers, one
each, in that order.  The identifiers on the list are distinct; `Register` puts a
new subscriber at the back of the list, so the order of the list is the order of
registration; `Unregister` removes the subscriber of the handler and keeps the
others in their order, so an unregistered subscriber gets no delivery. -/
theorem C26_post_dispatches_in_registration_order (calls : List BusCall) (ctx : Context)
    (t : String) (e : BusEvent) (log : List Delivery)
    (hex : (((NewEBus none).afterCalls calls).topics.lookup t).isSome = true)
    (hret : ∀ s ∈ ((NewEBus none).afterCalls calls).subscribersOf t,
      s.async = false → s.Filter e = false → s.handler.OnEvent ctx e = none) :
    ((NewEBus none).afterCalls calls).Post ctx t e log =
      (Outcome.ret none,
       log ++ ((((NewEBus none).afterCalls calls).subscribersOf t).filter
         (fun s => !s.Filter e)).map (fun s => s.delivery ctx e)) ∧
    (((((NewEBus none).afterCalls calls).subscribersOf t).filter
        (fun s => !s.Filter e)).map (fun s => s.delivery ctx e)).filter Delivery.isInline =
      ((((NewEBus none).afterCalls calls).subscribersOf t).filter
        (fun s => !s.async && !s.Filter e)).map
        (fun s => Delivery.onEvent s.handler ctx e) ∧
    ((((NewEBus none).afterCalls calls).subscribersOf t).map Subscriber.Identifier).Nodup ∧
    (∀ h : EventHandler,
      (∀ s ∈ ((NewEBus none).afterCalls calls).subscribersOf t,
        s.handler.Identifier ≠ h.Identifier) →
      (((NewEBus none).afterCalls calls).Register h [t]).2.subscribersOf t =
        ((NewEBus none).afterCalls calls).subscribersOf t ++ [newSyncSubscriber h]) ∧
    (∀ (h : EventHandler) (ts : List String), t ∈ ts →
      (bus.Unregister h ((NewEBus none).afterCalls calls) ts).subscribersOf t =
        (((NewEBus none).afterCalls calls).subscribersOf t).filter
          (fun s => s.handler.Identifier != h.Identifier)) := by
  have hb : ((NewEBus none).afterCalls calls).Ok := afterCalls_ok calls _ (NewEBus_ok none)
  have hdisp : ((NewEBus none).afterCalls calls).dispatcher = NewImmediateDispatcher := by
    rw [afterCalls_dispatcher]
    rfl
  refine ⟨?_, ?_, subscribersOf_nodup _ hb t, ?_, ?_⟩
  · cases hl : ((NewEBus none).afterCalls calls).topics.lookup t with
    | none => simp [hl] at hex
    | some r =>
      have hsubs : ((NewEBus none).afterCalls calls).subscribersOf t =
          r.subscribers.map Prod.snd := by
        simp only [bus.subscribersOf, bus.loadRegistry, hl]
      rw [hsubs] at hret ⊢
      have hloop := dispatchLoop_ok ctx e (r.GetSubscribers e) log (by
        intro s hs ha
        simp only [SubscriberRegistry.GetSubscribers, List.mem_filter, Bool.not_eq_true'] at hs
        exact hret s hs.1 ha hs.2)
      simp only [bus.Post, bus.loadRegistry, hl, hdisp, NewImmediateDispatcher, hloop]
      rfl
  · rw [List.filter_map, List.filter_filter]
    have hp : ∀ s : Subscriber,
        ((Delivery.isInline ∘ fun s => s.delivery ctx e) s && !s.Filter e) =
          (!s.async && !s.Filter e) := by
      intro s
      cases ha : s.async <;> simp [Subscriber.delivery, Delivery.isInline, ha]
    simp only [hp]
    apply List.map_congr_left
    intro s hs
    simp only [List.mem_filter, Bool.and_eq_true, Bool.not_eq_true'] at hs
    simp [Subscriber.delivery, hs.2.1]
  · intro h hno
    have hl1 : ¬ [t].length = 0 := by simp
    simp only [bus.Register, hl1, if_false]
    exact (registerLoop_single false h _ hb t hno).2
  · intro h ts ht
    rw [bus_Unregister_subscribers h t ts _ hb]
    simp only [ht, if_true]

/-- C26 at a sample input: on `orders`, with `audit` and `mail` registered
synchronously and `stats` asynchronously, `Post` of an event that the filter of `mail`
rejects calls `audit` inline and hands `stats` to a goroutine, in that order; after
`Unregister` of `audit` only `stats` is left. -/
theorem C26_post_dispatches_in_registration_order_witness :
    ((NewEBus none).afterCalls sampleBusCalls).Post (Context.plain 0) "orders"
        (BusEvent.other 1) [] =
      (Outcome.ret none,
       [Delivery.onEvent auditHandler (Context.plain 0) (BusEvent.other 1),
        Delivery.go statsHandler (Context.plain 0) (BusEvent.other 1)]) ∧
    ((bus.Unregister auditHandler ((NewEBus none).afterCalls sampleBusCalls)
        ["orders"]).subscribersOf "orders").map Subscriber.Identifier =
      ["subscriber-mail", "subscriber-stats"] ∧
    ((NewEBus none).afterCalls sampleBusCalls).Post (Context.plain 0) "orders"
        (BusEvent.other 1) [] =
      (Outcome.ret none,
       [] ++ ((((NewEBus none).afterCalls sampleBusCalls).subscribersOf "orders").filter
         (fun s => !s.Filter (BusEvent.other 1))).map
         (fun s => s.delivery (Context.plain 0) (BusEvent.other 1))) :=
  ⟨rfl, by decide,
   (C26_post_dispatches_in_registration_order sampleBusCalls (Context.plain 0) "orders"
      (BusEvent.other 1) [] (by decide) (fun s hs _ _ => by
        have hl : ((NewEBus none).afterCalls sampleBusCalls).subscribersOf "orders" =
            [newSyncSubscriber auditHandler, newSyncSubscriber mailHandler,
             newAsyncSubscriber statsHandler] := rfl
        rw [hl] at hs
        simp only [List.mem_cons, List.mem_singleton, List.not_mem_nil, or_false] at hs
        rcases hs with h | h | h <;> rw [h] <;> rfl)).1⟩

/-! ## Package `ebus`: registration over several topics -/

/-- The loop of `Register` on a first topic that holds the identifier of the handler:
the error at once, and the bus as it was. -/
theorem registerLoop_head_dup (async : Bool) (h : EventHandler) (b : bus) (t : String)
    (rest : List String)
    (hkey : ∃ r e, b.topics.lookup t = some r ∧
      r.idMap.lookup (subscriberIdentifier h) = some e) :
    bus.registerLoop async h b (t :: rest) =
      (some GoError.ErrSubscriberAlreadyRegistered, b) := by
  obtain ⟨r, e, hr, hl⟩ := hkey
  rcases registerOne_cases async h b t with ⟨-, -, -, -, heq⟩ |
    ⟨r0, b1, hr0, hl0, -, -, -, -⟩
  · simp only [bus.registerLoop, heq]
  · rcases hr0 with h3 | ⟨h3, -⟩
    · rw [hr] at h3
      simp only [Option.some.injEq] at h3
      rw [← h3, hl] at hl0
      simp at hl0
    · rw [hr] at h3
      simp at h3

/-- The loop of `Register` over distinct first topics on none of which a subscriber
has the identifier of the handler: it goes on with the rest of the topics on a bus
that has the new subscriber at the back of the list of each of those topics and the
registry of every other topic as it was. -/
theorem registerLoop_distinct (async : Bool) (h : EventHandler) (rest : List String) :
    ∀ (pre : List String) (b : bus), pre.Nodup → b.Ok →
      (∀ t ∈ pre, ∀ s ∈ b.subscribersOf t, s.handler.Identifier ≠ h.Identifier) →
      ∃ b1, b1.Ok ∧
        bus.registerLoop async h b (pre ++ rest) = bus.registerLoop async h b1 rest ∧
        (∀ t ∈ pre, b1.subscribersOf t =
          b.subscribersOf t ++
            [if async then newAsyncSubscriber h else newSyncSubscriber h]) ∧
        (∀ t, t ∉ pre → b1.topics.lookup t = b.topics.lookup t)
  | [], b, _, hb, _ => ⟨b, hb, rfl, fun t ht => by simp at ht, fun _ _ => rfl⟩
  | t0 :: pre, b, hnd, hb, hno => by
    simp only [List.nodup_cons] at hnd
    rcases registerOne_cases async h b t0 with ⟨r, e, hr, hl, -⟩ |
      ⟨r0, b2, hr0, hl0, heq, -, h1, h2⟩
    · obtain ⟨s, hs, hid⟩ := (registered_on_topic b hb h t0).mpr ⟨r, e, hr, hl⟩
      exact absurd hid (hno t0 (List.mem_cons_self _ _) s hs)
    · have hb2 : b2.Ok := by
        have := registerOne_ok async h b t0 hb
        rw [heq] at this
        exact this
      have hsub0 : b2.subscribersOf t0 =
          b.subscribersOf t0 ++
            [if async then newAsyncSubscriber h else newSyncSubscriber h] := by
        simp only [bus.subscribersOf, bus.loadRegistry, h1, (Register_new r0 h async hl0).2]
        rcases hr0 with h3 | ⟨h3, h4⟩
        · simp only [h3]
        · simp only [h3, h4, NewSubscriberRegistry, List.map_nil]
      have hne : ∀ t ∈ pre, t ≠ t0 := fun t ht htt => hnd.1 (htt ▸ ht)
      obtain ⟨b1, hb1, hloop, hin, hout⟩ := registerLoop_distinct async h rest pre b2 hnd.2 hb2
        (fun t ht s hs => by
          rw [subscribersOf_congr b b2 t (h2 t (hne t ht))] at hs
          exact hno t (List.mem_cons_of_mem _ ht) s hs)
      refine ⟨b1, hb1, ?_, ?_, ?_⟩
      · simp only [List.cons_append, bus.registerLoop, heq]
        exact hloop
      · intro t ht
        rcases List.mem_cons.mp ht with htt | htt
        · subst htt
          rw [subscribersOf_congr b2 b1 t (hout t hnd.1), hsub0]
        · rw [hin t htt, subscribersOf_congr b b2 t (h2 t (hne t htt))]
      · intro t ht
        simp only [List.mem_cons, not_or] at ht
        rw [hout t ht.2, h2 t ht.1]

/-- The loop of `Register` over distinct topics on none of which a subscriber has the
identifier of the handler, followed by a topic on which one has: the error, the new
subscriber at the back of the list of each of the first topics, and the registry of
every other topic as it was. -/
theorem registerLoop_stops (async : Bool) (h : EventHandler) (b : bus) (hb : b.Ok)
    (pre : List String) (tk : String) (post : List String) (hnd : pre.Nodup)
    (hpre : ∀ t ∈ pre, ∀ s ∈ b.subscribersOf t, s.handler.Identifier ≠ h.Identifier)
    (hk : ∃ s ∈ b.subscribersOf tk, s.handler.Identifier = h.Identifier) :
    (bus.registerLoop async h b (pre ++ tk :: post)).1 =
      some GoError.ErrSubscriberAlreadyRegistered ∧
    (∀ t ∈ pre, (bus.registerLoop async h b (pre ++ tk :: post)).2.subscribersOf t =
      b.subscribersOf t ++ [if async then newAsyncSubscriber h else newSyncSubscriber h]) ∧
    (∀ t, t ∉ pre →
      (bus.registerLoop async h b (pre ++ tk :: post)).2.topics.lookup t =
        b.topics.lookup t) := by
  obtain ⟨b1, hb1, hloop, hin, hout⟩ :=
    registerLoop_distinct async h (tk :: post) pre b hnd hb hpre
  have htk : tk ∉ pre := by
    intro hmem
    obtain ⟨s, hs, hid⟩ := hk
    exact hpre tk hmem s hs hid
  have hkey : ∃ r e, b1.topics.lookup tk = some r ∧
      r.idMap.lookup (subscriberIdentifier h) = some e := by
    rw [hout tk htk]
    exact (registered_on_topic b hb h tk).mp hk
  rw [hloop, registerLoop_head_dup async h b1 tk post hkey]
  exact ⟨rfl, hin, hout⟩

/-- C31, as the code has it.  On every bus that calls lead to from a new one, for
`Register` and `RegisterAsync` of a handler over the topics `pre`, then `tk`, then
`post`: if the topics of `pre` are pairwise distinct, no subscriber on any of them has
the identifier of the handler, and a subscriber on `tk` has it, the call returns
`ErrSubscriberAlreadyRegistered`, the handler is left registered on every topic of
`pre`, at the back of its list, and the registry of every topic that is not in `pre`
is as it was: `tk` keeps its list, and a topic of `post` that is not in `pre` gains
nothing and is not created. -/
theorem C31_registration_stops_at_first_duplicate (d : Option Dispatcher)
    (calls : List BusCall) (h : EventHandler) (pre : List String) (tk : String)
    (post : List String) (hnd : pre.Nodup)
    (hpre : ∀ t ∈ pre, ∀ s ∈ ((NewEBus d).afterCalls calls).subscribersOf t,
      s.handler.Identifier ≠ h.Identifier)
    (hk : ∃ s ∈ ((NewEBus d).afterCalls calls).subscribersOf tk,
      s.handler.Identifier = h.Identifier) :
    ((((NewEBus d).afterCalls calls).Register h (pre ++ tk :: post)).1 =
        some GoError.ErrSubscriberAlreadyRegistered ∧
      (∀ t ∈ pre,
        (((NewEBus d).afterCalls calls).Register h (pre ++ tk :: post)).2.subscribersOf t =
          ((NewEBus d).afterCalls calls).subscribersOf t ++ [newSyncSubscriber h]) ∧
      (∀ t, t ∉ pre →
        (((NewEBus d).afterCalls calls).Register h (pre ++ tk :: post)).2.topics.lookup t =
          ((NewEBus d).afterCalls calls).topics.lookup t)) ∧
    ((((NewEBus d).afterCalls calls).RegisterAsync h (pre ++ tk :: post)).1 =
        some GoError.ErrSubscriberAlreadyRegistered ∧
      (∀ t ∈ pre,
        (((NewEBus d).afterCalls calls).RegisterAsync h
            (pre ++ tk :: post)).2.subscribersOf t =
          ((NewEBus d).afterCalls calls).subscribersOf t ++ [newAsyncSubscriber h]) ∧
      (∀ t, t ∉ pre →
        (((NewEBus d).afterCalls calls).RegisterAsync h
            (pre ++ tk :: post)).2.topics.lookup t =
          ((NewEBus d).afterCalls calls).topics.lookup t)) := by
  have hb : ((NewEBus d).afterCalls calls).Ok := afterCalls_ok calls _ (NewEBus_ok d)
  have hlen : ¬ (pre ++ tk :: post).length = 0 := by simp
  simp only [bus.Register, bus.RegisterAsync, hlen, if_false]
  exact ⟨registerLoop_stops false h _ hb pre tk post hnd hpre hk,
    registerLoop_stops true h _ hb pre tk post hnd hpre hk⟩

/-- C31 at a sample input: with `audit` registered on `orders` only, `Register` of
another handler with identifier `audit` over `users`, `billing`, `orders`, `payments`
fails on `orders`, leaves the handler on `users` and on `billing`, and does not create
`payments`. -/
theorem C31_registration_stops_at_first_duplicate_witness :
    (((NewEBus none).afterCalls sampleBusCalls).Register auditAgain
        (["users", "billing"] ++ "orders" :: ["payments"])).1 =
      some GoError.ErrSubscriberAlreadyRegistered ∧
    ((((NewEBus none).afterCalls sampleBusCalls).Register auditAgain
        (["users", "billing"] ++ "orders" :: ["payments"])).2.subscribersOf "users").map
      Subscriber.Identifier = ["subscriber-stats", "subscriber-audit"] ∧
    ((((NewEBus none).afterCalls sampleBusCalls).Register auditAgain
        (["users", "billing"] ++ "orders" :: ["payments"])).2.subscribersOf "billing").map
      Subscriber.Identifier = ["subscriber-audit"] ∧
    ((((NewEBus none).afterCalls sampleBusCalls).Register auditAgain
        (["users", "billing"] ++ "orders" :: ["payments"])).2.subscribersOf "orders").map
      Subscriber.Identifier = ["subscriber-audit", "subscriber-mail", "subscriber-stats"] ∧
    ((((NewEBus none).afterCalls sampleBusCalls).Register auditAgain
        (["users", "billing"] ++ "orders" :: ["payments"])).2.topics.lookup
      "payments").isNone = true :=
  ⟨(C31_registration_stops_at_first_duplicate none sampleBusCalls auditAgain
      ["users", "billing"] "orders" ["payments"] (by decide)
      (fun t ht s hs => by
        simp only [List.mem_cons, List.mem_singleton, List.not_mem_nil, or_false] at ht
        rcases ht with ht | ht
        · have hl : ((NewEBus none).afterCalls sampleBusCalls).subscribersOf "users" =
              [newAsyncSubscriber statsHandler] := rfl
          rw [ht, hl, List.mem_singleton] at hs
          rw [hs]
          decide
        · have hl : ((NewEBus none).afterCalls sampleBusCalls).subscribersOf "billing" =
              [] := rfl
          rw [ht, hl] at hs
          simp at hs)
      ⟨newSyncSubscriber auditHandler, List.Mem.head _, rfl⟩).1.1,
   by decide, by decide, by decide, by decide⟩

/-- C31, the claim as stated fails.  With `audit` registered on `orders` only,
`Register` of another handler with identifier `audit` over `billing`, `billing`,
`users`, `orders` fails on the second `billing`, where the first round has just
registered it: the handler is on `billing` and not on `users`, which comes before
`orders`.  Over `billing`, `orders`, `billing` the call fails on `orders`, and the
handler is on the topic that comes after `orders`. -/
theorem C31_counterexample :
    (((NewEBus none).afterCalls sampleBusCalls).subscribersOf "billing").map
      Subscriber.Identifier = [] ∧
    (((NewEBus none).afterCalls sampleBusCalls).subscribersOf "users").map
      Subscriber.Identifier = ["subscriber-stats"] ∧
    (((NewEBus none).afterCalls sampleBusCalls).subscribersOf "orders").map
      Subscriber.Identifier = ["subscriber-audit", "subscriber-mail", "subscriber-stats"] ∧
    (((NewEBus none).afterCalls sampleBusCalls).Register auditAgain
        ["billing", "billing", "users", "orders"]).1 =
      some GoError.ErrSubscriberAlreadyRegistered ∧
    ((((NewEBus none).afterCalls sampleBusCalls).Register auditAgain
        ["billing", "billing", "users", "orders"]).2.subscribersOf "billing").map
      Subscriber.Identifier = ["subscriber-audit"] ∧
    ((((NewEBus none).afterCalls sampleBusCalls).Register auditAgain
        ["billing", "billing", "users", "orders"]).2.subscribersOf "users").map
      Subscriber.Identifier = ["subscriber-stats"] ∧
    (((NewEBus none).afterCalls sampleBusCalls).Register auditAgain
        ["billing", "orders", "billing"]).1 =
      some GoError.ErrSubscriberAlreadyRegistered ∧
    ((((NewEBus none).afterCalls sampleBusCalls).Register auditAgain
        ["billing", "orders", "billing"]).2.subscribersOf "billing").map
      Subscriber.Identifier = ["subscriber-audit"] := by
  decide

end DddCore
